import Mathlib

/-!
# TrafficGenerator client (`src/client/client.c`)

A shallow embedding of the client-side load generator: the request plan, the
request and sentinel headers, the statistics pass over the plan, the plan
builder, the connection pools shared by the dispatcher and the receivers, and
the pacing loop of the dispatcher.

Conventions of the embedding.

* `unsigned int` is a `Nat` below `2 ^ 32`; every arithmetic result that C
  stores in an `unsigned int` is reduced `% 2 ^ 32` where it is computed (the
  increments and decrements of the pool counters are written by cases,
  `u32_inc` and `u32_dec`, and shown equal to the reduced sum and difference).
  `unsigned long` and `unsigned long long` are 64 bits wide (LP64).
* `long` (the fields of `struct timeval`) is an `Int`; the conversion of a
  `long` to `unsigned long long` is `% 2 ^ 64`.
* A C array is a `List`; `arr[i]` is `List.getD` with the value `calloc`
  leaves in the cell as default.
* Everything the program obtains from its environment (the clock, the result
  of a socket call, the C library random generator) is an explicit argument.
* A function of the dispatcher or of a receiver is the list of its atomic
  statements in program order (`Op`), executed by `exec`. The threads are
  interleaved at two grains: call by call (`step`: one call of `run_request`
  or `exit_connection`, or one iteration of the loop of `listen_connection`),
  and statement by statement (`thread_step`: one statement of one thread).
* `conn.h`, `conn.c`, `common.h`, `common.c` and `cdf.c` are not among the
  sources; what the client uses of them is modelled from the specification or
  taken as an argument, and marked so.
-/

namespace TrafficGenerator

/-! ## Definitions -/

/-- The C type `struct timeval`: seconds and microseconds, both `long`. -/
structure timeval where
  tv_sec : Int
  tv_usec : Int
  deriving DecidableEq, Repr

/-- The value `calloc` leaves in a `struct timeval` cell. -/
def timeval_zero : timeval := { tv_sec := 0, tv_usec := 0 }

/-- Modelled from the spec: the number of bits of the `tos` field of
`struct flow_metadata`. The declaration (`common.h`) is missing; section 3 of
the specification types the header as `(id: u32, size: u32, tos: u8,
rate_mbps: u32)`. -/
def TOS_BITS : Nat := 8

/-- Modelled from the spec: `struct flow_metadata` (declared in the missing
`common.h`), the header `(id, size, tos, rate)` of section 3. -/
structure flow_metadata where
  id : Nat
  size : Nat
  tos : Nat
  rate : Nat
  deriving DecidableEq, Repr

/-- The per-request globals of `client.c` that make up the plan:
`req_total_num` and the arrays `req_size`, `req_server_id`, `req_dscp`,
`req_rate`, `req_sleep_us`. -/
structure Plan where
  req_total_num : Nat
  req_size : List Nat
  req_server_id : List Nat
  req_dscp : List Nat
  req_rate : List Nat
  req_sleep_us : List Nat
  deriving DecidableEq, Repr

/-- Array read `arr[i]` of an `unsigned int` array obtained from `calloc`. -/
def rd (arr : List Nat) (i : Nat) : Nat := arr.getD i 0

/-- Array read `arr[i]` of a `struct timeval` array obtained from `calloc`. -/
def rd_time (arr : List timeval) (i : Nat) : timeval := arr.getD i timeval_zero

/-- The header `run_request` fills in (lines 694-697):
`flow.id = req_id + 1; flow.size = req_size[req_id];
flow.tos = req_dscp[req_id] << 2; flow.rate = req_rate[req_id];`.
The sum and the shift are `unsigned int` operations; the shifted value is then
stored in the `tos` field. -/
def run_request_flow (p : Plan) (req_id : Nat) : flow_metadata :=
  { id := (req_id + 1) % 2 ^ 32
    size := rd p.req_size req_id
    tos := ((rd p.req_dscp req_id <<< 2) % 2 ^ 32) % 2 ^ TOS_BITS
    rate := rd p.req_rate req_id }

/-- The header `exit_connection` fills in (lines 774-777). -/
def exit_connection_flow : flow_metadata :=
  { id := 0, size := 100, tos := 0, rate := 0 }

/-- The test of `read_config` on a `dscp` line (lines 476-485):
`dscp_value < 0 || dscp_value >= 64` is an error, then `dscp_prob < 0` is an
error. Both operands are `unsigned int`, so the comparisons with `0` never
hold. -/
def read_config_dscp (value prob : Nat) : Except String Unit :=
  if value < 0 ∨ value ≥ 64 then .error "Invalid DSCP value"
  else if prob < 0 then .error "Invalid DSCP probability value"
  else .ok ()

/-! ### `print_statistic` -/

/-- The test `req_stop_time[i].tv_sec == 0 && req_stop_time[i].tv_usec == 0`
(line 808). -/
def stop_is_zero (t : timeval) : Bool := t.tv_sec == 0 && t.tv_usec == 0

/-- The assignment to `fct_us` (line 814): the expression is evaluated in
`long` and converted to `unsigned long long`. -/
def fct_us (start stop : timeval) : Nat :=
  (((stop.tv_sec - start.tv_sec) * 1000000 + stop.tv_usec - start.tv_usec) % 2 ^ 64).toNat

/-- The assignment to `flow_goodput_mbps` (lines 815-818). `req_size[i] * 8`
is an `unsigned int` product; it is widened to `unsigned long long` for the
division and the quotient is stored in an `unsigned int`. -/
def flow_goodput_mbps (size fct : Nat) : Nat :=
  if fct > 0 then ((size * 8) % 2 ^ 32 / fct) % 2 ^ 32 else 0

/-- What the loop of `print_statistic` has produced so far: the running total
`req_size_total`, the lines written to the FCT log (each line the list of its
fields, in the order of the format string) and the indices reported on standard
output as unfinished. -/
structure StatOut where
  req_size_total : Nat
  fd : List (List Nat)
  stdout : List Nat
  deriving DecidableEq, Repr

/-- The line `fprintf` writes for entry `i` (line 821):
`"%u %llu %u %u %u\n"` with `req_size[i], fct_us, req_dscp[i], req_rate[i],
flow_goodput_mbps`. -/
def fct_line (p : Plan) (start stop : List timeval) (i : Nat) : List Nat :=
  [ rd p.req_size i,
    fct_us (rd_time start i) (rd_time stop i),
    rd p.req_dscp i,
    rd p.req_rate i,
    flow_goodput_mbps (rd p.req_size i) (fct_us (rd_time start i) (rd_time stop i)) ]

/-- One iteration of the loop of `print_statistic` (lines 807-821). -/
def print_statistic_body (p : Plan) (start stop : List timeval) (acc : StatOut) (i : Nat) :
    StatOut :=
  let total := (acc.req_size_total + rd p.req_size i) % 2 ^ 64
  if stop_is_zero (rd_time stop i) then
    { req_size_total := total, fd := acc.fd, stdout := acc.stdout ++ [i] }
  else
    { req_size_total := total, fd := acc.fd ++ [fct_line p start stop i], stdout := acc.stdout }

/-- The loop `for (i = 0; i < req_total_num; i++)` of `print_statistic`
(lines 805-822), started on an empty log. -/
def print_statistic (p : Plan) (start stop : List timeval) : StatOut :=
  (List.range p.req_total_num).foldl (print_statistic_body p start stop)
    { req_size_total := 0, fd := [], stdout := [] }

/-- A plan of two requests, used to evaluate the definitions. -/
def plan_two : Plan :=
  { req_total_num := 2, req_size := [1000, 2000], req_server_id := [0, 0],
    req_dscp := [0, 10], req_rate := [0, 0], req_sleep_us := [5, 7] }

/-- A plan of one request of 512 MiB, used to evaluate `print_statistic`. -/
def plan_big : Plan :=
  { req_total_num := 1, req_size := [536870912], req_server_id := [0],
    req_dscp := [0], req_rate := [0], req_sleep_us := [0] }

/-- A plan of three requests with distinct sizes, DSCPs and rates. -/
def plan_three : Plan :=
  { req_total_num := 3, req_size := [1000, 2000, 3000000], req_server_id := [0, 0, 0],
    req_dscp := [1, 2, 3], req_rate := [10, 20, 30], req_sleep_us := [0, 0, 0] }

/-! ### The plan builder: `main` (seeding) and `set_req_variables` -/

/-- The random number generator of the C library, an environment of the
program: `srand` installs a state from an `unsigned int` seed, `rand` returns a
non-negative `int` and the next state. The generator state is the only thing
`rand` reads. -/
structure Libc (S : Type) where
  srand : Nat → S
  rand : S → Nat × S

/-- The `double` arithmetic `set_req_variables` uses, over a carrier `D`:
conversion of an `int` or `unsigned int` to `double`, product, quotient, the
test `x > 0` and the conversion of a `double` to `unsigned int`. The carrier
and the operations are arguments of the model: the hardware evaluates them. -/
structure DoubleOps (D : Type) where
  of_int : Nat → D
  mul : D → D → D
  div : D → D → D
  gt_zero : D → Bool
  to_uint : D → Nat

/-- The parts of `common.h`, `common.c` and `cdf.c` that `set_req_variables`
calls and that are missing from the sources, taken as arguments: the macro
`TG_GOODPUT_RATIO`, `avg_cdf`, and the three samplers. A sampler draws from
the generator state and returns its value with the next state. -/
structure Library (S Cdf D : Type) where
  TG_GOODPUT_RATIO : D
  avg_cdf : Cdf → D
  gen_random_cdf : Cdf → S → Nat × S
  gen_value_weight : List Nat → List Nat → Nat → Nat → S → Nat × S
  poission_gen_interval : D → S → Nat × S

/-- What `read_args` and `read_config` leave in the globals that `main` and
`set_req_variables` read. `seed` is the decimal integer the argument of `-s`
denotes (`0` without the option); the global `int seed` is
`read_args_seed seed`. -/
structure Config (Cdf D : Type) where
  seed : Int
  load : D
  req_total_num : Nat
  req_total_time : Nat
  num_server : Nat
  num_dscp : Nat
  dscp_value : List Nat
  dscp_prob : List Nat
  dscp_prob_total : Nat
  num_rate : Nat
  rate_value : List Nat
  rate_prob : List Nat
  rate_prob_total : Nat
  req_size_dist : Cdf

/-- The assignment `period_us = avg_cdf(req_size_dist) * 8 / load /
TG_GOODPUT_RATIO` (line 549): the `double` quotient stored in the
`unsigned int` `period_us`. -/
def period_us_stored {S Cdf D : Type} (ops : DoubleOps D) (lib : Library S Cdf D)
    (cfg : Config Cdf D) : Nat :=
  ops.to_uint (ops.div (ops.div (ops.mul (lib.avg_cdf cfg.req_size_dist) (ops.of_int 8))
    cfg.load) lib.TG_GOODPUT_RATIO) % 2 ^ 32

/-- The computation and the validation of `period_us` in `set_req_variables`
(lines 546-560): an error when the stored `period_us <= 0`, and an error when
`load > 0` fails. -/
def set_req_variables_period {S Cdf D : Type} (ops : DoubleOps D) (lib : Library S Cdf D)
    (cfg : Config Cdf D) : Except String Nat :=
  if ops.gt_zero cfg.load then
    if period_us_stored ops lib cfg ≤ 0 then .error "Error: period_us is not positive"
    else .ok (period_us_stored ops lib cfg)
  else
    .error "Error: load is not positive"

/-- Modelled from the spec: the macro `max` of the missing `common.h`
(`count = max(T·10^6 / period_us, 1)` in section 4.4), the larger of its two
arguments. -/
def c_max (a b : Nat) : Nat := if a > b then a else b

/-- The conversion of the duration to a count (lines 562-564):
`req_total_num = max((unsigned long)req_total_time * 1000000 / period_us, 1)`.
The product and the quotient are `unsigned long`; the result is stored in the
`unsigned int` `req_total_num`. -/
def set_req_variables_count (req_total_num req_total_time period_us : Nat) : Nat :=
  if req_total_num = 0 ∧ req_total_time > 0 then
    c_max ((req_total_time * 1000000) % 2 ^ 64 / period_us) 1 % 2 ^ 32
  else
    req_total_num

/-- The state of the loop of `set_req_variables`: the generator state, the
per-request arrays, the per-server counters and the `unsigned long` totals. -/
structure PlanAcc (S : Type) where
  rng : S
  req_size : List Nat
  req_server_id : List Nat
  req_dscp : List Nat
  req_rate : List Nat
  req_sleep_us : List Nat
  server_req_count : List Nat
  req_size_total : Nat
  req_interval_total : Nat
  rate_total : Nat

/-- One iteration of the loop of `set_req_variables` (lines 583-593); the
`double` total `dscp_total` is only printed and is left out. -/
def set_req_variables_body {S Cdf D : Type} (ops : DoubleOps D) (lib : Library S Cdf D)
    (libc : Libc S) (cfg : Config Cdf D) (period_us : Nat) (acc : PlanAcc S) (i : Nat) :
    PlanAcc S :=
  let r1 := lib.gen_random_cdf cfg.req_size_dist acc.rng
  let r2 := libc.rand r1.2
  let r3 := lib.gen_value_weight cfg.dscp_value cfg.dscp_prob cfg.num_dscp cfg.dscp_prob_total r2.2
  let r4 := lib.gen_value_weight cfg.rate_value cfg.rate_prob cfg.num_rate cfg.rate_prob_total r3.2
  let r5 := lib.poission_gen_interval (ops.div (ops.of_int 1) (ops.of_int period_us)) r4.2
  let size := r1.1 % 2 ^ 32
  let server := (r2.1 % cfg.num_server) % 2 ^ 32
  let dscp := r3.1 % 2 ^ 32
  let rate := r4.1 % 2 ^ 32
  let sleep := r5.1 % 2 ^ 32
  { rng := r5.2
    req_size := acc.req_size.set i size
    req_server_id := acc.req_server_id.set i server
    req_dscp := acc.req_dscp.set i dscp
    req_rate := acc.req_rate.set i rate
    req_sleep_us := acc.req_sleep_us.set i sleep
    server_req_count := acc.server_req_count.set server ((rd acc.server_req_count server + 1) % 2 ^ 32)
    req_size_total := (acc.req_size_total + size) % 2 ^ 64
    req_interval_total := (acc.req_interval_total + sleep) % 2 ^ 64
    rate_total := (acc.rate_total + rate) % 2 ^ 64 }

/-- What `set_req_variables` leaves behind: `period_us`, the plan and the
three integer averages it prints (lines 603-606); an average is `none` when its
division is a division by zero. -/
structure PlanOut where
  period_us : Nat
  plan : Plan
  avg_interval : Option Nat
  avg_size : Option Nat
  avg_rate : Option Nat
  deriving DecidableEq, Repr

/-- The C quotient `a / b` of two `unsigned long`: undefined for `b = 0`. -/
def c_div (a b : Nat) : Option Nat := if b = 0 then none else some (a / b)

/-- The function `set_req_variables` (lines 538-608) run from the generator
state `rng`, with successful `calloc`s. -/
def set_req_variables {S Cdf D : Type} (ops : DoubleOps D) (lib : Library S Cdf D)
    (libc : Libc S) (cfg : Config Cdf D) (rng : S) : Except String PlanOut :=
  match set_req_variables_period ops lib cfg with
  | .error e => .error e
  | .ok period_us =>
    let n := set_req_variables_count cfg.req_total_num cfg.req_total_time period_us
    let acc := (List.range n).foldl (set_req_variables_body ops lib libc cfg period_us)
      { rng := rng
        req_size := List.replicate n 0
        req_server_id := List.replicate n 0
        req_dscp := List.replicate n 0
        req_rate := List.replicate n 0
        req_sleep_us := List.replicate n 0
        server_req_count := List.replicate cfg.num_server 0
        req_size_total := 0
        req_interval_total := 0
        rate_total := 0 }
    .ok
      { period_us := period_us
        plan :=
          { req_total_num := n
            req_size := acc.req_size
            req_server_id := acc.req_server_id
            req_dscp := acc.req_dscp
            req_rate := acc.req_rate
            req_sleep_us := acc.req_sleep_us }
        avg_interval := c_div acc.req_interval_total n
        avg_size := c_div acc.req_size_total n
        avg_rate := c_div acc.rate_total n }

/-- The linear congruential generator of the sample `rand` in the C standard:
`next = next * 1103515245 + 12345; return (next / 65536) % 32768`. -/
def libc_lcg : Libc Nat :=
  { srand := fun seed => seed
    rand := fun s =>
      let next := (s * 1103515245 + 12345) % 2 ^ 32
      ((next / 65536) % 32768, next) }

/-- Integer stand-ins for the `double` operations. -/
def ops_nat : DoubleOps Nat :=
  { of_int := fun n => n
    mul := fun a b => a * b
    div := fun a b => a / b
    gt_zero := fun a => decide (a > 0)
    to_uint := fun a => a }

/-- A library over `libc_lcg`: the size distribution is a list of sizes drawn
uniformly, a weighted value is found by scanning the cumulative weights, and a
gap is drawn uniformly below `2000`. -/
def lib_lcg : Library Nat (List Nat) Nat :=
  { TG_GOODPUT_RATIO := 1
    avg_cdf := fun cdf => cdf.sum / cdf.length
    gen_random_cdf := fun cdf s => (rd cdf ((libc_lcg.rand s).1 % cdf.length), (libc_lcg.rand s).2)
    gen_value_weight := fun values weights _ total s =>
      let r := (libc_lcg.rand s).1 % total
      let k := ((List.range weights.length).filter
        (fun j => decide (r < (weights.take (j + 1)).sum))).headD 0
      (rd values k, (libc_lcg.rand s).2)
    poission_gen_interval := fun _ s => ((libc_lcg.rand s).1 % 2000, (libc_lcg.rand s).2) }

/-- A configuration with a duration instead of a count: `-t 67108864`, one
size `15625` and load `8`, so that `period_us = 15625`. -/
def cfg_long : Config (List Nat) Nat :=
  { seed := 1, load := 8, req_total_num := 0, req_total_time := 67108864, num_server := 1
    num_dscp := 1, dscp_value := [0], dscp_prob := [100], dscp_prob_total := 100
    num_rate := 1, rate_value := [0], rate_prob := [100], rate_prob_total := 100
    req_size_dist := [15625] }

/-- The averages `set_req_variables` prints, `none` for an error before them. -/
def averages_of (r : Except String PlanOut) : Option (Option Nat × Option Nat × Option Nat) :=
  match r with
  | .ok out => some (out.avg_interval, out.avg_size, out.avg_rate)
  | .error _ => none

/-! ### Connection pools -/

/-- Modelled from the spec: `struct conn_node` of the missing `conn.h`
(section 3, "Connection node"). `sockfd` stands for the connection behind the
descriptor: the headers written on it that the server has not answered yet,
oldest first. `exited` is the state of the `thread` handle: the receiver of
the node has returned. -/
structure conn_node where
  connected : Bool
  busy : Bool
  sockfd : List flow_metadata
  exited : Bool
  deriving DecidableEq, Repr

/-- Modelled from the spec: `struct conn_list` of the missing `conn.h`
(section 3, "Connection pool"): the nodes from `head` to `tail` and the
`unsigned int` counters `len`, `available_len` and `flow_finished`. -/
structure conn_list where
  nodes : List conn_node
  len : Nat
  available_len : Nat
  flow_finished : Nat
  deriving DecidableEq, Repr

/-- The pool `calloc` and `init_conn_list` leave: no node, counters `0`. -/
def conn_list_zero : conn_list :=
  { nodes := [], len := 0, available_len := 0, flow_finished := 0 }

/-- Modelled from the spec: the node `insert_conn_list` appends for a
successful connect (section 4.5, `grow`): `connected = true, busy = false`. -/
def conn_node_new : conn_node :=
  { connected := true, busy := false, sockfd := [], exited := false }

/-- The part of the process state the pools and the receivers share:
`connection_lists`, `req_start_time` and `req_stop_time`. -/
structure State where
  connection_lists : List conn_list
  req_start_time : List timeval
  req_stop_time : List timeval
  deriving DecidableEq, Repr

/-- Update of the cell `k` of a list by `f`; a list without a cell `k` is
unchanged. -/
def modifyAt {α : Type} (f : α → α) : Nat → List α → List α
  | _, [] => []
  | 0, a :: l => f a :: l
  | k + 1, a :: l => a :: modifyAt f k l

/-- The pool `connection_lists[server]`. -/
def pool_at (s : State) (server : Nat) : conn_list :=
  s.connection_lists.getD server conn_list_zero

/-- The C value of `x + 1` for an `unsigned int` `x`: `UINT_MAX` wraps to
`0`. It is `(x + 1) % 2 ^ 32` (`u32_inc_eq_mod`). -/
def u32_inc (x : Nat) : Nat := if x = 4294967295 then 0 else x + 1

/-- The C value of `x - 1` for an `unsigned int` `x`: `0` wraps to
`UINT_MAX`. It is `(x + 2 ^ 32 - 1) % 2 ^ 32` (`u32_dec_eq_mod`). -/
def u32_dec (x : Nat) : Nat := if x = 0 then 4294967295 else x - 1

/-- An atomic statement on one pool and its nodes. -/
inductive PoolOp
  | set_busy (node : Nat) (b : Bool)
  | set_connected (node : Nat) (b : Bool)
  | lock
  | unlock
  | available_len_dec
  | available_len_inc
  | flow_finished_inc
  | insert_conn
  | pthread_create (node : Nat)
  | write_flow_req (node : Nat) (flow : flow_metadata) (ok : Bool)
  | read_response (node : Nat)
  | close (node : Nat)
  | thread_return (node : Nat)
  deriving DecidableEq, Repr

/-- An atomic statement of the dispatcher or of a receiver: a statement on
the pool `server`, or a `gettimeofday` into a cell of `req_start_time` or of
`req_stop_time`, with the clock value it reads. -/
inductive Op
  | pool (server : Nat) (o : PoolOp)
  | gettimeofday_start (req_id : Nat) (now : timeval)
  | gettimeofday_stop (i : Nat) (now : timeval)
  deriving DecidableEq, Repr

/-- The effect of a statement on its pool. The counters are `unsigned int`.
`insert_conn` is modelled from the spec (`grow`: append the new node and
increment `len` and `available_len`); a successful write appends the header
to the connection, a complete read removes the oldest one, `close` discards
what is left. -/
def PoolOp.apply (o : PoolOp) (list : conn_list) : conn_list :=
  match o with
  | .set_busy node b =>
    { list with nodes := modifyAt (fun n => { n with busy := b }) node list.nodes }
  | .set_connected node b =>
    { list with nodes := modifyAt (fun n => { n with connected := b }) node list.nodes }
  | .lock => list
  | .unlock => list
  | .available_len_dec =>
    { list with available_len := u32_dec list.available_len }
  | .available_len_inc =>
    { list with available_len := u32_inc list.available_len }
  | .flow_finished_inc =>
    { list with flow_finished := u32_inc list.flow_finished }
  | .insert_conn =>
    { list with
      nodes := list.nodes ++ [conn_node_new]
      len := u32_inc list.len
      available_len := u32_inc list.available_len }
  | .pthread_create _ => list
  | .write_flow_req node flow ok =>
    if ok then
      { list with
        nodes := modifyAt (fun n => { n with sockfd := n.sockfd ++ [flow] }) node list.nodes }
    else list
  | .read_response node =>
    { list with nodes := modifyAt (fun n => { n with sockfd := n.sockfd.tail }) node list.nodes }
  | .close node =>
    { list with nodes := modifyAt (fun n => { n with sockfd := [] }) node list.nodes }
  | .thread_return node =>
    { list with nodes := modifyAt (fun n => { n with exited := true }) node list.nodes }

/-- The effect of a statement on the state. -/
def Op.apply (o : Op) (s : State) : State :=
  match o with
  | .pool server po =>
    { s with connection_lists := modifyAt (PoolOp.apply po) server s.connection_lists }
  | .gettimeofday_start req_id now =>
    { s with req_start_time := s.req_start_time.set req_id now }
  | .gettimeofday_stop i now =>
    { s with req_stop_time := s.req_stop_time.set i now }

/-- The statements of a list executed in order. -/
def exec (ops : List Op) (s : State) : State :=
  ops.foldl (fun st o => o.apply st) s

/-- The walk from a node to the first one with `connected ∧ ¬busy`; `k` is
the index of the first node of `nodes`. -/
def search_from : List conn_node → Nat → Option Nat
  | [], _ => none
  | n :: rest, k => if n.connected && !n.busy then some k else search_from rest (k + 1)

/-- Modelled from the spec: `search_conn_list` of the missing `conn.c`
(section 4.5, `acquire`): the first node with `connected ∧ ¬busy`, or none; it
does not mark the node busy. -/
def search_conn_list (list : conn_list) : Option Nat :=
  search_from list.nodes 0

/-- What the environment decides during one call of `run_request` or of
`exit_connection`: whether the connect of `insert_conn_list(…, 1)` succeeds,
whether the write of the header succeeds, and the clock value. -/
structure DispatchEnv where
  connect_ok : Bool
  write_ok : Bool
  now : timeval
  deriving DecidableEq, Repr

/-- The statements of `run_request` from line 725 on, for the node `node` of
the pool `server`: record the start time, set `busy`, decrement
`available_len` under the lock, write the header. -/
def run_request_send (server node req_id : Nat) (flow : flow_metadata) (env : DispatchEnv) :
    List Op :=
  [ .gettimeofday_start req_id env.now,
    .pool server (.set_busy node true),
    .pool server .lock,
    .pool server .available_len_dec,
    .pool server .unlock,
    .pool server (.write_flow_req node flow env.write_ok) ]

/-- The statements `run_request(req_id)` executes in the state `s`
(lines 685-735). When `search_conn_list` finds no node, one connection is
added and the new tail is used; when that fails the function returns. -/
def run_request_ops (p : Plan) (env : DispatchEnv) (req_id : Nat) (s : State) : List Op :=
  let server_id := rd p.req_server_id req_id
  let flow := run_request_flow p req_id
  match search_conn_list (pool_at s server_id) with
  | some node => run_request_send server_id node req_id flow env
  | none =>
    if env.connect_ok then
      let tail := (pool_at s server_id).nodes.length
      [ .pool server_id .insert_conn, .pool server_id (.pthread_create tail) ] ++
        run_request_send server_id tail req_id flow env
    else []

/-- The function `run_request` as a state transformer. -/
def run_request (p : Plan) (env : DispatchEnv) (req_id : Nat) (s : State) : State :=
  exec (run_request_ops p env req_id s) s

/-- The statements of `exit_connection(node)` (lines 770-789) for the node
`node` of the pool `server`. -/
def exit_connection_ops (server node : Nat) (env : DispatchEnv) : List Op :=
  [ .pool server .lock,
    .pool server .available_len_dec,
    .pool server .unlock,
    .pool server (.write_flow_req node exit_connection_flow env.write_ok) ]

/-- The function `exit_connection` as a state transformer. -/
def exit_connection (server node : Nat) (env : DispatchEnv) (s : State) : State :=
  exec (exit_connection_ops server node env) s

/-- The result of the two reads at the top of the loop of `listen_connection`
(lines 619-629). -/
inductive ReadResult
  | header_failed
  | short_payload (flow : flow_metadata)
  | complete (flow : flow_metadata)
  deriving DecidableEq, Repr

/-- The statements after the loop of `listen_connection` (lines 650-654). -/
def listen_connection_exit (server node : Nat) : List Op :=
  [ .pool server (.close node),
    .pool server (.set_connected node false),
    .pool server (.set_busy node false),
    .pool server (.thread_return node) ]

/-- The statements of one iteration of the loop of `listen_connection`
(lines 619-648) for the node `node` of the pool `server`, followed by the
statements after the loop when the iteration leaves it. `flow.id - 1` is an
`unsigned int` difference. -/
def listen_connection_ops (server node : Nat) (r : ReadResult) (now : timeval) : List Op :=
  match r with
  | .header_failed => listen_connection_exit server node
  | .short_payload _ => listen_connection_exit server node
  | .complete flow =>
    [ .pool server (.read_response node),
      .pool server (.set_busy node false),
      .pool server .lock ] ++
    (if flow.id ≠ 0 then
      [ .pool server .flow_finished_inc, .pool server .available_len_inc ]
     else []) ++
    [ .pool server .unlock ] ++
    (if flow.id = 0 then listen_connection_exit server node
     else [ .gettimeofday_stop (u32_dec flow.id) now ])

/-- One iteration of `listen_connection` as a state transformer. -/
def listen_connection (server node : Nat) (r : ReadResult) (now : timeval) (s : State) : State :=
  exec (listen_connection_ops server node r now) s

/-! ### The threads of a run -/

/-- Where the main thread stands between two of its steps: before
`run_request(i)` in the loop of `run_requests`; before the visit of the node
`ptr` of the pool `i` in the loops of `exit_connections`; in
`wait_conn_list` of the pool `i`; after `exit_connections` has returned. -/
inductive MainPc
  | run_requests (i : Nat)
  | exit_connections (i ptr : Nat)
  | wait_conn_list (i : Nat)
  | finished
  deriving DecidableEq, Repr

/-- The client between two steps of its threads. -/
structure System where
  pc : MainPc
  st : State
  deriving DecidableEq, Repr

/-- Modelled from the spec: `insert_conn_list(list, k)` of the missing
`conn.c` (section 4.5, `grow`), given the outcome of each of the `k` connects:
one node is appended for every success, and the result is true iff at least
one was added. -/
def insert_conn_list (list : conn_list) (connects : List Bool) : conn_list × Bool :=
  ((connects.filter id).foldl (fun l _ => PoolOp.apply .insert_conn l) list, connects.any id)

/-- The start of `main` up to the call of `run_requests` (lines 116-160), given
the outcomes of the `TG_PAIR_INIT_CONN` connects to each server: every pool is
initialised and grown, a receiver is started on every node, and `main` exits
with an error (`none`) when a pool could not be grown. The time arrays are the
zeroed arrays `set_req_variables` allocated. -/
def main_init (connects : List (List Bool)) (req_total_num : Nat) : Option System :=
  if connects.all (fun c => (insert_conn_list conn_list_zero c).2) then
    some
      { pc := .run_requests 0
        st :=
          { connection_lists := connects.map (fun c => (insert_conn_list conn_list_zero c).1)
            req_start_time := List.replicate req_total_num timeval_zero
            req_stop_time := List.replicate req_total_num timeval_zero } }
  else none

/-- One step of the main thread (the loop of `run_requests`, lines 664-679,
then `exit_connections`, lines 738-767). A step is one call of `run_request`,
the visit of one node by `exit_connections` (a call of `exit_connection` when
the node is connected), or the return of `wait_conn_list`, which is modelled
from the spec (`join_all`: it returns once every receiver of the pool has
exited); `none` when the main thread cannot move. -/
def main_step (p : Plan) (env : DispatchEnv) (sys : System) : Option System :=
  match sys.pc with
  | .run_requests i =>
    if i < p.req_total_num then
      some { pc := .run_requests (i + 1), st := run_request p env i sys.st }
    else
      some { pc := .exit_connections 0 0, st := sys.st }
  | .exit_connections i ptr =>
    if i < sys.st.connection_lists.length then
      match (pool_at sys.st i).nodes[ptr]? with
      | none => some { pc := .wait_conn_list i, st := sys.st }
      | some n =>
        if n.connected then
          some { pc := .exit_connections i (ptr + 1), st := exit_connection i ptr env sys.st }
        else
          some { pc := .exit_connections i (ptr + 1), st := sys.st }
    else
      some { pc := .finished, st := sys.st }
  | .wait_conn_list i =>
    if (pool_at sys.st i).nodes.all (fun n => n.exited) then
      some { pc := .exit_connections (i + 1) 0, st := sys.st }
    else none
  | .finished => none

/-- Whether the reads of a receiver can have the result `r` on a connection
holding `sockfd`: a header that is read is the oldest header the server has
not answered yet, which the server echoes (section 6, "Response"); a failed
read of the header is always possible. -/
def read_possible (sockfd : List flow_metadata) (r : ReadResult) : Bool :=
  match r with
  | .header_failed => true
  | .short_payload flow => decide (sockfd.head? = some flow)
  | .complete flow => decide (sockfd.head? = some flow)

/-- One step of the receiver of the node `node` of the pool `server`: one
iteration of the loop of `listen_connection` with the read result `r`; `none`
when there is no such receiver running or the read cannot have that
result. -/
def recv_step (server node : Nat) (r : ReadResult) (now : timeval) (sys : System) :
    Option System :=
  match (pool_at sys.st server).nodes[node]? with
  | none => none
  | some n =>
    if !n.exited && read_possible n.sockfd r then
      some { pc := sys.pc, st := listen_connection server node r now sys.st }
    else none

/-- A step of one thread of the client, with what the environment decides
during it. -/
inductive Action
  | main (env : DispatchEnv)
  | recv (server node : Nat) (r : ReadResult) (now : timeval)
  deriving DecidableEq, Repr

/-- The step `a` from `sys`. -/
def step (p : Plan) (a : Action) (sys : System) : Option System :=
  match a with
  | .main env => main_step p env sys
  | .recv server node r now => recv_step server node r now sys

/-- A sequence of steps from `sys`, in the order the threads take them. -/
def run (p : Plan) : List Action → System → Option System
  | [], sys => some sys
  | a :: rest, sys =>
    match step p a sys with
    | none => none
    | some sys1 => run p rest sys1

/-- The number of nodes of a pool with `connected ∧ ¬busy`. -/
def free_count (list : conn_list) : Nat :=
  list.nodes.countP (fun n => n.connected && !n.busy)

/-- A state with one pool of one node that is busy with request `1`: its
header is on the connection, unanswered, and no stop time is recorded. -/
def state_one_busy : State :=
  { connection_lists :=
      [ { nodes := [ { connected := true, busy := true,
                       sockfd := [{ id := 1, size := 1000, tos := 0, rate := 0 }],
                       exited := false } ]
          len := 1, available_len := 0, flow_finished := 0 } ]
    req_start_time := [{ tv_sec := 5, tv_usec := 0 }]
    req_stop_time := [timeval_zero] }

/-- The statements of the receiver of that node for the complete response to
request `1`, read at the clock value `9 s`. -/
def ops_response_one : List Op :=
  listen_connection_ops 0 0 (.complete { id := 1, size := 1000, tos := 0, rate := 0 })
    { tv_sec := 9, tv_usec := 0 }

/-! ### Combined effects and invariants -/

/-- The combined effect of the statements of `run_request_send` on the node. -/
def node_send (flow : flow_metadata) (ok : Bool) (n : conn_node) : conn_node :=
  { n with busy := true, sockfd := if ok then n.sockfd ++ [flow] else n.sockfd }

/-- The combined effect of the statements of `exit_connection` on the node. -/
def node_exit (ok : Bool) (n : conn_node) : conn_node :=
  { n with sockfd := if ok then n.sockfd ++ [exit_connection_flow] else n.sockfd }

/-- The combined effect on the node of an iteration of `listen_connection`
that reads a complete response and stays in the loop. -/
def node_response (n : conn_node) : conn_node :=
  { n with busy := false, sockfd := n.sockfd.tail }

/-- The node a receiver leaves when it returns. -/
def node_closed : conn_node :=
  { connected := false, busy := false, sockfd := [], exited := true }

/-- The combined effect of the statements of `run_request_send` on the pool. -/
def pool_send (node : Nat) (flow : flow_metadata) (ok : Bool) (l : conn_list) : conn_list :=
  { nodes := modifyAt (node_send flow ok) node l.nodes
    len := l.len
    available_len := u32_dec l.available_len
    flow_finished := l.flow_finished }

/-- The combined effect of the statements of `exit_connection` on the pool. -/
def pool_exit (node : Nat) (ok : Bool) (l : conn_list) : conn_list :=
  { nodes := modifyAt (node_exit ok) node l.nodes
    len := l.len
    available_len := u32_dec l.available_len
    flow_finished := l.flow_finished }

/-- The combined effect on the pool of an iteration of `listen_connection`
that reads a complete response with a non-zero id. -/
def pool_response (node : Nat) (l : conn_list) : conn_list :=
  { nodes := modifyAt node_response node l.nodes
    len := l.len
    available_len := u32_inc l.available_len
    flow_finished := u32_inc l.flow_finished }

/-- The combined effect on the pool of an iteration of `listen_connection`
that leaves the loop. -/
def pool_close (node : Nat) (l : conn_list) : conn_list :=
  { nodes := modifyAt (fun _ => node_closed) node l.nodes
    len := l.len
    available_len := l.available_len
    flow_finished := l.flow_finished }

/-- A plan of one request. -/
def plan_one : Plan :=
  { req_total_num := 1, req_size := [1000], req_server_id := [0],
    req_dscp := [0], req_rate := [0], req_sleep_us := [0] }

/-- An environment in which the connect and the write succeed. -/
def env_ok (sec : Int) : DispatchEnv :=
  { connect_ok := true, write_ok := true, now := { tv_sec := sec, tv_usec := 0 } }

/-- For every pool of a system the pair of `available_len` and the number of
nodes with `connected ∧ ¬busy`. -/
def conservation_view (sys : Option System) : Option (List (Nat × Nat)) :=
  sys.map (fun x => x.st.connection_lists.map (fun l => (l.available_len, free_count l)))

/-- The system `main` starts `run_requests` from, for one server, one
connection and one request. -/
def sys_one : System :=
  { pc := .run_requests 0
    st :=
      { connection_lists :=
          [ { nodes := [conn_node_new], len := 1, available_len := 1, flow_finished := 0 } ]
        req_start_time := [timeval_zero]
        req_stop_time := [timeval_zero] } }

/-- The steps of a run without a failed socket call: the writes of the main
thread succeed and every receiver iteration reads a complete response. -/
def Action.no_failure (a : Action) : Bool :=
  match a with
  | .main env => env.write_ok
  | .recv _ _ r _ =>
    match r with
    | .complete _ => true
    | _ => false

/-- The number of connected nodes of a pool whose connection holds a
sentinel header that is not answered yet. -/
def sent_count (l : conn_list) : Nat :=
  l.nodes.countP (fun n => n.connected && n.sockfd.any (fun h => h.id == 0))

/-- The counters of a pool in a run without failures: `available_len` is the
number of nodes with `connected ∧ ¬busy` less the number of sentinels in
flight, modulo `2 ^ 32`. -/
def pool_counts (l : conn_list) : Prop :=
  (l.available_len + sent_count l) % 2 ^ 32 = free_count l % 2 ^ 32 ∧ l.available_len < 2 ^ 32

/-- The stages of a node in a run without failures: before
`exit_connections` has visited it, after the visit, after its receiver has
returned. -/
inductive NodeClass
  | pre
  | post
  | closed
  deriving DecidableEq, Repr

/-- The nodes of each stage. Before the visit a node is idle, or busy with
one unanswered request; after the visit its connection also holds the
sentinel, or its receiver has read the sentinel and returned. -/
def node_class (c : NodeClass) (n : conn_node) : Prop :=
  match c with
  | .pre =>
    n = conn_node_new ∨
    ∃ h, h.id ≠ 0 ∧ n = { connected := true, busy := true, sockfd := [h], exited := false }
  | .post =>
    (∃ z, z.id = 0 ∧ n = { connected := true, busy := false, sockfd := [z], exited := false }) ∨
    (∃ h z, h.id ≠ 0 ∧ z.id = 0 ∧
      n = { connected := true, busy := true, sockfd := [h, z], exited := false }) ∨
    n = node_closed
  | .closed => n = node_closed

/-- The stage of the node `k` of the pool `j` when the main thread stands at
`pc`. -/
def node_class_at (pc : MainPc) (j k : Nat) : NodeClass :=
  match pc with
  | .run_requests _ => .pre
  | .exit_connections i ptr =>
    if j < i then .closed else if j = i then (if k < ptr then .post else .pre) else .pre
  | .wait_conn_list i => if j < i then .closed else if j = i then .post else .pre
  | .finished => .closed

/-- The invariant of a run without failures. -/
def run_inv (sys : System) : Prop :=
  ∀ (j : Nat) (l : conn_list), sys.st.connection_lists[j]? = some l →
    pool_counts l ∧
    ∀ (k : Nat) (n : conn_node), l.nodes[k]? = some n → node_class (node_class_at sys.pc j k) n

/-- A complete run of `plan_two` on one server with one initial connection:
request `0` is sent on node `0`; node `0` being busy, request `1` is sent on a
new node `1`; the response to request `0` is read; `exit_connections` visits
both nodes and waits; the receivers read the response to request `1` and the
two sentinels; `wait_conn_list` and `exit_connections` return. -/
def actions_two : List Action :=
  [ .main (env_ok 1),
    .main (env_ok 2),
    .recv 0 0 (.complete (run_request_flow plan_two 0)) { tv_sec := 3, tv_usec := 0 },
    .main (env_ok 4),
    .main (env_ok 5),
    .main (env_ok 6),
    .main (env_ok 7),
    .recv 0 1 (.complete (run_request_flow plan_two 1)) { tv_sec := 8, tv_usec := 0 },
    .recv 0 0 (.complete exit_connection_flow) { tv_sec := 9, tv_usec := 0 },
    .recv 0 1 (.complete exit_connection_flow) { tv_sec := 10, tv_usec := 0 },
    .main (env_ok 11),
    .main (env_ok 12) ]

/-- The system `main` starts `run_requests` from, for one server, one
connection and two requests. -/
def sys_two : System :=
  { pc := .run_requests 0
    st :=
      { connection_lists :=
          [ { nodes := [conn_node_new], len := 1, available_len := 1, flow_finished := 0 } ]
        req_start_time := [timeval_zero, timeval_zero]
        req_stop_time := [timeval_zero, timeval_zero] } }

/-- The system at the end of the run `actions_two`. -/
def sys_two_finished : System :=
  { pc := .finished
    st :=
      { connection_lists :=
          [ { nodes := [node_closed, node_closed], len := 2, available_len := 0,
              flow_finished := 2 } ]
        req_start_time := [{ tv_sec := 1, tv_usec := 0 }, { tv_sec := 2, tv_usec := 0 }]
        req_stop_time := [{ tv_sec := 3, tv_usec := 0 }, { tv_sec := 8, tv_usec := 0 }] } }

/-! ### The pacing loop of `run_requests` -/

/-- The C value of `a + b` for two `unsigned int`: a sum of `2 ^ 32` or more
wraps around. It is `(a + b) % 2 ^ 32` (`u32_add_eq_mod`). -/
def u32_add (a b : Nat) : Nat := if a + b < 4294967296 then a + b else a + b - 4294967296

/-- The C value of `a - b` for two `unsigned int`: a negative difference
wraps around. It is `(a + 2 ^ 32 - b) % 2 ^ 32` (`u32_sub_eq_mod`). -/
def u32_sub (a b : Nat) : Nat := if b ≤ a then a - b else a + 4294967296 - b

/-- A call the loop of `run_requests` makes: `usleep(us)` or
`run_request(req_id)`. -/
inductive PaceCall
  | usleep (us : Nat)
  | run_request (req_id : Nat)
  deriving DecidableEq, Repr

/-- The loop of `run_requests` between two iterations: the accumulator
`sleep_us` and the calls made so far, oldest first. -/
structure Pacer where
  sleep_us : Nat
  calls : List PaceCall
  deriving DecidableEq, Repr

/-- One iteration of the loop of `run_requests` (lines 666-672), with
`usleep_overhead_us = overhead`: `sleep_us += req_sleep_us[i]`; when
`sleep_us > usleep_overhead_us`, `usleep(sleep_us - usleep_overhead_us)` and
`sleep_us = 0`; then `run_request(i)`. The progress display that follows
(lines 674-678) only prints and is left out. -/
def run_requests_iter (p : Plan) (overhead : Nat) (st : Pacer) (i : Nat) : Pacer :=
  if u32_add st.sleep_us (rd p.req_sleep_us i) > overhead then
    { sleep_us := 0
      calls := st.calls ++
        [ .usleep (u32_sub (u32_add st.sleep_us (rd p.req_sleep_us i)) overhead),
          .run_request i ] }
  else
    { sleep_us := u32_add st.sleep_us (rd p.req_sleep_us i)
      calls := st.calls ++ [ .run_request i ] }

/-- The loop of `run_requests` after its first `k` iterations, started with
`sleep_us = 0` (line 662). -/
def run_requests_upto (p : Plan) (overhead k : Nat) : Pacer :=
  (List.range k).foldl (run_requests_iter p overhead) { sleep_us := 0, calls := [] }

/-- The loop `for (i = 0; i < req_total_num; i++)` of `run_requests`
(lines 664-679). -/
def run_requests (p : Plan) (overhead : Nat) : Pacer :=
  run_requests_upto p overhead p.req_total_num

/-- The durations of the `usleep` calls of a list of calls, in order. -/
def sleeps (calls : List PaceCall) : List Nat :=
  calls.filterMap (fun c =>
    match c with
    | .usleep us => some us
    | .run_request _ => none)

/-- The arguments of the `run_request` calls of a list of calls, in order. -/
def dispatched (calls : List PaceCall) : List Nat :=
  calls.filterMap (fun c =>
    match c with
    | .usleep _ => none
    | .run_request req_id => some req_id)

/-- A plan of three requests with the gaps `5`, `7` and `2`. -/
def plan_gaps : Plan :=
  { req_total_num := 3, req_size := [100, 100, 100], req_server_id := [0, 0, 0],
    req_dscp := [0, 0, 0], req_rate := [0, 0, 0], req_sleep_us := [5, 7, 2] }

/-- Whether an iteration of the loop of `listen_connection` leaves the loop:
the `break` after a failed read of the header (line 622), after a short
payload (line 628) and after the sentinel `flow.id == 0` (line 645). -/
def listen_connection_breaks (r : ReadResult) : Bool :=
  match r with
  | .header_failed => true
  | .short_payload _ => true
  | .complete flow => decide (flow.id = 0)

/-- The node `run_request(req_id)` obtains in the state `s` (lines 690 and
699-715): the node `search_conn_list` finds, the new tail when none is found
and the pool could be grown by one connection, no node otherwise. -/
def run_request_node (p : Plan) (env : DispatchEnv) (req_id : Nat) (s : State) : Option Nat :=
  match search_conn_list (pool_at s (rd p.req_server_id req_id)) with
  | some node => some node
  | none =>
    if env.connect_ok then some (pool_at s (rd p.req_server_id req_id)).nodes.length else none

/-- The statements `run_request(req_id)` executes before line 725 to obtain
its node: none when `search_conn_list` finds one, the growth of the pool
otherwise. -/
def run_request_grow_ops (p : Plan) (env : DispatchEnv) (req_id : Nat) (s : State) : List Op :=
  match search_conn_list (pool_at s (rd p.req_server_id req_id)) with
  | some _ => []
  | none =>
    if env.connect_ok then
      [ .pool (rd p.req_server_id req_id) .insert_conn,
        .pool (rd p.req_server_id req_id)
          (.pthread_create (pool_at s (rd p.req_server_id req_id)).nodes.length) ]
    else []

/-- No connection of the pool holds an unanswered header with the id `id`. -/
def pool_no_header (l : conn_list) (id : Nat) : Prop :=
  ∀ n ∈ l.nodes, ∀ h ∈ n.sockfd, h.id ≠ id

/-- The request `j` has left no trace: `req_stop_time[j]` is zero and no
connection holds an unanswered header with the id `j + 1`. -/
def unsent (s : State) (j : Nat) : Prop :=
  rd_time s.req_stop_time j = timeval_zero ∧
  ∀ l ∈ s.connection_lists, pool_no_header l (j + 1)

/-- The main thread is past the call `run_request(i)`. -/
def past_request (pc : MainPc) (i : Nat) : Prop :=
  match pc with
  | .run_requests k => i < k
  | _ => True

/-- An environment in which the connect fails. -/
def env_no_connect (sec : Int) : DispatchEnv :=
  { connect_ok := false, write_ok := true, now := { tv_sec := sec, tv_usec := 0 } }

/-- The system after request `0` of `plan_two` was dispatched on the only
node of `sys_two`. -/
def sys_two_busy : System :=
  { pc := .run_requests 1
    st :=
      { connection_lists :=
          [ { nodes := [ { connected := true, busy := true,
                           sockfd := [{ id := 1, size := 1000, tos := 0, rate := 0 }],
                           exited := false } ]
              len := 1, available_len := 0, flow_finished := 0 } ]
        req_start_time := [{ tv_sec := 1, tv_usec := 0 }, timeval_zero]
        req_stop_time := [timeval_zero, timeval_zero] } }

/-- The rest of a run from `sys_two_busy` in which request `1` is dropped:
the response to request `0` is read, `exit_connections` sends the sentinel and
waits, the receiver reads the sentinel, `exit_connections` returns. -/
def actions_after_drop : List Action :=
  [ .recv 0 0 (.complete (run_request_flow plan_two 0)) { tv_sec := 3, tv_usec := 0 },
    .main (env_ok 4),
    .main (env_ok 5),
    .main (env_ok 6),
    .recv 0 0 (.complete exit_connection_flow) { tv_sec := 7, tv_usec := 0 },
    .main (env_ok 8),
    .main (env_ok 9) ]

/-- The system at the end of the run in which request `1` of `plan_two` is
dropped. -/
def sys_two_dropped : System :=
  { pc := .finished
    st :=
      { connection_lists :=
          [ { nodes := [node_closed], len := 1, available_len := 0, flow_finished := 1 } ]
        req_start_time := [{ tv_sec := 1, tv_usec := 0 }, timeval_zero]
        req_stop_time := [{ tv_sec := 3, tv_usec := 0 }, timeval_zero] } }

/-- A plan of two requests whose second gap is `2 ^ 32 - 50` microseconds. -/
def plan_huge_gap : Plan :=
  { req_total_num := 2, req_size := [100, 100], req_server_id := [0, 0],
    req_dscp := [0, 0], req_rate := [0, 0], req_sleep_us := [100, 4294967246] }

/-! ### The threads of a run, statement by statement -/

/-- The statements the receiver of the node `node` of the pool `server` has
still to execute in its current iteration, looked up in a table of such
statements; none when the receiver is at the top of its loop. -/
def recv_pending : List ((Nat × Nat) × List Op) → Nat → Nat → List Op
  | [], _, _ => []
  | e :: rest, server, node =>
    if e.1.1 = server ∧ e.1.2 = node then e.2 else recv_pending rest server node

/-- The table with the statements of the receiver of the node `node` of the
pool `server` replaced by `q`. -/
def set_pending (recv : List ((Nat × Nat) × List Op)) (server node : Nat) (q : List Op) :
    List ((Nat × Nat) × List Op) :=
  match q with
  | [] => recv.filter (fun e => !(decide (e.1.1 = server ∧ e.1.2 = node)))
  | o :: rest =>
    ((server, node), o :: rest) ::
      recv.filter (fun e => !(decide (e.1.1 = server ∧ e.1.2 = node)))

/-- The client between two statements of its threads: where the main thread
will stand once it has executed the statements of its current call (`pc`), the
shared state, the statements the main thread has still to execute in its
current call of `run_request` or `exit_connection` (`main`), and the
statements each receiver has still to execute in its current iteration
(`recv`). -/
structure Threads where
  pc : MainPc
  st : State
  main : List Op
  recv : List ((Nat × Nat) × List Op)
  deriving DecidableEq, Repr

/-- The threads when `main` calls `run_requests`: no thread is inside a call
or an iteration. -/
def threads_init (sys : System) : Threads :=
  { pc := sys.pc, st := sys.st, main := [], recv := [] }

/-- Modelled from the spec: what `search_conn_list` of the missing `conn.c`
(section 4.5, `acquire`) can return for the pool `server` when its walk ends
in the state `s`: a node that is connected and not busy, or none. The walk
reads `busy` while the receivers clear it outside the lock (line 631), so it
can miss a node that has just become free and need not return the first free
node; the first free node, or none when there is none (`search_conn_list`), is
one of the results allowed here. -/
def search_result_ok (s : State) (server : Nat) (found : Option Nat) : Bool :=
  match found with
  | none => true
  | some node =>
    match (pool_at s server).nodes[node]? with
    | some n => n.connected && !n.busy
    | none => false

/-- The statements `run_request(req_id)` executes (lines 685-735) when
`search_conn_list` has returned `found` on a pool of `len` nodes: those of
`run_request_ops`, with the result of the search given. -/
def run_request_ops_found (p : Plan) (env : DispatchEnv) (req_id : Nat) (found : Option Nat)
    (len : Nat) : List Op :=
  match found with
  | some node =>
    run_request_send (rd p.req_server_id req_id) node req_id (run_request_flow p req_id) env
  | none =>
    if env.connect_ok then
      [ .pool (rd p.req_server_id req_id) .insert_conn,
        .pool (rd p.req_server_id req_id) (.pthread_create len) ] ++
        run_request_send (rd p.req_server_id req_id) len req_id (run_request_flow p req_id) env
    else []

/-- A move of one thread: the main thread makes its next call (in the loop of
`run_requests`: `search_conn_list` returns `found` and the statements of
`run_request` are chosen); the main thread executes its next statement; a
receiver at the top of its loop returns from its reads with the result `r`; a
receiver executes its next statement. -/
inductive Move
  | main_call (env : DispatchEnv) (found : Option Nat)
  | main_stmt
  | recv_read (server node : Nat) (r : ReadResult) (now : timeval)
  | recv_stmt (server node : Nat)
  deriving DecidableEq, Repr

/-- The next call of the main thread, as in `main_step`, with the statements
of the call left to be executed one by one and the result `found` of
`search_conn_list` given; `none` while the statements of the previous call are
not all executed, when `found` cannot be that result, or when the main thread
cannot move. -/
def main_call (p : Plan) (env : DispatchEnv) (found : Option Nat) (t : Threads) :
    Option Threads :=
  match t.main with
  | _ :: _ => none
  | [] =>
    match t.pc with
    | .run_requests i =>
      if i < p.req_total_num then
        if search_result_ok t.st (rd p.req_server_id i) found then
          some { t with
            pc := .run_requests (i + 1)
            main := run_request_ops_found p env i found
              (pool_at t.st (rd p.req_server_id i)).nodes.length }
        else none
      else
        some { t with pc := .exit_connections 0 0 }
    | .exit_connections i ptr =>
      if i < t.st.connection_lists.length then
        match (pool_at t.st i).nodes[ptr]? with
        | none => some { t with pc := .wait_conn_list i }
        | some n =>
          if n.connected then
            some { t with pc := .exit_connections i (ptr + 1)
                          main := exit_connection_ops i ptr env }
          else
            some { t with pc := .exit_connections i (ptr + 1) }
      else
        some { t with pc := .finished }
    | .wait_conn_list i =>
      if (pool_at t.st i).nodes.all (fun n => n.exited) then
        some { t with pc := .exit_connections (i + 1) 0 }
      else none
    | .finished => none

/-- A move of one thread from `t`; `none` when the thread cannot make it. A
receiver reads on a node that exists and whose receiver has not returned, with
a result the connection allows (`read_possible`). -/
def thread_step (p : Plan) (mv : Move) (t : Threads) : Option Threads :=
  match mv with
  | .main_call env found => main_call p env found t
  | .main_stmt =>
    match t.main with
    | [] => none
    | o :: rest => some { t with st := o.apply t.st, main := rest }
  | .recv_read server node r now =>
    match (pool_at t.st server).nodes[node]? with
    | none => none
    | some n =>
      match recv_pending t.recv server node with
      | _ :: _ => none
      | [] =>
        if !n.exited && read_possible n.sockfd r then
          some { t with
            recv := set_pending t.recv server node (listen_connection_ops server node r now) }
        else none
  | .recv_stmt server node =>
    match recv_pending t.recv server node with
    | [] => none
    | o :: rest =>
      some { t with st := o.apply t.st, recv := set_pending t.recv server node rest }

/-- A sequence of moves from `t`, in the order the threads make them. -/
def run_threads (p : Plan) : List Move → Threads → Option Threads
  | [], t => some t
  | mv :: rest, t =>
    match thread_step p mv t with
    | none => none
    | some t1 => run_threads p rest t1

/-- The moves within the scope of pool conservation: a call of the main
thread inside `run_requests`, a statement of any thread, a read that returns
a complete response, and a read that fails while the node is busy. -/
def Move.regular (t : Threads) (mv : Move) : Bool :=
  match mv with
  | .main_call _ _ =>
    match t.pc with
    | .run_requests _ => true
    | _ => false
  | .main_stmt => true
  | .recv_read server node r _ =>
    match r with
    | .complete _ => true
    | _ =>
      match (pool_at t.st server).nodes[node]? with
      | some n => n.busy
      | none => false
  | .recv_stmt _ _ => true

/-- A sequence of moves from `t` all of which are `regular` where they are
made. -/
def run_regular (p : Plan) : List Move → Threads → Option Threads
  | [], t => some t
  | mv :: rest, t =>
    if mv.regular t then
      match thread_step p mv t with
      | none => none
      | some t1 => run_regular p rest t1
    else none

/-- The statements still to execute contain an increment of `available_len`
and no clearing of `busy` before it: the receiver has executed
`node->busy = false` (line 631) and not yet `available_len++` (line 637). -/
def inc_in_flight (q : List Op) : Bool :=
  q.any (fun o =>
    match o with
    | .pool _ .available_len_inc => true
    | _ => false) &&
  !q.any (fun o =>
    match o with
    | .pool _ (.set_busy _ false) => true
    | _ => false)

/-- The statements still to execute contain a decrement of `available_len` of
the pool `server` and no setting of `busy` before it: the dispatcher has
executed `node->busy = true` (line 728) and not yet `available_len--`
(line 730). -/
def dec_in_flight (server : Nat) (m : List Op) : Bool :=
  m.any (fun o =>
    match o with
    | .pool j .available_len_dec => decide (j = server)
    | _ => false) &&
  !m.any (fun o =>
    match o with
    | .pool _ (.set_busy _ true) => true
    | _ => false)

/-- The number of receivers of the first `len` nodes of the pool `server`
that have cleared `busy` and not yet incremented `available_len`. -/
def receivers_in_flight (recv : List ((Nat × Nat) × List Op)) (server len : Nat) : Nat :=
  (List.range len).countP (fun k => inc_in_flight (recv_pending recv server k))

/-- `1` when the dispatcher has set `busy` on a node of the pool `server` and
not yet decremented `available_len`, `0` otherwise. -/
def dispatcher_in_flight (m : List Op) (server : Nat) : Nat :=
  if dec_in_flight server m then 1 else 0

/-- The statements of an iteration of `listen_connection` that reads a
complete response with a non-zero id (lines 619-647). -/
def response_ops (server node : Nat) (flow : flow_metadata) (now : timeval) : List Op :=
  [ .pool server (.read_response node),
    .pool server (.set_busy node false),
    .pool server .lock,
    .pool server .flow_finished_inc,
    .pool server .available_len_inc,
    .pool server .unlock,
    .gettimeofday_stop (u32_dec flow.id) now ]

/-- The statements of a call of `run_request` that grows the pool `server` and
sends on the new node `node`; a call that finds the node `node` executes them
from the third on. -/
def dispatch_ops (server node req_id : Nat) (flow : flow_metadata) (env : DispatchEnv) :
    List Op :=
  [ .pool server .insert_conn, .pool server (.pthread_create node) ] ++
    run_request_send server node req_id flow env

/-- What the dispatcher is to a node: nothing; it has obtained the node and
not yet set `busy`; it has set `busy` and not yet written the header. -/
inductive Claim
  | free
  | picked
  | writing
  deriving DecidableEq, Repr

/-- What the dispatcher is to its node after `c` statements of
`dispatch_ops`. -/
def claim_at (c : Nat) : Claim :=
  if 1 ≤ c ∧ c ≤ 3 then .picked else if 4 ≤ c ∧ c ≤ 7 then .writing else .free

/-- What the dispatcher, `c` statements into `dispatch_ops` for the node `K`
of the pool `J`, is to the node `k` of the pool `j`. -/
def claim_of (J K c j k : Nat) : Claim :=
  if j = J ∧ k = K then claim_at c else .free

/-- Whether the dispatcher, `c` statements into `dispatch_ops` for the pool
`J`, is in flight on the pool `j`. -/
def dec_at (J c j : Nat) : Nat :=
  if j = J ∧ (c = 4 ∨ c = 5) then 1 else 0

/-- The connection of a node whose receiver is past the clearing of `busy`
or at the top of its loop: it holds no unanswered header, or one request
header while the node is busy; a node the dispatcher has obtained holds
none. -/
def open_ok (n : conn_node) (c : Claim) : Prop :=
  match c with
  | .free => n.sockfd = [] ∨ ∃ h, n.sockfd = [h] ∧ h.id ≠ 0 ∧ n.busy = true
  | .picked => n.busy = false ∧ n.sockfd = []
  | .writing => n.busy = true ∧ n.sockfd = []

/-- The invariant of a node `n`, given the statements `q` its receiver has
still to execute and what the dispatcher is to the node: the receiver has
returned; or it is `d` statements into an iteration for a response (at the top
of the loop for `d = 7`); or it is `d` statements into the statements after the
loop. -/
def recv_inv (j k : Nat) (n : conn_node) (q : List Op) (c : Claim) : Prop :=
  (q = [] ∧ n.exited = true ∧ n.connected = false ∧ c ≠ .picked) ∨
  (∃ flow now d, flow.id ≠ 0 ∧ d ≤ 7 ∧ q = (response_ops j k flow now).drop d ∧
    n.exited = false ∧ n.connected = true ∧
    (d = 0 → n.busy = true ∧ n.sockfd = [flow] ∧ c = .free) ∧
    (d = 1 → n.busy = true ∧ n.sockfd = [] ∧ c = .free) ∧
    (2 ≤ d → open_ok n c)) ∨
  (∃ d, d ≤ 3 ∧ q = (listen_connection_exit j k).drop d ∧ n.exited = false ∧ c ≠ .picked ∧
    (d ≤ 1 → n.connected = true ∧ n.busy = true) ∧
    (2 ≤ d → n.connected = false))

/-- The invariant of the pool `j`, the dispatcher being `c` statements into
`dispatch_ops` for the node `K` of the pool `J`: `available_len` plus the
receivers in flight is the number of nodes with `connected ∧ ¬busy` plus the
dispatcher in flight, modulo `2 ^ 32`; only receivers of nodes of the pool are
inside an iteration; every node satisfies `recv_inv`. -/
def pool_inv (recv : List ((Nat × Nat) × List Op)) (J K c j : Nat) (l : conn_list) : Prop :=
  l.available_len < 2 ^ 32 ∧
  (l.available_len + receivers_in_flight recv j l.nodes.length) % 2 ^ 32 =
    (free_count l + dec_at J c j) % 2 ^ 32 ∧
  (∀ k, l.nodes.length ≤ k → recv_pending recv j k = []) ∧
  ∀ k n, l.nodes[k]? = some n → recv_inv j k n (recv_pending recv j k) (claim_of J K c j k)

/-- The invariant of the threads in the scope of pool conservation: the main
thread is `c` statements into `dispatch_ops` for some node `K` of some pool `J`
and a request header with a non-zero id (`c = 8` between two calls), the node
exists from the second statement on, no receiver of a pool that does not exist
is inside an iteration, and every pool satisfies `pool_inv`. -/
def threads_inv (t : Threads) : Prop :=
  ∃ (J K req : Nat) (flow : flow_metadata) (env : DispatchEnv) (c : Nat),
    c ≤ 8 ∧ flow.id ≠ 0 ∧ t.main = (dispatch_ops J K req flow env).drop c ∧
    (∀ l, t.st.connection_lists[J]? = some l →
      (c = 0 → l.nodes.length = K) ∧ (1 ≤ c → c ≤ 7 → K < l.nodes.length)) ∧
    (∀ j, t.st.connection_lists[j]? = none → ∀ k, recv_pending t.recv j k = []) ∧
    ∀ j l, t.st.connection_lists[j]? = some l → pool_inv t.recv J K c j l

/-- A run of `plan_two` on one server with one connection in which the
receiver is overtaken: request `0` is sent on node `0`; its receiver reads the
response and clears `busy` (line 631); before the receiver increments
`available_len` (line 637), the main thread calls `run_request(1)`, which finds
node `0` free, and executes all its statements. -/
def moves_overtaken : List Move :=
  [ .main_call (env_ok 1) (some 0),
    .main_stmt, .main_stmt, .main_stmt, .main_stmt, .main_stmt, .main_stmt,
    .recv_read 0 0 (.complete (run_request_flow plan_two 0)) { tv_sec := 2, tv_usec := 0 },
    .recv_stmt 0 0,
    .recv_stmt 0 0,
    .main_call (env_ok 3) (some 0),
    .main_stmt, .main_stmt, .main_stmt, .main_stmt, .main_stmt, .main_stmt ]

/-- The threads at the end of the run `moves_overtaken`: `run_request(1)` has
returned, node `0` is busy with request `1`, `available_len` is `2 ^ 32 - 1`,
and the receiver of node `0` has still to execute the statements from the lock
on. -/
def threads_overtaken : Threads :=
  { pc := .run_requests 2
    st :=
      { connection_lists :=
          [ { nodes := [ { connected := true, busy := true,
                           sockfd := [{ id := 2, size := 2000, tos := 40, rate := 0 }],
                           exited := false } ]
              len := 1, available_len := 4294967295, flow_finished := 0 } ]
        req_start_time := [{ tv_sec := 1, tv_usec := 0 }, { tv_sec := 3, tv_usec := 0 }]
        req_stop_time := [timeval_zero, timeval_zero] }
    main := []
    recv :=
      [ ((0, 0),
          [ .pool 0 .lock, .pool 0 .flow_finished_inc, .pool 0 .available_len_inc,
            .pool 0 .unlock, .gettimeofday_stop 0 { tv_sec := 2, tv_usec := 0 } ]) ] }

/-- The run `actions_two` statement by statement, each call and each
iteration executed without another thread in between. -/
def moves_two : List Move :=
  [ .main_call (env_ok 1) (some 0) ] ++ List.replicate 6 .main_stmt ++
  [ .main_call (env_ok 2) none ] ++ List.replicate 8 .main_stmt ++
  [ .recv_read 0 0 (.complete (run_request_flow plan_two 0)) { tv_sec := 3, tv_usec := 0 } ] ++
    List.replicate 7 (.recv_stmt 0 0) ++
  [ .main_call (env_ok 4) none,
    .main_call (env_ok 5) none ] ++ List.replicate 4 .main_stmt ++
  [ .main_call (env_ok 6) none ] ++ List.replicate 4 .main_stmt ++
  [ .main_call (env_ok 7) none,
    .recv_read 0 1 (.complete (run_request_flow plan_two 1)) { tv_sec := 8, tv_usec := 0 } ] ++
    List.replicate 7 (.recv_stmt 0 1) ++
  [ .recv_read 0 0 (.complete exit_connection_flow) { tv_sec := 9, tv_usec := 0 } ] ++
    List.replicate 8 (.recv_stmt 0 0) ++
  [ .recv_read 0 1 (.complete exit_connection_flow) { tv_sec := 10, tv_usec := 0 } ] ++
    List.replicate 8 (.recv_stmt 0 1) ++
  [ .main_call (env_ok 11) none,
    .main_call (env_ok 12) none ]

/-! ## Theorems -/

/-- C1. For every plan index `i < req_total_num` (both 32-bit unsigned) the
header `run_request` builds has `id = i + 1`, computed modulo `2 ^ 32`, and
that id is not `0`; the header `exit_connection` builds is
`{id = 0, size = 100, tos = 0, rate = 0}`. -/
theorem C1_id_reservation (p : Plan) (i : Nat) (hn : p.req_total_num < 2 ^ 32)
    (hi : i < p.req_total_num) :
    (run_request_flow p i).id = (i + 1) % 2 ^ 32 ∧
    (run_request_flow p i).id = i + 1 ∧
    (run_request_flow p i).id ≠ 0 ∧
    exit_connection_flow = { id := 0, size := 100, tos := 0, rate := 0 } := by
  have h1 : (i + 1) % 2 ^ 32 = i + 1 := Nat.mod_eq_of_lt (by omega)
  refine ⟨rfl, ?_, ?_, rfl⟩
  · simpa [run_request_flow] using h1
  · simp only [run_request_flow, h1]
    omega

/-- C1 at the second entry of `plan_two`. -/
theorem C1_id_reservation_witness :
    plan_two.req_total_num < 2 ^ 32 ∧ 1 < plan_two.req_total_num ∧
    (run_request_flow plan_two 1).id = (1 + 1) % 2 ^ 32 ∧
    (run_request_flow plan_two 1).id = 1 + 1 ∧
    (run_request_flow plan_two 1).id ≠ 0 ∧
    exit_connection_flow = { id := 0, size := 100, tos := 0, rate := 0 } :=
  ⟨by decide, by decide, C1_id_reservation plan_two 1 (by decide) (by decide)⟩

theorem print_statistic_foldl (p : Plan) (start stop : List timeval) (l : List Nat)
    (acc : StatOut) :
    (l.foldl (print_statistic_body p start stop) acc).fd =
        acc.fd ++ (l.filter (fun i => !stop_is_zero (rd_time stop i))).map (fct_line p start stop) ∧
    (l.foldl (print_statistic_body p start stop) acc).stdout =
        acc.stdout ++ l.filter (fun i => stop_is_zero (rd_time stop i)) := by
  induction l generalizing acc with
  | nil => simp
  | cons i l ih =>
    rw [List.foldl_cons]
    obtain ⟨h1, h2⟩ := ih (print_statistic_body p start stop acc i)
    rw [h1, h2]
    by_cases hz : stop_is_zero (rd_time stop i) = true
    · simp [print_statistic_body, hz]
    · simp [print_statistic_body, hz]

theorem stop_is_zero_iff (t : timeval) :
    (!stop_is_zero t) = decide (t.tv_sec ≠ 0 ∨ t.tv_usec ≠ 0) ∧
    stop_is_zero t = decide (t.tv_sec = 0 ∧ t.tv_usec = 0) := by
  unfold stop_is_zero
  by_cases h1 : t.tv_sec = 0 <;> by_cases h2 : t.tv_usec = 0 <;> simp [h1, h2]

/-- C2. `print_statistic` writes to the FCT log exactly the lines of the plan
entries whose `stop_time` has a non-zero `tv_sec` or a non-zero `tv_usec`, one
line each, in increasing index order, and no line for an entry whose
`stop_time` has both fields zero (those indices go to standard output); the
line of entry `i` is `[size[i], fct_us, dscp[i], rate[i], goodput]`. On
`plan_three` with the stop times `0 s`, `5 us` and `3 s` the log holds the
lines of the entries `1` and `2` and entry `0` is reported on standard
output. -/
theorem C2_fct_log_contents (p : Plan) (start stop : List timeval) :
    (print_statistic p start stop).fd =
        ((List.range p.req_total_num).filter
          (fun i => decide ((rd_time stop i).tv_sec ≠ 0 ∨ (rd_time stop i).tv_usec ≠ 0))).map
          (fun i =>
            [ rd p.req_size i,
              fct_us (rd_time start i) (rd_time stop i),
              rd p.req_dscp i,
              rd p.req_rate i,
              flow_goodput_mbps (rd p.req_size i) (fct_us (rd_time start i) (rd_time stop i)) ]) ∧
    (print_statistic p start stop).stdout =
        (List.range p.req_total_num).filter
          (fun i => decide ((rd_time stop i).tv_sec = 0 ∧ (rd_time stop i).tv_usec = 0)) ∧
    print_statistic plan_three
        [{ tv_sec := 1, tv_usec := 0 }, { tv_sec := 0, tv_usec := 0 },
          { tv_sec := 1, tv_usec := 500000 }]
        [{ tv_sec := 0, tv_usec := 0 }, { tv_sec := 0, tv_usec := 5 },
          { tv_sec := 3, tv_usec := 0 }] =
      { req_size_total := 3003000
        fd := [[2000, 5, 2, 20, 3200], [3000000, 1500000, 3, 30, 16]]
        stdout := [0] } := by
  obtain ⟨h1, h2⟩ := print_statistic_foldl p start stop (List.range p.req_total_num)
    { req_size_total := 0, fd := [], stdout := [] }
  have hf1 : (fun i => !stop_is_zero (rd_time stop i)) =
      (fun i => decide ((rd_time stop i).tv_sec ≠ 0 ∨ (rd_time stop i).tv_usec ≠ 0)) :=
    funext (fun i => (stop_is_zero_iff (rd_time stop i)).1)
  have hf2 : (fun i => stop_is_zero (rd_time stop i)) =
      (fun i => decide ((rd_time stop i).tv_sec = 0 ∧ (rd_time stop i).tv_usec = 0)) :=
    funext (fun i => (stop_is_zero_iff (rd_time stop i)).2)
  refine ⟨?_, ?_, by decide⟩
  · rw [print_statistic, h1, hf1]
    simp only [List.nil_append]
    rfl
  · rw [print_statistic, h2, hf2]
    simp

/-- The elapsed time is exact: for `start ≤ stop` with `start.tv_usec < 10^6`,
`0 ≤ stop.tv_usec` and an elapsed time that fits 64 bits, `fct_us` is the number of
microseconds from `start` to `stop`. -/
theorem fct_us_exact (start stop : timeval)
    (hle : start.tv_sec < stop.tv_sec ∨
      (start.tv_sec = stop.tv_sec ∧ start.tv_usec ≤ stop.tv_usec))
    (h2 : start.tv_usec < 1000000) (h3 : 0 ≤ stop.tv_usec)
    (hfit : (stop.tv_sec * 1000000 + stop.tv_usec) - (start.tv_sec * 1000000 + start.tv_usec)
      < 2 ^ 64) :
    (fct_us start stop : Int) =
      (stop.tv_sec * 1000000 + stop.tv_usec) - (start.tv_sec * 1000000 + start.tv_usec) := by
  have hnn : 0 ≤ (stop.tv_sec - start.tv_sec) * 1000000 + stop.tv_usec - start.tv_usec := by
    rcases hle with h | ⟨h, h5⟩
    · nlinarith
    · rw [h]; simp; exact h5
  have hlt : (stop.tv_sec - start.tv_sec) * 1000000 + stop.tv_usec - start.tv_usec < 2 ^ 64 := by
    linarith
  unfold fct_us
  rw [Int.emod_eq_of_lt hnn hlt, Int.toNat_of_nonneg hnn]
  ring

/-- The goodput is exact below 512 MiB: for `size < 2 ^ 29` the logged value
is `size * 8 / fct` when `fct > 0` and `0` when `fct = 0`. -/
theorem flow_goodput_mbps_exact (size fct : Nat) (hs : size < 2 ^ 29) :
    flow_goodput_mbps size fct = if fct > 0 then size * 8 / fct else 0 := by
  unfold flow_goodput_mbps
  have h8 : size * 8 < 2 ^ 32 := by omega
  split
  · rw [Nat.mod_eq_of_lt h8]
    exact Nat.mod_eq_of_lt (lt_of_le_of_lt (Nat.div_le_self _ _) h8)
  · rfl

/-- C3 at a flow of 512 MiB that took one second: `print_statistic` logs the
exact `fct_us = 1000000` and the goodput `0`, where `size * 8 / fct_us` is
`4294`: the product `req_size[i] * 8` wrapped around in 32 bits. -/
theorem C3_goodput_wraps :
    (print_statistic plan_big [{ tv_sec := 100, tv_usec := 0 }]
        [{ tv_sec := 101, tv_usec := 0 }]).fd = [[536870912, 1000000, 0, 0, 0]] ∧
    536870912 < 2 ^ 32 ∧
    536870912 * 8 / 1000000 = 4294 := by
  refine ⟨?_, by norm_num, by norm_num⟩
  decide

theorem read_config_dscp_ok (value prob : Nat) (h : read_config_dscp value prob = .ok ()) :
    value < 64 := by
  unfold read_config_dscp at h
  by_contra hv
  rw [if_pos (Or.inr (Nat.le_of_not_lt hv))] at h
  cases h

/-- C10. For every plan index `i` the header of `run_request` has
`id = i + 1`, `size = size[i]`, `rate = rate[i]` and `tos` the C value of
`dscp[i] << 2` stored in the TOS byte; for `dscp[i]` in `[0, 64)` the header is
`{id = i + 1, size = size[i], tos = dscp[i] << 2, rate = rate[i]}` with
`tos = 4 * dscp[i]`, `tos ≤ 252` (so it fits 8 bits untruncated) and
`tos >> 2 = dscp[i]`. -/
theorem C10_request_header (p : Plan) (i : Nat) (hn : p.req_total_num < 2 ^ 32)
    (hi : i < p.req_total_num) :
    (run_request_flow p i).id = i + 1 ∧
    (run_request_flow p i).size = rd p.req_size i ∧
    (run_request_flow p i).rate = rd p.req_rate i ∧
    (run_request_flow p i).tos = ((rd p.req_dscp i <<< 2) % 2 ^ 32) % 2 ^ TOS_BITS ∧
    (rd p.req_dscp i < 64 →
      run_request_flow p i =
        { id := i + 1, size := rd p.req_size i, tos := rd p.req_dscp i <<< 2,
          rate := rd p.req_rate i } ∧
      (run_request_flow p i).tos = 4 * rd p.req_dscp i ∧
      (run_request_flow p i).tos ≤ 252 ∧
      (run_request_flow p i).tos < 2 ^ 8 ∧
      (run_request_flow p i).tos >>> 2 = rd p.req_dscp i) := by
  have h1 : (i + 1) % 2 ^ 32 = i + 1 := Nat.mod_eq_of_lt (by omega)
  refine ⟨by simpa [run_request_flow] using h1, rfl, rfl, rfl, ?_⟩
  intro hd
  have hshift : rd p.req_dscp i <<< 2 = 4 * rd p.req_dscp i := by
    rw [Nat.shiftLeft_eq]; omega
  have htos : ((rd p.req_dscp i <<< 2) % 2 ^ 32) % 2 ^ TOS_BITS = 4 * rd p.req_dscp i := by
    rw [hshift]
    simp only [TOS_BITS]
    omega
  have hval : (run_request_flow p i).tos = 4 * rd p.req_dscp i := htos
  refine ⟨?_, hval, ?_, ?_, ?_⟩
  · rw [hshift] at htos
    simp only [run_request_flow, h1, htos, hshift]
  · rw [hval]; omega
  · rw [hval]; omega
  · rw [hval, Nat.shiftRight_eq_div_pow]; omega

/-- C10 at the second entry of `plan_two`, whose DSCP is `10`. -/
theorem C10_request_header_witness :
    plan_two.req_total_num < 2 ^ 32 ∧ 1 < plan_two.req_total_num ∧
    rd plan_two.req_dscp 1 < 64 ∧
    run_request_flow plan_two 1 = { id := 2, size := 2000, tos := 40, rate := 0 } ∧
    (run_request_flow plan_two 1).tos >>> 2 = 10 :=
  ⟨by decide, by decide, by decide,
    ((C10_request_header plan_two 1 (by decide) (by decide)).2.2.2.2 (by decide)).1,
    ((C10_request_header plan_two 1 (by decide) (by decide)).2.2.2.2 (by decide)).2.2.2.2⟩

/-- The count is exact while it fits 32 bits: for `T > 0` below `2 ^ 32`,
`period_us ≥ 1` and `T * 10^6 / period_us < 2 ^ 32`, the count is
`max (T * 10^6 / period_us) 1`, and it is at least `1`. -/
theorem set_req_variables_count_exact (T period_us : Nat) (hT : 0 < T) (hT32 : T < 2 ^ 32)
    (hfit : T * 1000000 / period_us < 2 ^ 32) :
    set_req_variables_count 0 T period_us = max (T * 1000000 / period_us) 1 ∧
    1 ≤ set_req_variables_count 0 T period_us := by
  have h64 : (T * 1000000) % 2 ^ 64 = T * 1000000 := Nat.mod_eq_of_lt (by omega)
  have hval : set_req_variables_count 0 T period_us = max (T * 1000000 / period_us) 1 := by
    unfold set_req_variables_count c_max
    rw [if_pos ⟨rfl, hT⟩, h64]
    split
    · rw [Nat.mod_eq_of_lt hfit]; omega
    · omega
  exact ⟨hval, by rw [hval]; exact le_max_right _ _⟩

/-- C5 at `T = 67108864` and `period_us = 15625`: the quotient
`T * 10^6 / period_us` is `2 ^ 32`, so `max(…, 1)` is `2 ^ 32` and the value
stored in the `unsigned int` `req_total_num` is `0`; the three averages
`set_req_variables` then prints divide by zero. At `T = 4295`, `period_us = 1`
the stored count is `32704`, not `4295000000`. -/
theorem C5_count_truncated :
    set_req_variables_count 0 67108864 15625 = 0 ∧
    max (67108864 * 1000000 / 15625) 1 = 4294967296 ∧
    set_req_variables_period ops_nat lib_lcg cfg_long = .ok 15625 ∧
    averages_of (set_req_variables ops_nat lib_lcg libc_lcg cfg_long 1) =
      some (none, none, none) ∧
    set_req_variables_count 0 4295 1 = 32704 ∧
    max (4295 * 1000000 / 1) 1 = 4295000000 := by
  refine ⟨by decide, by norm_num, rfl, by decide, by decide, by norm_num⟩

theorem u32_inc_eq_mod (x : Nat) (hx : x < 2 ^ 32) : u32_inc x = (x + 1) % 2 ^ 32 := by
  unfold u32_inc
  split <;> omega

theorem u32_dec_eq_mod (x : Nat) (hx : x < 2 ^ 32) : u32_dec x = (x + 2 ^ 32 - 1) % 2 ^ 32 := by
  unfold u32_dec
  split <;> omega

theorem u32_inc_lt (x : Nat) : x < 2 ^ 32 → u32_inc x < 2 ^ 32 := by
  unfold u32_inc
  split <;> omega

theorem u32_dec_lt (x : Nat) : x < 2 ^ 32 → u32_dec x < 2 ^ 32 := by
  unfold u32_dec
  split <;> omega

/-- C8 at the response to request `1`: in the statements `listen_connection`
executes, the recording of `req_stop_time[0]` comes after the clearing of
`busy` and after the increment of `available_len`, not before; after the
first five statements the node is not busy, `available_len` is `1` and
`req_stop_time[0]` is still zero. -/
theorem C8_stop_time_not_first :
    ¬ (List.indexOf (Op.gettimeofday_stop 0 { tv_sec := 9, tv_usec := 0 }) ops_response_one <
        List.indexOf (Op.pool 0 (.set_busy 0 false)) ops_response_one) ∧
    ¬ (List.indexOf (Op.gettimeofday_stop 0 { tv_sec := 9, tv_usec := 0 }) ops_response_one <
        List.indexOf (Op.pool 0 .available_len_inc) ops_response_one) ∧
    exec (ops_response_one.take 5) state_one_busy =
      { connection_lists :=
          [ { nodes := [ { connected := true, busy := false, sockfd := [], exited := false } ]
              len := 1, available_len := 1, flow_finished := 1 } ]
        req_start_time := [{ tv_sec := 5, tv_usec := 0 }]
        req_stop_time := [timeval_zero] } := by
  decide

/-- C8, amended. For every non-sentinel response (`id ≠ 0`) that
`listen_connection` reads completely, the statements it executes are, in this
order: clear `busy`; under the lock increment `flow_finished` and
`available_len`; then record `req_stop_time[id - 1]`. The stop time is
recorded after the busy flag is cleared and after `available_len` is
incremented. -/
theorem C8_receiver_order (server node : Nat) (flow : flow_metadata) (now : timeval)
    (h0 : flow.id ≠ 0) :
    listen_connection_ops server node (.complete flow) now =
      [ .pool server (.read_response node),
        .pool server (.set_busy node false),
        .pool server .lock,
        .pool server .flow_finished_inc,
        .pool server .available_len_inc,
        .pool server .unlock,
        .gettimeofday_stop (flow.id - 1) now ] ∧
    List.indexOf (Op.pool server (.set_busy node false))
        (listen_connection_ops server node (.complete flow) now) <
      List.indexOf (Op.gettimeofday_stop (flow.id - 1) now)
        (listen_connection_ops server node (.complete flow) now) ∧
    List.indexOf (Op.pool server .available_len_inc)
        (listen_connection_ops server node (.complete flow) now) <
      List.indexOf (Op.gettimeofday_stop (flow.id - 1) now)
        (listen_connection_ops server node (.complete flow) now) := by
  have hidx : u32_dec flow.id = flow.id - 1 := by rw [u32_dec, if_neg h0]
  have hops : listen_connection_ops server node (.complete flow) now =
      [ .pool server (.read_response node),
        .pool server (.set_busy node false),
        .pool server .lock,
        .pool server .flow_finished_inc,
        .pool server .available_len_inc,
        .pool server .unlock,
        .gettimeofday_stop (flow.id - 1) now ] := by
    simp only [listen_connection_ops, h0, hidx, ne_eq, not_false_eq_true, if_true, if_false,
      List.cons_append, List.nil_append]
  rw [hops]
  refine ⟨rfl, ?_, ?_⟩
  · simp [List.indexOf_cons]
  · simp [List.indexOf_cons]

/-- C8 (amended) at the response to request `1`. -/
theorem C8_receiver_order_witness :
    ({ id := 1, size := 1000, tos := 0, rate := 0 } : flow_metadata).id ≠ 0 ∧
    List.indexOf (Op.pool 0 (.set_busy 0 false)) ops_response_one <
      List.indexOf (Op.gettimeofday_stop 0 { tv_sec := 9, tv_usec := 0 }) ops_response_one :=
  ⟨by decide,
    (C8_receiver_order 0 0 { id := 1, size := 1000, tos := 0, rate := 0 }
      { tv_sec := 9, tv_usec := 0 } (by decide)).2.1⟩

theorem modifyAt_modifyAt {α : Type} (f g : α → α) (k : Nat) (l : List α) :
    modifyAt g k (modifyAt f k l) = modifyAt (fun a => g (f a)) k l := by
  induction l generalizing k with
  | nil => cases k <;> rfl
  | cons a l ih =>
    cases k with
    | zero => rfl
    | succ k => simp [modifyAt, ih]

theorem modifyAt_same {α : Type} (f : α → α) (hf : ∀ a, f a = a) (k : Nat) (l : List α) :
    modifyAt f k l = l := by
  induction l generalizing k with
  | nil => cases k <;> rfl
  | cons a l ih =>
    cases k with
    | zero => simp [modifyAt, hf]
    | succ k => simp [modifyAt, ih]

theorem getElem?_modifyAt {α : Type} (f : α → α) (k j : Nat) (l : List α) :
    (modifyAt f k l)[j]? = if j = k then (l[j]?).map f else l[j]? := by
  induction l generalizing k j with
  | nil => cases k <;> simp [modifyAt]
  | cons a l ih =>
    cases k with
    | zero =>
      cases j with
      | zero => simp [modifyAt]
      | succ j => simp [modifyAt]
    | succ k =>
      cases j with
      | zero => simp [modifyAt]
      | succ j => simp [modifyAt, ih]

theorem countP_modifyAt {α : Type} (P : α → Bool) (f : α → α) (k : Nat) (l : List α) (a : α)
    (h : l[k]? = some a) :
    (modifyAt f k l).countP P + (if P a then 1 else 0) =
      l.countP P + (if P (f a) then 1 else 0) := by
  induction l generalizing k with
  | nil => simp at h
  | cons b l ih =>
    cases k with
    | zero =>
      simp at h
      subst h
      simp only [modifyAt, List.countP_cons]
      omega
    | succ k =>
      simp at h
      have := ih k h
      simp only [modifyAt, List.countP_cons]
      omega

theorem exec_run_request_send (server node req_id : Nat) (flow : flow_metadata)
    (env : DispatchEnv) (s : State) :
    exec (run_request_send server node req_id flow env) s =
      { connection_lists :=
          modifyAt (pool_send node flow env.write_ok) server s.connection_lists
        req_start_time := s.req_start_time.set req_id env.now
        req_stop_time := s.req_stop_time } := by
  simp only [exec, run_request_send, List.foldl_cons, List.foldl_nil, Op.apply, modifyAt_modifyAt]
  congr 1
  congr 1
  funext l
  cases hw : env.write_ok
  · show _ = pool_send node flow false l
    simp only [PoolOp.apply, pool_send, Bool.false_eq_true, if_false]
    rfl
  · show _ = pool_send node flow true l
    simp only [PoolOp.apply, pool_send, if_true, modifyAt_modifyAt]
    rfl

theorem exec_exit_connection (server node : Nat) (env : DispatchEnv) (s : State) :
    exit_connection server node env s =
      { connection_lists := modifyAt (pool_exit node env.write_ok) server s.connection_lists
        req_start_time := s.req_start_time
        req_stop_time := s.req_stop_time } := by
  simp only [exit_connection, exec, exit_connection_ops, List.foldl_cons, List.foldl_nil,
    Op.apply, modifyAt_modifyAt]
  congr 1
  congr 1
  funext l
  cases hw : env.write_ok
  · have hid : modifyAt (node_exit false) node l.nodes = l.nodes :=
      modifyAt_same _ (fun a => rfl) _ _
    simp only [PoolOp.apply, pool_exit, Bool.false_eq_true, if_false, hid]
  · simp only [PoolOp.apply, pool_exit, if_true]
    rfl

theorem exec_listen_connection_exit (server node : Nat) (s : State) :
    exec (listen_connection_exit server node) s =
      { connection_lists := modifyAt (pool_close node) server s.connection_lists
        req_start_time := s.req_start_time
        req_stop_time := s.req_stop_time } := by
  simp only [exec, listen_connection_exit, List.foldl_cons, List.foldl_nil,
    Op.apply, modifyAt_modifyAt]
  congr 1
  congr 1
  funext l
  simp only [PoolOp.apply, pool_close, modifyAt_modifyAt]
  rfl

theorem listen_connection_failed (server node : Nat) (r : ReadResult) (now : timeval) (s : State)
    (hr : ∀ flow, r ≠ .complete flow) :
    listen_connection server node r now s =
      { connection_lists := modifyAt (pool_close node) server s.connection_lists
        req_start_time := s.req_start_time
        req_stop_time := s.req_stop_time } := by
  cases r with
  | header_failed => exact exec_listen_connection_exit server node s
  | short_payload flow => exact exec_listen_connection_exit server node s
  | complete flow => exact absurd rfl (hr flow)

theorem listen_connection_response (server node : Nat) (flow : flow_metadata) (now : timeval)
    (s : State) (h0 : flow.id ≠ 0) :
    listen_connection server node (.complete flow) now s =
      { connection_lists := modifyAt (pool_response node) server s.connection_lists
        req_start_time := s.req_start_time
        req_stop_time := s.req_stop_time.set (u32_dec flow.id) now } := by
  simp only [listen_connection, exec, listen_connection_ops, h0, ne_eq, not_false_eq_true,
    if_true, if_false, List.cons_append, List.nil_append, List.foldl_cons, List.foldl_nil,
    Op.apply, modifyAt_modifyAt]
  congr 1
  congr 1
  funext l
  simp only [PoolOp.apply, pool_response, modifyAt_modifyAt]
  rfl

theorem listen_connection_sentinel (server node : Nat) (flow : flow_metadata) (now : timeval)
    (s : State) (h0 : flow.id = 0) :
    listen_connection server node (.complete flow) now s =
      { connection_lists := modifyAt (pool_close node) server s.connection_lists
        req_start_time := s.req_start_time
        req_stop_time := s.req_stop_time } := by
  simp only [listen_connection, exec, listen_connection_ops, listen_connection_exit, h0, ne_eq,
    not_true_eq_false, if_true, if_false, List.cons_append, List.nil_append, List.append_nil,
    List.foldl_cons, List.foldl_nil, Op.apply, modifyAt_modifyAt]
  congr 1
  congr 1
  funext l
  simp only [PoolOp.apply, pool_close, modifyAt_modifyAt]
  rfl

theorem mem_modifyAt {α : Type} (f : α → α) (k : Nat) (l : List α) (x : α)
    (h : x ∈ modifyAt f k l) : x ∈ l ∨ ∃ a, l[k]? = some a ∧ x = f a := by
  induction l generalizing k with
  | nil => cases k <;> simp [modifyAt] at h
  | cons b l ih =>
    cases k with
    | zero =>
      simp only [modifyAt, List.mem_cons] at h
      rcases h with h | h
      · exact Or.inr ⟨b, by simp, h⟩
      · exact Or.inl (List.mem_cons_of_mem _ h)
    | succ k =>
      simp only [modifyAt, List.mem_cons] at h
      rcases h with h | h
      · exact Or.inl (by simp [h])
      · rcases ih k h with h1 | ⟨a, ha, hx⟩
        · exact Or.inl (List.mem_cons_of_mem _ h1)
        · exact Or.inr ⟨a, by simpa using ha, hx⟩

theorem pool_at_of_getElem? (s : State) (server : Nat) (l : conn_list)
    (h : s.connection_lists[server]? = some l) : pool_at s server = l := by
  unfold pool_at
  rw [List.getD_eq_getElem?_getD, h]
  rfl

theorem pools_modifyAt (P : Nat → conn_list → Prop) (F : conn_list → conn_list) (server : Nat)
    (lists : List conn_list) (h : ∀ j l, lists[j]? = some l → P j l)
    (hF : ∀ l, lists[server]? = some l → P server (F l)) :
    ∀ j l, (modifyAt F server lists)[j]? = some l → P j l := by
  intro j l hl
  rw [getElem?_modifyAt] at hl
  by_cases hj : j = server
  · subst hj
    rw [if_pos rfl] at hl
    cases hget : lists[j]? with
    | none => rw [hget] at hl; cases hl
    | some l0 =>
      rw [hget] at hl
      simp only [Option.map_some'] at hl
      injection hl with hl
      subst hl
      exact hF l0 hget
  · rw [if_neg hj] at hl
    exact h j l hl

theorem search_from_some (nodes : List conn_node) (k0 k : Nat)
    (h : search_from nodes k0 = some k) :
    ∃ j n, k = k0 + j ∧ nodes[j]? = some n ∧ n.connected = true ∧ n.busy = false := by
  induction nodes generalizing k0 with
  | nil => cases h
  | cons a rest ih =>
    unfold search_from at h
    by_cases hfree : (a.connected && !a.busy) = true
    · rw [if_pos hfree] at h
      injection h with h
      refine ⟨0, a, by omega, by simp, ?_⟩
      simpa using hfree
    · rw [if_neg hfree] at h
      obtain ⟨j, n, hk, hn, hc⟩ := ih (k0 + 1) h
      exact ⟨j + 1, n, by omega, by simpa using hn, hc⟩

theorem search_conn_list_some (l : conn_list) (k : Nat) (h : search_conn_list l = some k) :
    ∃ n, l.nodes[k]? = some n ∧ n.connected = true ∧ n.busy = false := by
  obtain ⟨j, n, hk, hn, hc⟩ := search_from_some l.nodes 0 k h
  have : k = j := by omega
  subst this
  exact ⟨n, hn, hc⟩

theorem run_request_found (p : Plan) (env : DispatchEnv) (i : Nat) (s : State) (k : Nat)
    (h : search_conn_list (pool_at s (rd p.req_server_id i)) = some k) :
    run_request p env i s =
      { connection_lists :=
          modifyAt (pool_send k (run_request_flow p i) env.write_ok) (rd p.req_server_id i)
            s.connection_lists
        req_start_time := s.req_start_time.set i env.now
        req_stop_time := s.req_stop_time } := by
  unfold run_request run_request_ops
  simp only [h]
  exact exec_run_request_send _ _ _ _ _ _

theorem run_request_dropped (p : Plan) (env : DispatchEnv) (i : Nat) (s : State)
    (h : search_conn_list (pool_at s (rd p.req_server_id i)) = none)
    (hc : env.connect_ok = false) :
    run_request p env i s = s := by
  unfold run_request run_request_ops
  simp only [h, hc]
  rfl

theorem run_request_grown (p : Plan) (env : DispatchEnv) (i : Nat) (s : State)
    (h : search_conn_list (pool_at s (rd p.req_server_id i)) = none)
    (hc : env.connect_ok = true) :
    run_request p env i s =
      { connection_lists :=
          modifyAt (fun l => pool_send (pool_at s (rd p.req_server_id i)).nodes.length
              (run_request_flow p i) env.write_ok (PoolOp.apply .insert_conn l))
            (rd p.req_server_id i) s.connection_lists
        req_start_time := s.req_start_time.set i env.now
        req_stop_time := s.req_stop_time } := by
  unfold run_request run_request_ops
  simp only [h, hc, if_true, List.cons_append, List.nil_append]
  rw [show ∀ (a b : Op) (rest : List Op) (st : State),
      exec (a :: b :: rest) st = exec rest (b.apply (a.apply st)) from fun _ _ _ _ => rfl]
  rw [exec_run_request_send]
  simp only [Op.apply, modifyAt_modifyAt]
  congr 1

theorem pool_counts_modify (l l1 : conn_list) (k : Nat) (n : conn_node)
    (f : conn_node → conn_node) (hl : pool_counts l) (hn : l.nodes[k]? = some n)
    (hnodes : l1.nodes = modifyAt f k l.nodes) (hav : l1.available_len < 2 ^ 32)
    (harith :
      (l1.available_len
          + (if ((f n).connected && (f n).sockfd.any (fun h => h.id == 0)) then 1 else 0)
          + (if (n.connected && !n.busy) then 1 else 0)) % 2 ^ 32 =
      (l.available_len
          + (if (n.connected && n.sockfd.any (fun h => h.id == 0)) then 1 else 0)
          + (if ((f n).connected && !(f n).busy) then 1 else 0)) % 2 ^ 32) :
    pool_counts l1 := by
  obtain ⟨hc, _⟩ := hl
  unfold sent_count free_count at hc
  have hfree := countP_modifyAt (fun n => n.connected && !n.busy) f k l.nodes n hn
  have hsent := countP_modifyAt (fun n => n.connected && n.sockfd.any (fun h => h.id == 0))
    f k l.nodes n hn
  beta_reduce at hfree hsent
  refine ⟨?_, hav⟩
  unfold sent_count free_count
  rw [hnodes]
  omega

theorem pool_counts_insert (l : conn_list) (hl : pool_counts l) :
    pool_counts (PoolOp.apply .insert_conn l) := by
  obtain ⟨hc, hlt⟩ := hl
  unfold sent_count free_count at hc
  have h1 : (l.nodes ++ [conn_node_new]).countP (fun n => n.connected && !n.busy) =
      l.nodes.countP (fun n => n.connected && !n.busy) + 1 := by
    simp [List.countP_append, conn_node_new]
  have h2 : (l.nodes ++ [conn_node_new]).countP
        (fun n => n.connected && n.sockfd.any (fun h => h.id == 0)) =
      l.nodes.countP (fun n => n.connected && n.sockfd.any (fun h => h.id == 0)) := by
    simp [List.countP_append, conn_node_new]
  constructor
  · show (u32_inc l.available_len + (l.nodes ++ [conn_node_new]).countP _) % 2 ^ 32 =
      (l.nodes ++ [conn_node_new]).countP _ % 2 ^ 32
    rw [h1, h2]
    unfold u32_inc
    split <;> omega
  · exact u32_inc_lt _ hlt

theorem pool_counts_send (l : conn_list) (k : Nat) (flow : flow_metadata)
    (hl : pool_counts l) (hn : l.nodes[k]? = some conn_node_new) (hid : flow.id ≠ 0) :
    pool_counts (pool_send k flow true l) := by
  apply pool_counts_modify l (pool_send k flow true l) k conn_node_new (node_send flow true) hl hn rfl
    (u32_dec_lt _ hl.2)
  have hlt := hl.2
  simp only [pool_send, node_send, conn_node_new, if_true, List.nil_append, List.any_cons,
    List.any_nil, Bool.or_false, beq_iff_eq, hid, Bool.true_and, Bool.not_true, Bool.not_false,
    Bool.and_true, Bool.and_false, Bool.false_eq_true, if_false, decide_False]
  unfold u32_dec
  split <;> omega

theorem pool_counts_exit (l : conn_list) (k : Nat) (n : conn_node)
    (hl : pool_counts l) (hn : l.nodes[k]? = some n) (hpre : node_class .pre n) :
    pool_counts (pool_exit k true l) := by
  apply pool_counts_modify l (pool_exit k true l) k n (node_exit true) hl hn rfl (u32_dec_lt _ hl.2)
  have hlt := hl.2
  have hz : exit_connection_flow.id = 0 := rfl
  rcases hpre with h | ⟨h, hid, hh⟩
  · subst h
    simp [pool_exit, node_exit, conn_node_new, hz]
    unfold u32_dec
    split <;> omega
  · subst hh
    simp [pool_exit, node_exit, hz, hid]
    unfold u32_dec
    split <;> omega

theorem pool_counts_response (l : conn_list) (k : Nat) (n : conn_node)
    (hl : pool_counts l) (hn : l.nodes[k]? = some n)
    (hshape : (∃ h, h.id ≠ 0 ∧
        n = { connected := true, busy := true, sockfd := [h], exited := false }) ∨
      (∃ h z, h.id ≠ 0 ∧ z.id = 0 ∧
        n = { connected := true, busy := true, sockfd := [h, z], exited := false })) :
    pool_counts (pool_response k l) := by
  apply pool_counts_modify l (pool_response k l) k n node_response hl hn rfl (u32_inc_lt _ hl.2)
  have hlt := hl.2
  rcases hshape with ⟨h, hid, hh⟩ | ⟨h, z, hid, hz, hh⟩
  · subst hh
    simp [pool_response, node_response, hid]
    unfold u32_inc
    split <;> omega
  · subst hh
    simp [pool_response, node_response, hid, hz]
    unfold u32_inc
    split <;> omega

theorem pool_counts_close (l : conn_list) (k : Nat) (z : flow_metadata)
    (hl : pool_counts l)
    (hn : l.nodes[k]? =
      some { connected := true, busy := false, sockfd := [z], exited := false })
    (hz : z.id = 0) :
    pool_counts (pool_close k l) := by
  apply pool_counts_modify l (pool_close k l) k _ (fun _ => node_closed) hl hn rfl hl.2
  simp [pool_close, node_closed, hz]

theorem getElem?_modifyAt_cases {α : Type} (f : α → α) (k j : Nat) (l : List α) (x : α)
    (h : (modifyAt f k l)[j]? = some x) :
    (j = k ∧ ∃ a, l[k]? = some a ∧ x = f a) ∨ (j ≠ k ∧ l[j]? = some x) := by
  rw [getElem?_modifyAt] at h
  by_cases hj : j = k
  · subst hj
    rw [if_pos rfl] at h
    cases hget : l[j]? with
    | none => rw [hget] at h; cases h
    | some a =>
      rw [hget] at h
      simp only [Option.map_some'] at h
      injection h with h
      exact Or.inl ⟨rfl, a, rfl, h.symm⟩
  · rw [if_neg hj] at h
    exact Or.inr ⟨hj, h⟩

theorem classes_modify (l l1 : conn_list) (k : Nat) (n : conn_node) (f : conn_node → conn_node)
    (C C1 : Nat → NodeClass)
    (hcls : ∀ (j : Nat) (x : conn_node), l.nodes[j]? = some x → node_class (C j) x)
    (hnodes : l1.nodes = modifyAt f k l.nodes) (hn : l.nodes[k]? = some n)
    (hk : node_class (C1 k) (f n)) (hother : ∀ j, j ≠ k → C1 j = C j) :
    ∀ (j : Nat) (x : conn_node), l1.nodes[j]? = some x → node_class (C1 j) x := by
  intro j x hx
  rw [hnodes] at hx
  rcases getElem?_modifyAt_cases f k j l.nodes x hx with ⟨hj, a, ha, hxa⟩ | ⟨hj, hxj⟩
  · subst hj
    rw [hn] at ha
    injection ha with ha
    subst ha
    subst hxa
    exact hk
  · rw [hother j hj]
    exact hcls j x hxj

theorem classes_insert (l : conn_list)
    (hcls : ∀ (j : Nat) (x : conn_node), l.nodes[j]? = some x → node_class .pre x) :
    ∀ (j : Nat) (x : conn_node), (PoolOp.apply .insert_conn l).nodes[j]? = some x →
      node_class .pre x := by
  intro j x hx
  have hx2 : (l.nodes ++ [conn_node_new])[j]? = some x := hx
  by_cases hj : j < l.nodes.length
  · rw [List.getElem?_append_left hj] at hx2
    exact hcls j x hx2
  · rw [List.getElem?_append_right (Nat.le_of_not_lt hj)] at hx2
    have hmem : x ∈ [conn_node_new] := List.getElem?_mem hx2
    simp only [List.mem_singleton] at hmem
    exact Or.inl hmem

theorem run_request_flow_id (p : Plan) (i : Nat) (hi : i < p.req_total_num)
    (hp : p.req_total_num < 2 ^ 32) : (run_request_flow p i).id ≠ 0 := by
  have h1 : (i + 1) % 2 ^ 32 = i + 1 := Nat.mod_eq_of_lt (by omega)
  show (i + 1) % 2 ^ 32 ≠ 0
  rw [h1]
  omega

theorem free_node_pre (n : conn_node) (hpre : node_class .pre n) (hb : n.busy = false) :
    n = conn_node_new := by
  rcases hpre with h | ⟨h, _, hh⟩
  · exact h
  · subst hh
    cases hb

theorem run_request_inv (p : Plan) (env : DispatchEnv) (i : Nat) (st : State)
    (hp : p.req_total_num < 2 ^ 32) (hw : env.write_ok = true) (hi : i < p.req_total_num)
    (h : ∀ (j : Nat) (l : conn_list), st.connection_lists[j]? = some l →
      pool_counts l ∧
      ∀ (k : Nat) (n : conn_node), l.nodes[k]? = some n → node_class .pre n) :
    ∀ (j : Nat) (l : conn_list), (run_request p env i st).connection_lists[j]? = some l →
      pool_counts l ∧
      ∀ (k : Nat) (n : conn_node), l.nodes[k]? = some n → node_class .pre n := by
  have hid := run_request_flow_id p i hi hp
  cases hsearch : search_conn_list (pool_at st (rd p.req_server_id i)) with
  | none =>
    cases hc : env.connect_ok with
    | false =>
      rw [run_request_dropped p env i st hsearch hc]
      exact h
    | true =>
      rw [run_request_grown p env i st hsearch hc, hw]
      refine pools_modifyAt
        (fun _ l => pool_counts l ∧
          ∀ (k : Nat) (n : conn_node), l.nodes[k]? = some n → node_class .pre n) _ _ _ h ?_
      intro l hl
      rw [pool_at_of_getElem? st _ l hl]
      obtain ⟨hcnt, hcls⟩ := h _ l hl
      have hnew : (PoolOp.apply .insert_conn l).nodes[l.nodes.length]? = some conn_node_new := by
        show (l.nodes ++ [conn_node_new])[l.nodes.length]? = some conn_node_new
        simp
      refine ⟨pool_counts_send _ _ _ (pool_counts_insert l hcnt) hnew hid, ?_⟩
      exact classes_modify (PoolOp.apply .insert_conn l) _ l.nodes.length conn_node_new
        (node_send (run_request_flow p i) true) (fun _ => .pre) (fun _ => .pre)
        (classes_insert l hcls) rfl hnew (Or.inr ⟨_, hid, rfl⟩) (fun _ _ => rfl)
  | some k =>
    rw [run_request_found p env i st k hsearch, hw]
    refine pools_modifyAt
      (fun _ l => pool_counts l ∧
        ∀ (k : Nat) (n : conn_node), l.nodes[k]? = some n → node_class .pre n) _ _ _ h ?_
    intro l hl
    rw [pool_at_of_getElem? st _ l hl] at hsearch
    obtain ⟨n, hn, _, hbusy⟩ := search_conn_list_some l k hsearch
    obtain ⟨hcnt, hcls⟩ := h _ l hl
    have hnew := free_node_pre n (hcls k n hn) hbusy
    subst hnew
    refine ⟨pool_counts_send l k _ hcnt hn hid, ?_⟩
    exact classes_modify l _ k conn_node_new
      (node_send (run_request_flow p i) true) (fun _ => .pre) (fun _ => .pre)
      hcls rfl hn (Or.inr ⟨_, hid, rfl⟩) (fun _ _ => rfl)

theorem exit_visit_inv (i ptr : Nat) (env : DispatchEnv) (st : State) (n : conn_node)
    (hw : env.write_ok = true) (hn : (pool_at st i).nodes[ptr]? = some n)
    (h : run_inv { pc := .exit_connections i ptr, st := st }) :
    run_inv { pc := .exit_connections i (ptr + 1), st := exit_connection i ptr env st } := by
  have hother : ∀ (j : Nat) (l : conn_list), st.connection_lists[j]? = some l →
      pool_counts l ∧ ∀ (k : Nat) (x : conn_node), l.nodes[k]? = some x →
        (j ≠ i ∨ k ≠ ptr) → node_class (node_class_at (.exit_connections i (ptr + 1)) j k) x := by
    intro j l hl
    obtain ⟨hcnt, hcls⟩ := h j l hl
    refine ⟨hcnt, ?_⟩
    intro k x hx hne
    have hold := hcls k x hx
    have heq : node_class_at (.exit_connections i (ptr + 1)) j k =
        node_class_at (.exit_connections i ptr) j k := by
      simp only [node_class_at]
      by_cases h1 : j < i
      · simp [h1]
      · by_cases h2 : j = i
        · have h3 : k ≠ ptr := by
            rcases hne with h | h
            · exact absurd h2 h
            · exact h
          by_cases h4 : k < ptr
          · have h5 : k < ptr + 1 := by omega
            simp [h1, h2, h4, h5]
          · have h5 : ¬ k < ptr + 1 := by omega
            simp [h1, h2, h4, h5]
        · simp [h1, h2]
    rw [heq]
    exact hold
  rw [exec_exit_connection, hw]
  intro j l1 hl1
  rcases getElem?_modifyAt_cases (pool_exit ptr true) i j st.connection_lists l1 hl1 with
    ⟨hj, l, hl, hl1eq⟩ | ⟨hj, hlj⟩
  · subst hj
    subst hl1eq
    rw [pool_at_of_getElem? st _ l hl] at hn
    obtain ⟨hcnt, hcls⟩ := h j l hl
    have hpre : node_class .pre n := by
      have := hcls ptr n hn
      simpa [node_class_at] using this
    refine ⟨pool_counts_exit l ptr n hcnt hn hpre, ?_⟩
    intro k x hx
    rcases getElem?_modifyAt_cases (node_exit true) ptr k l.nodes x hx with
      ⟨hk, a, ha, hxa⟩ | ⟨hk, hxk⟩
    · subst hk
      rw [hn] at ha
      injection ha with ha
      subst ha
      subst hxa
      have hc : node_class_at (.exit_connections j (k + 1)) j k = .post := by
        simp [node_class_at]
      rw [hc]
      rcases hpre with hnew | ⟨hd, hid, hh⟩
      · subst hnew
        exact Or.inl ⟨exit_connection_flow, rfl, rfl⟩
      · subst hh
        exact Or.inr (Or.inl ⟨hd, exit_connection_flow, hid, rfl, rfl⟩)
    · exact (hother j l hl).2 k x hxk (Or.inr hk)
  · obtain ⟨hcnt, hcls⟩ := hother j l1 hlj
    exact ⟨hcnt, fun k x hx => hcls k x hx (Or.inl hj)⟩

theorem main_step_inv (p : Plan) (env : DispatchEnv) (sys sys1 : System)
    (hp : p.req_total_num < 2 ^ 32) (hw : env.write_ok = true)
    (hstep : main_step p env sys = some sys1) (h : run_inv sys) : run_inv sys1 := by
  obtain ⟨pc, st⟩ := sys
  cases pc with
  | run_requests i =>
    simp only [main_step] at hstep
    split at hstep
    · rename_i hi
      injection hstep with hstep
      subst hstep
      exact run_request_inv p env i st hp hw hi h
    · injection hstep with hstep
      subst hstep
      intro j l hl
      obtain ⟨hcnt, hcls⟩ := h j l hl
      refine ⟨hcnt, ?_⟩
      intro k n hn
      have hc : node_class_at (.exit_connections 0 0) j k = .pre := by
        simp [node_class_at]
      rw [hc]
      exact hcls k n hn
  | exit_connections i ptr =>
    simp only [main_step] at hstep
    split at hstep
    · rename_i hi
      cases hn : (pool_at st i).nodes[ptr]? with
      | none =>
        rw [hn] at hstep
        simp only at hstep
        injection hstep with hstep
        subst hstep
        intro j l hl
        obtain ⟨hcnt, hcls⟩ := h j l hl
        refine ⟨hcnt, ?_⟩
        intro k n hk
        have hold := hcls k n hk
        by_cases h1 : j < i
        · simpa [node_class_at, h1] using hold
        · by_cases h2 : j = i
          · subst h2
            rw [pool_at_of_getElem? st _ l hl] at hn
            have hlen : l.nodes.length ≤ ptr := by
              by_contra hcon
              rw [List.getElem?_eq_getElem (by omega)] at hn
              cases hn
            have hklt : k < l.nodes.length := by
              by_contra hcon
              rw [List.getElem?_eq_none (by omega)] at hk
              cases hk
            have hkp : k < ptr := by omega
            simpa [node_class_at, hkp] using hold
          · simpa [node_class_at, h1, h2] using hold
      | some n =>
        rw [hn] at hstep
        simp only at hstep
        have hpre : node_class .pre n := by
          have hget : ∃ l, st.connection_lists[i]? = some l := by
            rw [List.getElem?_eq_getElem hi]
            exact ⟨_, rfl⟩
          obtain ⟨l, hl⟩ := hget
          rw [pool_at_of_getElem? st _ l hl] at hn
          have := (h i l hl).2 ptr n hn
          simpa [node_class_at] using this
        have hconn : n.connected = true := by
          rcases hpre with hnew | ⟨_, _, hh⟩
          · subst hnew; rfl
          · subst hh; rfl
        rw [if_pos hconn] at hstep
        injection hstep with hstep
        subst hstep
        exact exit_visit_inv i ptr env st n hw hn h
    · rename_i hi
      injection hstep with hstep
      subst hstep
      intro j l hl
      obtain ⟨hcnt, hcls⟩ := h j l hl
      refine ⟨hcnt, ?_⟩
      intro k n hk
      have hold := hcls k n hk
      have hl2 : st.connection_lists[j]? = some l := hl
      have hj : j < st.connection_lists.length := by
        by_contra hcon
        rw [List.getElem?_eq_none (by omega)] at hl2
        cases hl2
      have h1 : j < i := by omega
      simpa [node_class_at, h1] using hold
  | wait_conn_list i =>
    simp only [main_step] at hstep
    split at hstep
    · rename_i hall
      injection hstep with hstep
      subst hstep
      intro j l hl
      obtain ⟨hcnt, hcls⟩ := h j l hl
      refine ⟨hcnt, ?_⟩
      intro k n hk
      have hold := hcls k n hk
      by_cases h1 : j < i
      · have h2 : j < i + 1 := by omega
        simpa [node_class_at, h1, h2] using hold
      · by_cases h2 : j = i
        · subst h2
          rw [pool_at_of_getElem? st _ l hl] at hall
          have hex : n.exited = true := by
            rw [List.all_eq_true] at hall
            exact hall n (List.getElem?_mem hk)
          have hpost : node_class .post n := by
            simpa [node_class_at] using hold
          have hclosed : n = node_closed := by
            rcases hpost with ⟨_, _, hh⟩ | ⟨_, _, _, _, hh⟩ | hh
            · subst hh; cases hex
            · subst hh; cases hex
            · exact hh
          have hc : node_class_at (.exit_connections (j + 1) 0) j k = .closed := by
            simp [node_class_at]
          rw [hc]
          exact hclosed
        · have h3 : ¬ j < i + 1 := by omega
          have hpre : node_class .pre n := by
            simpa [node_class_at, h1, h2] using hold
          have hc : node_class_at (.exit_connections (i + 1) 0) j k = .pre := by
            simp only [node_class_at, h3, if_false]
            split <;> simp
          rw [hc]
          exact hpre
    · cases hstep
  | finished =>
    simp only [main_step] at hstep
    cases hstep

theorem pool_step_inv (pc : MainPc) (st : State) (server node : Nat)
    (F : conn_list → conn_list) (f : conn_node → conn_node) (n : conn_node)
    (start stop : List timeval) (h : run_inv { pc := pc, st := st })
    (hF : ∀ l, (F l).nodes = modifyAt f node l.nodes)
    (hn : ∀ l, st.connection_lists[server]? = some l → l.nodes[node]? = some n)
    (hcount : ∀ l, st.connection_lists[server]? = some l → pool_counts (F l))
    (hcls : node_class (node_class_at pc server node) (f n)) :
    run_inv
      { pc := pc
        st :=
          { connection_lists := modifyAt F server st.connection_lists
            req_start_time := start
            req_stop_time := stop } } := by
  intro j l1 hl1
  rcases getElem?_modifyAt_cases F server j st.connection_lists l1 hl1 with
    ⟨hj, l, hl, hl1eq⟩ | ⟨_, hlj⟩
  · subst hj
    subst hl1eq
    refine ⟨hcount l hl, ?_⟩
    exact classes_modify l (F l) node n f (fun k => node_class_at pc j k)
      (fun k => node_class_at pc j k) (h j l hl).2 (hF l) (hn l hl) hcls (fun _ _ => rfl)
  · exact h j l1 hlj

theorem recv_step_inv (server node : Nat) (flow : flow_metadata) (now : timeval)
    (sys sys1 : System)
    (hstep : recv_step server node (.complete flow) now sys = some sys1) (h : run_inv sys) :
    run_inv sys1 := by
  obtain ⟨pc, st⟩ := sys
  simp only [recv_step] at hstep
  cases hn : (pool_at st server).nodes[node]? with
  | none => rw [hn] at hstep; cases hstep
  | some n =>
    rw [hn] at hstep
    simp only at hstep
    split at hstep
    · rename_i hcond
      injection hstep with hstep
      subst hstep
      simp only [Bool.and_eq_true, Bool.not_eq_true', read_possible, decide_eq_true_eq] at hcond
      obtain ⟨hex, hhead⟩ := hcond
      have hsome : ∃ l, st.connection_lists[server]? = some l := by
        cases hget : st.connection_lists[server]? with
        | some l => exact ⟨l, rfl⟩
        | none =>
          have : pool_at st server = conn_list_zero := by
            unfold pool_at
            rw [List.getD_eq_getElem?_getD, hget]
            rfl
          rw [this] at hn
          cases hn
      obtain ⟨l0, hl0⟩ := hsome
      have hnl : ∀ l, st.connection_lists[server]? = some l → l.nodes[node]? = some n := by
        intro l hl
        rw [pool_at_of_getElem? st _ l hl] at hn
        exact hn
      have hcls0 := (h server l0 hl0).2 node n (hnl l0 hl0)
      have hcnt : ∀ l, st.connection_lists[server]? = some l → pool_counts l :=
        fun l hl => (h server l hl).1
      have hresp : ∀ hd : flow_metadata, hd.id ≠ 0 → flow = hd →
          ((∃ h, h.id ≠ 0 ∧
              n = { connected := true, busy := true, sockfd := [h], exited := false }) ∨
            (∃ h z, h.id ≠ 0 ∧ z.id = 0 ∧
              n = { connected := true, busy := true, sockfd := [h, z], exited := false })) →
          node_class (node_class_at pc server node) (node_response n) →
          run_inv
            { pc := pc, st := listen_connection server node (.complete flow) now st } := by
        intro hd hid hflow hshape hnew
        subst hflow
        rw [listen_connection_response server node flow now st hid]
        exact pool_step_inv pc st server node (pool_response node) node_response n _ _ h
          (fun _ => rfl) hnl
          (fun l hl => pool_counts_response l node n (hcnt l hl) (hnl l hl) hshape) hnew
      cases hc : node_class_at pc server node with
      | pre =>
        rw [hc] at hcls0
        rcases hcls0 with hnew | ⟨hd, hid, hh⟩
        · subst hnew
          cases hhead
        · subst hh
          have hflow : flow = hd := by
            simp only [List.head?_cons, Option.some.injEq] at hhead
            exact hhead.symm
          exact hresp hd hid hflow (Or.inl ⟨hd, hid, rfl⟩) (by rw [hc]; exact Or.inl rfl)
      | post =>
        rw [hc] at hcls0
        rcases hcls0 with ⟨z, hz, hh⟩ | ⟨hd, z, hid, hz, hh⟩ | hh
        · subst hh
          have hflow : flow = z := by
            simp only [List.head?_cons, Option.some.injEq] at hhead
            exact hhead.symm
          subst hflow
          rw [listen_connection_sentinel server node flow now st hz]
          exact pool_step_inv pc st server node (pool_close node) (fun _ => node_closed) _ _ _ h
            (fun _ => rfl) hnl
            (fun l hl => pool_counts_close l node flow (hcnt l hl) (hnl l hl) hz)
            (by rw [hc]; exact Or.inr (Or.inr rfl))
        · subst hh
          have hflow : flow = hd := by
            simp only [List.head?_cons, Option.some.injEq] at hhead
            exact hhead.symm
          exact hresp hd hid hflow (Or.inr ⟨hd, z, hid, hz, rfl⟩)
            (by rw [hc]; exact Or.inl ⟨z, hz, rfl⟩)
        · subst hh
          cases hex
      | closed =>
        rw [hc] at hcls0
        have hh : n = node_closed := hcls0
        subst hh
        cases hex
    · cases hstep

theorem step_inv (p : Plan) (a : Action) (sys sys1 : System) (hp : p.req_total_num < 2 ^ 32)
    (hnf : a.no_failure = true) (hstep : step p a sys = some sys1) (h : run_inv sys) :
    run_inv sys1 := by
  cases a with
  | main env => exact main_step_inv p env sys sys1 hp hnf hstep h
  | recv server node r now =>
    cases r with
    | header_failed => cases hnf
    | short_payload flow => cases hnf
    | complete flow => exact recv_step_inv server node flow now sys sys1 hstep h

theorem run_inv_run (p : Plan) (actions : List Action) (sys sys1 : System)
    (hp : p.req_total_num < 2 ^ 32) (hnf : actions.all Action.no_failure = true)
    (hrun : run p actions sys = some sys1) (h : run_inv sys) : run_inv sys1 := by
  induction actions generalizing sys with
  | nil =>
    simp only [run] at hrun
    injection hrun with hrun
    subst hrun
    exact h
  | cons a rest ih =>
    simp only [List.all_cons, Bool.and_eq_true] at hnf
    simp only [run] at hrun
    cases hstep : step p a sys with
    | none => rw [hstep] at hrun; cases hrun
    | some sys2 =>
      rw [hstep] at hrun
      exact ih sys2 hnf.2 hrun (step_inv p a sys sys2 hp hnf.1 hstep h)

theorem insert_conn_list_inv (c : List Bool) (l : conn_list)
    (hl : pool_counts l ∧ ∀ (k : Nat) (n : conn_node), l.nodes[k]? = some n → node_class .pre n) :
    pool_counts (insert_conn_list l c).1 ∧
    ∀ (k : Nat) (n : conn_node), (insert_conn_list l c).1.nodes[k]? = some n →
      node_class .pre n := by
  unfold insert_conn_list
  simp only
  generalize c.filter id = succ
  induction succ generalizing l with
  | nil => exact hl
  | cons b rest ih =>
    rw [List.foldl_cons]
    exact ih _ ⟨pool_counts_insert l hl.1, classes_insert l hl.2⟩

theorem main_init_inv (connects : List (List Bool)) (n : Nat) (sys0 : System)
    (h0 : main_init connects n = some sys0) : run_inv sys0 := by
  unfold main_init at h0
  split at h0
  · injection h0 with h0
    subst h0
    intro j l hl
    simp only [List.getElem?_map] at hl
    cases hc : connects[j]? with
    | none => rw [hc] at hl; cases hl
    | some c =>
      rw [hc] at hl
      simp only [Option.map_some'] at hl
      injection hl with hl
      subst hl
      refine insert_conn_list_inv c conn_list_zero ⟨⟨rfl, by decide⟩, ?_⟩
      intro k x hx
      cases hx
  · cases h0

/-- C9. In every run in which no socket read or write fails and the server
answers each header of a connection in order with the same header and the
full payload, once `exit_connections` has returned every pool has
`available_len = 0` and every node has `connected = false` and
`busy = false`. -/
theorem C9_final_pool_state (p : Plan) (connects : List (List Bool)) (actions : List Action)
    (sys0 sys : System) (hp : p.req_total_num < 2 ^ 32)
    (h0 : main_init connects p.req_total_num = some sys0)
    (hnf : actions.all Action.no_failure = true)
    (hrun : run p actions sys0 = some sys) (hfin : sys.pc = .finished) :
    ∀ l ∈ sys.st.connection_lists,
      l.available_len = 0 ∧ ∀ n ∈ l.nodes, n.connected = false ∧ n.busy = false := by
  have hinv := run_inv_run p actions sys0 sys hp hnf hrun (main_init_inv connects _ sys0 h0)
  intro l hl
  obtain ⟨j, hj⟩ := List.mem_iff_getElem?.mp hl
  obtain ⟨⟨hcnt, hlt⟩, hcls⟩ := hinv j l hj
  have hclosed : ∀ n ∈ l.nodes, n = node_closed := by
    intro n hn
    obtain ⟨k, hk⟩ := List.mem_iff_getElem?.mp hn
    have := hcls k n hk
    rw [hfin] at this
    exact this
  have hfree : free_count l = 0 := by
    unfold free_count
    rw [List.countP_eq_zero]
    intro n hn
    rw [hclosed n hn]
    decide
  have hsent : sent_count l = 0 := by
    unfold sent_count
    rw [List.countP_eq_zero]
    intro n hn
    rw [hclosed n hn]
    decide
  rw [hfree, hsent] at hcnt
  refine ⟨by omega, ?_⟩
  intro n hn
  rw [hclosed n hn]
  exact ⟨rfl, rfl⟩

/-- C9 at the complete run `actions_two` of `plan_two`. -/
theorem C9_final_pool_state_witness :
    plan_two.req_total_num < 2 ^ 32 ∧
    main_init [[true]] plan_two.req_total_num = some sys_two ∧
    actions_two.all Action.no_failure = true ∧
    run plan_two actions_two sys_two = some sys_two_finished ∧
    sys_two_finished.pc = .finished ∧
    ∀ l ∈ sys_two_finished.st.connection_lists,
      l.available_len = 0 ∧ ∀ n ∈ l.nodes, n.connected = false ∧ n.busy = false :=
  ⟨by decide, by decide, by decide, by decide, rfl,
    C9_final_pool_state plan_two [[true]] actions_two sys_two sys_two_finished
      (by decide) (by decide) (by decide) (by decide) rfl⟩

theorem u32_add_eq_mod (a b : Nat) (ha : a < 2 ^ 32) (hb : b < 2 ^ 32) :
    u32_add a b = (a + b) % 2 ^ 32 := by
  unfold u32_add
  split <;> omega

theorem u32_sub_eq_mod (a b : Nat) (ha : a < 2 ^ 32) (hb : b < 2 ^ 32) :
    u32_sub a b = (a + 2 ^ 32 - b) % 2 ^ 32 := by
  unfold u32_sub
  split <;> omega

theorem run_requests_upto_succ (p : Plan) (overhead k : Nat) :
    run_requests_upto p overhead (k + 1) =
      run_requests_iter p overhead (run_requests_upto p overhead k) k := by
  unfold run_requests_upto
  rw [List.range_succ, List.foldl_append]
  rfl

theorem dispatched_iter (p : Plan) (overhead : Nat) (st : Pacer) (i : Nat) :
    dispatched (run_requests_iter p overhead st i).calls = dispatched st.calls ++ [i] := by
  unfold run_requests_iter
  split <;> simp [dispatched, List.filterMap_append]

theorem dispatched_upto (p : Plan) (overhead k : Nat) :
    dispatched (run_requests_upto p overhead k).calls = List.range k := by
  induction k with
  | zero => rfl
  | succ k ih => rw [run_requests_upto_succ, dispatched_iter, ih, List.range_succ]

theorem run_requests_upto_calls (p : Plan) (overhead k m : Nat) :
    ∃ rest, (run_requests_upto p overhead (k + m)).calls =
      (run_requests_upto p overhead k).calls ++ rest := by
  induction m with
  | zero => exact ⟨[], by simp⟩
  | succ m ih =>
    obtain ⟨rest, hrest⟩ := ih
    rw [← Nat.add_assoc, run_requests_upto_succ]
    unfold run_requests_iter
    split
    · exact ⟨_, by simp only [hrest, List.append_assoc]; rfl⟩
    · exact ⟨_, by simp only [hrest, List.append_assoc]; rfl⟩

theorem run_requests_upto_lt (p : Plan) (overhead k : Nat)
    (hgap : ∀ j, rd p.req_sleep_us j < 2 ^ 32) :
    (run_requests_upto p overhead k).sleep_us < 2 ^ 32 := by
  induction k with
  | zero => show 0 < 2 ^ 32; omega
  | succ k ih =>
    rw [run_requests_upto_succ]
    unfold run_requests_iter
    have hg := hgap k
    split
    · show 0 < 2 ^ 32; omega
    · show u32_add _ _ < 2 ^ 32
      unfold u32_add
      split <;> omega

/-- C11. The loop of `run_requests` starts with the accumulator `0` and no
call made, and runs the iterations `0 .. req_total_num - 1`. At each index
`i` the iteration first adds `req_sleep_us[i]` to the accumulator (`debt`, the
`unsigned int` sum: the sum modulo `2 ^ 32` for 32-bit gaps, the plain sum
when that fits 32 bits). If `debt`
is strictly greater than `overhead` it calls `usleep` with exactly
`debt - overhead`, which is strictly positive and does not wrap, and resets
the accumulator to `0`; otherwise it does not sleep and carries `debt` to the
index `i + 1`. In both cases it then calls `run_request(i)`. The calls of the
iteration are calls of the whole loop, whose calls of `run_request` are those
of the indices `0 .. req_total_num - 1` in order, `i` exactly once. -/
theorem C11_pacer_step (p : Plan) (overhead i : Nat) (hi : i < p.req_total_num) :
    run_requests_upto p overhead 0 = { sleep_us := 0, calls := [] } ∧
    run_requests p overhead = run_requests_upto p overhead p.req_total_num ∧
    ((∀ j, rd p.req_sleep_us j < 2 ^ 32) →
      u32_add (run_requests_upto p overhead i).sleep_us (rd p.req_sleep_us i) =
        ((run_requests_upto p overhead i).sleep_us + rd p.req_sleep_us i) % 2 ^ 32) ∧
    ((run_requests_upto p overhead i).sleep_us + rd p.req_sleep_us i < 2 ^ 32 →
      u32_add (run_requests_upto p overhead i).sleep_us (rd p.req_sleep_us i) =
        (run_requests_upto p overhead i).sleep_us + rd p.req_sleep_us i) ∧
    (overhead < u32_add (run_requests_upto p overhead i).sleep_us (rd p.req_sleep_us i) →
      run_requests_upto p overhead (i + 1) =
        { sleep_us := 0
          calls := (run_requests_upto p overhead i).calls ++
            [ .usleep (u32_add (run_requests_upto p overhead i).sleep_us
                (rd p.req_sleep_us i) - overhead),
              .run_request i ] } ∧
      0 < u32_add (run_requests_upto p overhead i).sleep_us (rd p.req_sleep_us i) - overhead ∧
      u32_sub (u32_add (run_requests_upto p overhead i).sleep_us (rd p.req_sleep_us i))
          overhead =
        u32_add (run_requests_upto p overhead i).sleep_us (rd p.req_sleep_us i) - overhead) ∧
    (¬ overhead < u32_add (run_requests_upto p overhead i).sleep_us (rd p.req_sleep_us i) →
      run_requests_upto p overhead (i + 1) =
        { sleep_us := u32_add (run_requests_upto p overhead i).sleep_us (rd p.req_sleep_us i)
          calls := (run_requests_upto p overhead i).calls ++ [ .run_request i ] }) ∧
    (∃ rest, (run_requests p overhead).calls =
      (run_requests_upto p overhead (i + 1)).calls ++ rest) ∧
    dispatched (run_requests p overhead).calls = List.range p.req_total_num ∧
    (dispatched (run_requests p overhead).calls).count i = 1 := by
  refine ⟨rfl, rfl, ?_, ?_, ?_, ?_, ?_, dispatched_upto p overhead _, ?_⟩
  · intro hgap
    exact u32_add_eq_mod _ _ (run_requests_upto_lt p overhead i hgap) (hgap i)
  · intro h
    unfold u32_add
    rw [if_pos (by omega)]
  · intro h
    have hsub : u32_sub (u32_add (run_requests_upto p overhead i).sleep_us
        (rd p.req_sleep_us i)) overhead =
        u32_add (run_requests_upto p overhead i).sleep_us (rd p.req_sleep_us i) - overhead := by
      unfold u32_sub
      rw [if_pos (by omega)]
    refine ⟨?_, by omega, hsub⟩
    rw [run_requests_upto_succ]
    unfold run_requests_iter
    rw [if_pos h, hsub]
  · intro h
    rw [run_requests_upto_succ]
    unfold run_requests_iter
    rw [if_neg h]
  · obtain ⟨rest, hrest⟩ := run_requests_upto_calls p overhead (i + 1)
      (p.req_total_num - (i + 1))
    refine ⟨rest, ?_⟩
    rw [← hrest]
    unfold run_requests
    rw [show i + 1 + (p.req_total_num - (i + 1)) = p.req_total_num by omega]
  · unfold run_requests
    rw [dispatched_upto]
    exact List.count_eq_one_of_mem (List.nodup_range _) (List.mem_range.mpr hi)

/-- C11 on `plan_gaps` with overhead `6`: at index `1` the carried `5` and the
gap `7` make `12 > 6`, the loop sleeps `6` and resets the accumulator; the
whole loop then carries the gap `2` of index `2`. -/
theorem C11_pacer_step_witness :
    1 < plan_gaps.req_total_num ∧
    6 < u32_add (run_requests_upto plan_gaps 6 1).sleep_us (rd plan_gaps.req_sleep_us 1) ∧
    run_requests_upto plan_gaps 6 (1 + 1) =
      { sleep_us := 0, calls := [ .run_request 0, .usleep 6, .run_request 1 ] } ∧
    run_requests plan_gaps 6 =
      { sleep_us := 2
        calls := [ .run_request 0, .usleep 6, .run_request 1, .run_request 2 ] } :=
  ⟨by decide, by decide,
    ((C11_pacer_step plan_gaps 6 1 (by decide)).2.2.2.2.1 (by decide)).1,
    by decide⟩

/-- C15. For every plan and `overhead` such that no sum of the accumulator
and a gap reaches `2 ^ 32` during the first `k` iterations of `run_requests`,
after these `k` iterations the carried accumulator is at most `overhead`, and
the sum of the gaps of the indices below `k` equals the sum of the durations of
the `usleep` calls made so far, plus `overhead` times their number, plus the
carried accumulator. -/
theorem C15_debt_conservation (p : Plan) (overhead k : Nat)
    (hno : ∀ i, i < k →
      (run_requests_upto p overhead i).sleep_us + rd p.req_sleep_us i < 2 ^ 32) :
    (run_requests_upto p overhead k).sleep_us ≤ overhead ∧
    ((List.range k).map (rd p.req_sleep_us)).sum =
      (sleeps (run_requests_upto p overhead k).calls).sum +
        overhead * (sleeps (run_requests_upto p overhead k).calls).length +
        (run_requests_upto p overhead k).sleep_us := by
  induction k with
  | zero => exact ⟨Nat.zero_le _, rfl⟩
  | succ k ih =>
    obtain ⟨hle, hsum⟩ := ih (fun i hi => hno i (by omega))
    have hk := hno k (by omega)
    have hadd : u32_add (run_requests_upto p overhead k).sleep_us (rd p.req_sleep_us k) =
        (run_requests_upto p overhead k).sleep_us + rd p.req_sleep_us k := by
      unfold u32_add
      rw [if_pos (by omega)]
    rw [run_requests_upto_succ, List.range_succ, List.map_append, List.sum_append]
    simp only [List.map_cons, List.map_nil, List.sum_cons, List.sum_nil, Nat.add_zero]
    unfold run_requests_iter
    rw [hadd]
    by_cases hgt : (run_requests_upto p overhead k).sleep_us + rd p.req_sleep_us k > overhead
    · rw [if_pos hgt]
      have hsub : u32_sub ((run_requests_upto p overhead k).sleep_us + rd p.req_sleep_us k)
          overhead =
          (run_requests_upto p overhead k).sleep_us + rd p.req_sleep_us k - overhead := by
        unfold u32_sub
        rw [if_pos (by omega)]
      simp only [sleeps, List.filterMap_append, List.filterMap_cons, List.filterMap_nil,
        List.sum_append, List.length_append, List.sum_cons, List.sum_nil, List.length_cons,
        List.length_nil, hsub] at hsum ⊢
      refine ⟨Nat.zero_le _, ?_⟩
      rw [Nat.mul_add]
      omega
    · rw [if_neg hgt]
      simp only [sleeps, List.filterMap_append, List.filterMap_cons, List.filterMap_nil,
        List.append_nil] at hsum ⊢
      refine ⟨by omega, ?_⟩
      omega

/-- C15 on `plan_gaps` with overhead `6`, after all three iterations: the
gaps sum to `14`, one sleep of `6` was requested and `2` is carried. -/
theorem C15_debt_conservation_witness :
    (∀ i, i < 3 →
      (run_requests_upto plan_gaps 6 i).sleep_us + rd plan_gaps.req_sleep_us i < 2 ^ 32) ∧
    (run_requests_upto plan_gaps 6 3).sleep_us ≤ 6 ∧
    ((List.range 3).map (rd plan_gaps.req_sleep_us)).sum =
      (sleeps (run_requests_upto plan_gaps 6 3).calls).sum +
        6 * (sleeps (run_requests_upto plan_gaps 6 3).calls).length +
        (run_requests_upto plan_gaps 6 3).sleep_us :=
  ⟨by decide, C15_debt_conservation plan_gaps 6 3 (by decide)⟩

theorem pool_at_modifyAt (F : conn_list → conn_list) (server : Nat) (s : State) (l : conn_list)
    (start stop : List timeval) (hl : s.connection_lists[server]? = some l) :
    pool_at
      { connection_lists := modifyAt F server s.connection_lists
        req_start_time := start
        req_stop_time := stop } server = F l := by
  apply pool_at_of_getElem?
  show (modifyAt F server s.connection_lists)[server]? = some (F l)
  rw [getElem?_modifyAt, if_pos rfl, hl]
  rfl

theorem getElem?_modifyAt_self {α : Type} (f : α → α) (k : Nat) (l : List α) (a : α)
    (h : l[k]? = some a) : (modifyAt f k l)[k]? = some (f a) := by
  rw [getElem?_modifyAt, if_pos rfl, h]
  rfl

theorem listen_connection_breaks_iff (server node : Nat) (r : ReadResult) (now : timeval) :
    listen_connection_breaks r = true ↔
      Op.pool server (.thread_return node) ∈ listen_connection_ops server node r now := by
  cases r with
  | header_failed => simp [listen_connection_breaks, listen_connection_ops, listen_connection_exit]
  | short_payload flow =>
    simp [listen_connection_breaks, listen_connection_ops, listen_connection_exit]
  | complete flow =>
    by_cases h0 : flow.id = 0
    · simp [listen_connection_breaks, listen_connection_ops, listen_connection_exit, h0]
    · simp [listen_connection_breaks, listen_connection_ops, listen_connection_exit, h0]

/-- C14. For a response `listen_connection` reads completely on the node
`node` of the pool `server`: when the header id is not `0`, the node's `busy`
is cleared, `available_len` and `flow_finished` of the pool are incremented
(by exactly one below `UINT_MAX`), `req_stop_time[id - 1]` is recorded and the
iteration stays in the loop; when the id is `0`, neither counter changes, no
stop time is recorded and the iteration leaves the loop. An iteration leaves
the loop exactly for the sentinel, a failed header read and a short payload,
and after each of them the node has `connected = false` and `busy = false`. -/
theorem C14_receiver_accounting (server node : Nat) (now : timeval) (s : State)
    (l : conn_list) (n : conn_node) (hl : s.connection_lists[server]? = some l)
    (hn : l.nodes[node]? = some n) :
    (∀ flow : flow_metadata, flow.id ≠ 0 →
      (pool_at (listen_connection server node (.complete flow) now s) server).nodes[node]? =
        some { n with busy := false, sockfd := n.sockfd.tail } ∧
      (pool_at (listen_connection server node (.complete flow) now s) server).available_len =
        u32_inc l.available_len ∧
      (pool_at (listen_connection server node (.complete flow) now s) server).flow_finished =
        u32_inc l.flow_finished ∧
      (l.available_len ≠ 4294967295 → u32_inc l.available_len = l.available_len + 1) ∧
      (l.flow_finished ≠ 4294967295 → u32_inc l.flow_finished = l.flow_finished + 1) ∧
      (listen_connection server node (.complete flow) now s).req_stop_time =
        s.req_stop_time.set (flow.id - 1) now ∧
      listen_connection_breaks (.complete flow) = false) ∧
    (∀ flow : flow_metadata, flow.id = 0 →
      (pool_at (listen_connection server node (.complete flow) now s) server).available_len =
        l.available_len ∧
      (pool_at (listen_connection server node (.complete flow) now s) server).flow_finished =
        l.flow_finished ∧
      (listen_connection server node (.complete flow) now s).req_stop_time = s.req_stop_time ∧
      listen_connection_breaks (.complete flow) = true) ∧
    (∀ r : ReadResult,
      (listen_connection_breaks r = true ↔
        (r = .header_failed ∨ (∃ flow, r = .short_payload flow) ∨
          ∃ flow, r = .complete flow ∧ flow.id = 0)) ∧
      (listen_connection_breaks r = true ↔
        Op.pool server (.thread_return node) ∈ listen_connection_ops server node r now) ∧
      (listen_connection_breaks r = true →
        ∃ n1, (pool_at (listen_connection server node r now s) server).nodes[node]? = some n1 ∧
          n1.connected = false ∧ n1.busy = false)) := by
  have hclosed : ∀ start stop,
      ∃ n1, (pool_at
          { connection_lists := modifyAt (pool_close node) server s.connection_lists
            req_start_time := start
            req_stop_time := stop } server).nodes[node]? = some n1 ∧
        n1.connected = false ∧ n1.busy = false := by
    intro start stop
    rw [pool_at_modifyAt _ _ _ l _ _ hl]
    exact ⟨node_closed, getElem?_modifyAt_self _ _ _ n hn, rfl, rfl⟩
  refine ⟨?_, ?_, ?_⟩
  · intro flow h0
    rw [listen_connection_response server node flow now s h0, pool_at_modifyAt _ _ _ l _ _ hl]
    refine ⟨getElem?_modifyAt_self _ _ _ n hn, rfl, rfl, ?_, ?_, ?_, ?_⟩
    · intro h; rw [u32_inc, if_neg h]
    · intro h; rw [u32_inc, if_neg h]
    · show s.req_stop_time.set (u32_dec flow.id) now = s.req_stop_time.set (flow.id - 1) now
      rw [u32_dec, if_neg h0]
    · simp [listen_connection_breaks, h0]
  · intro flow h0
    rw [listen_connection_sentinel server node flow now s h0, pool_at_modifyAt _ _ _ l _ _ hl]
    exact ⟨rfl, rfl, rfl, by simp [listen_connection_breaks, h0]⟩
  · intro r
    refine ⟨?_, listen_connection_breaks_iff server node r now, ?_⟩
    · cases r with
      | header_failed => simp [listen_connection_breaks]
      | short_payload flow => simp [listen_connection_breaks]
      | complete flow => simp [listen_connection_breaks]
    · intro hb
      cases r with
      | header_failed =>
        rw [listen_connection_failed server node _ now s (by intro f hf; cases hf)]
        exact hclosed _ _
      | short_payload flow =>
        rw [listen_connection_failed server node _ now s (by intro f hf; cases hf)]
        exact hclosed _ _
      | complete flow =>
        have h0 : flow.id = 0 := by simpa [listen_connection_breaks] using hb
        rw [listen_connection_sentinel server node flow now s h0]
        exact hclosed _ _

/-- C14 at the busy node of `state_one_busy` and the response to request
`1`. -/
theorem C14_receiver_accounting_witness :
    state_one_busy.connection_lists[0]? =
      some { nodes := [ { connected := true, busy := true,
                          sockfd := [{ id := 1, size := 1000, tos := 0, rate := 0 }],
                          exited := false } ]
             len := 1, available_len := 0, flow_finished := 0 } ∧
    (pool_at (listen_connection 0 0 (.complete { id := 1, size := 1000, tos := 0, rate := 0 })
        { tv_sec := 9, tv_usec := 0 } state_one_busy) 0).available_len = u32_inc 0 ∧
    (listen_connection 0 0 (.complete { id := 1, size := 1000, tos := 0, rate := 0 })
        { tv_sec := 9, tv_usec := 0 } state_one_busy).req_stop_time =
      state_one_busy.req_stop_time.set (1 - 1) { tv_sec := 9, tv_usec := 0 } :=
  ⟨rfl,
    ((C14_receiver_accounting 0 0 { tv_sec := 9, tv_usec := 0 } state_one_busy _ _ rfl rfl).1
      { id := 1, size := 1000, tos := 0, rate := 0 } (by decide)).2.1,
    ((C14_receiver_accounting 0 0 { tv_sec := 9, tv_usec := 0 } state_one_busy _ _ rfl rfl).1
      { id := 1, size := 1000, tos := 0, rate := 0 } (by decide)).2.2.2.2.2.1⟩

theorem run_request_ops_split (p : Plan) (env : DispatchEnv) (i : Nat) (s : State) (node : Nat)
    (hnode : run_request_node p env i s = some node) :
    run_request_ops p env i s =
      run_request_grow_ops p env i s ++
        run_request_send (rd p.req_server_id i) node i (run_request_flow p i) env := by
  unfold run_request_node at hnode
  cases hsearch : search_conn_list (pool_at s (rd p.req_server_id i)) with
  | some k =>
    rw [hsearch] at hnode
    simp only at hnode
    injection hnode with hnode
    subst hnode
    simp only [run_request_ops, run_request_grow_ops, hsearch, List.nil_append]
  | none =>
    rw [hsearch] at hnode
    simp only at hnode
    cases hc : env.connect_ok with
    | false => rw [hc] at hnode; cases hnode
    | true =>
      rw [hc] at hnode
      simp only [if_true] at hnode
      injection hnode with hnode
      subst hnode
      simp only [run_request_ops, run_request_grow_ops, hsearch, hc, if_true]

theorem exec_append (a b : List Op) (s : State) : exec (a ++ b) s = exec b (exec a s) := by
  unfold exec
  rw [List.foldl_append]

theorem getElem?_modifyAt_ne {α : Type} (f : α → α) (k j : Nat) (l : List α) (h : j ≠ k) :
    (modifyAt f k l)[j]? = l[j]? := by
  rw [getElem?_modifyAt, if_neg h]

theorem exec_grow_ops (p : Plan) (env : DispatchEnv) (i : Nat) (s : State) :
    (exec (run_request_grow_ops p env i s) s).req_start_time = s.req_start_time ∧
    (exec (run_request_grow_ops p env i s) s).req_stop_time = s.req_stop_time ∧
    ∀ j, j ≠ rd p.req_server_id i →
      (exec (run_request_grow_ops p env i s) s).connection_lists[j]? =
        s.connection_lists[j]? := by
  unfold run_request_grow_ops
  cases search_conn_list (pool_at s (rd p.req_server_id i)) with
  | some k => exact ⟨rfl, rfl, fun _ _ => rfl⟩
  | none =>
    cases env.connect_ok with
    | false => exact ⟨rfl, rfl, fun _ _ => rfl⟩
    | true =>
      refine ⟨rfl, rfl, ?_⟩
      intro j hj
      simp only [if_true, exec, List.foldl_cons, List.foldl_nil, Op.apply, modifyAt_modifyAt]
      exact getElem?_modifyAt_ne _ _ _ _ hj

theorem run_request_node_exists (p : Plan) (env : DispatchEnv) (i : Nat) (s : State)
    (node : Nat) (l0 : conn_list) (hnode : run_request_node p env i s = some node)
    (hl : s.connection_lists[rd p.req_server_id i]? = some l0) :
    ∃ l1 n1, (exec (run_request_grow_ops p env i s) s).connection_lists[rd p.req_server_id i]? =
        some l1 ∧ l1.nodes[node]? = some n1 ∧ n1.connected = true ∧ n1.busy = false := by
  unfold run_request_node at hnode
  unfold run_request_grow_ops
  rw [pool_at_of_getElem? s _ l0 hl] at hnode ⊢
  cases hsearch : search_conn_list l0 with
  | some k =>
    rw [hsearch] at hnode
    simp only at hnode
    injection hnode with hnode
    subst hnode
    obtain ⟨n, hn, hc, hb⟩ := search_conn_list_some l0 k hsearch
    exact ⟨l0, n, hl, hn, hc, hb⟩
  | none =>
    rw [hsearch] at hnode
    simp only at hnode
    cases hc : env.connect_ok with
    | false => rw [hc] at hnode; cases hnode
    | true =>
      rw [hc] at hnode
      simp only [if_true] at hnode
      injection hnode with hnode
      subst hnode
      refine ⟨PoolOp.apply .insert_conn l0, conn_node_new, ?_, ?_, rfl, rfl⟩
      · simp only [if_true, exec, List.foldl_cons, List.foldl_nil, Op.apply, modifyAt_modifyAt]
        rw [getElem?_modifyAt_self _ _ _ l0 hl]
        rfl
      · show (l0.nodes ++ [conn_node_new])[l0.nodes.length]? = some conn_node_new
        simp

theorem run_request_grow_ops_cases (p : Plan) (env : DispatchEnv) (i : Nat) (s : State) :
    run_request_grow_ops p env i s = [] ∨
    run_request_grow_ops p env i s =
      [ .pool (rd p.req_server_id i) .insert_conn,
        .pool (rd p.req_server_id i)
          (.pthread_create (pool_at s (rd p.req_server_id i)).nodes.length) ] := by
  unfold run_request_grow_ops
  cases search_conn_list (pool_at s (rd p.req_server_id i)) with
  | some k => exact Or.inl rfl
  | none =>
    cases env.connect_ok with
    | false => exact Or.inl rfl
    | true => exact Or.inr rfl

/-- C13. Whenever `run_request` obtains a node for the plan index `i` (found
free, or the tail of the pool it has just grown), the statements it then
executes are, in this order: record `req_start_time[i]`, set the node's
`busy`, decrement `available_len` of the owning pool under the lock, write the
header. After the call `req_start_time[i]` holds the clock value, the node is
busy, `available_len` of the owning pool is one less (in `unsigned int`) than
when the node was obtained, whether the write succeeded or not (only the
content of the connection depends on it), and every other pool is
unchanged. -/
theorem C13_dispatch_step (p : Plan) (env : DispatchEnv) (i : Nat) (s : State) (node : Nat)
    (l0 : conn_list) (hnode : run_request_node p env i s = some node)
    (hl : s.connection_lists[rd p.req_server_id i]? = some l0) :
    run_request_ops p env i s =
      run_request_grow_ops p env i s ++
        [ .gettimeofday_start i env.now,
          .pool (rd p.req_server_id i) (.set_busy node true),
          .pool (rd p.req_server_id i) .lock,
          .pool (rd p.req_server_id i) .available_len_dec,
          .pool (rd p.req_server_id i) .unlock,
          .pool (rd p.req_server_id i)
            (.write_flow_req node (run_request_flow p i) env.write_ok) ] ∧
    List.indexOf (Op.gettimeofday_start i env.now) (run_request_ops p env i s) <
      List.indexOf (Op.pool (rd p.req_server_id i) (.set_busy node true))
        (run_request_ops p env i s) ∧
    List.indexOf (Op.pool (rd p.req_server_id i) (.set_busy node true))
        (run_request_ops p env i s) <
      List.indexOf (Op.pool (rd p.req_server_id i) .available_len_dec)
        (run_request_ops p env i s) ∧
    List.indexOf (Op.pool (rd p.req_server_id i) .available_len_dec)
        (run_request_ops p env i s) <
      List.indexOf
        (Op.pool (rd p.req_server_id i)
          (.write_flow_req node (run_request_flow p i) env.write_ok))
        (run_request_ops p env i s) ∧
    (∃ l1 n1,
      (exec (run_request_grow_ops p env i s) s).connection_lists[rd p.req_server_id i]? =
        some l1 ∧
      l1.nodes[node]? = some n1 ∧
      (pool_at (run_request p env i s) (rd p.req_server_id i)).nodes[node]? =
        some { n1 with
          busy := true
          sockfd := if env.write_ok then n1.sockfd ++ [run_request_flow p i] else n1.sockfd } ∧
      (pool_at (run_request p env i s) (rd p.req_server_id i)).available_len =
        u32_dec l1.available_len ∧
      (l1.available_len ≠ 0 → u32_dec l1.available_len = l1.available_len - 1) ∧
      (pool_at (run_request p env i s) (rd p.req_server_id i)).len = l1.len ∧
      (pool_at (run_request p env i s) (rd p.req_server_id i)).flow_finished =
        l1.flow_finished) ∧
    (run_request p env i s).req_start_time = s.req_start_time.set i env.now ∧
    (run_request p env i s).req_stop_time = s.req_stop_time ∧
    (∀ j, j ≠ rd p.req_server_id i →
      (run_request p env i s).connection_lists[j]? = s.connection_lists[j]?) := by
  have hsplit := run_request_ops_split p env i s node hnode
  have hrun : run_request p env i s =
      { connection_lists :=
          modifyAt (pool_send node (run_request_flow p i) env.write_ok) (rd p.req_server_id i)
            (exec (run_request_grow_ops p env i s) s).connection_lists
        req_start_time := (exec (run_request_grow_ops p env i s) s).req_start_time.set i env.now
        req_stop_time := (exec (run_request_grow_ops p env i s) s).req_stop_time } := by
    unfold run_request
    rw [hsplit, exec_append, exec_run_request_send]
  obtain ⟨hstart, hstop, hothers⟩ := exec_grow_ops p env i s
  obtain ⟨l1, n1, hl1, hn1, _, _⟩ := run_request_node_exists p env i s node l0 hnode hl
  refine ⟨hsplit, ?_, ?_, ?_, ⟨l1, n1, hl1, hn1, ?_⟩, ?_, ?_, ?_⟩
  · rw [hsplit]
    rcases run_request_grow_ops_cases p env i s with h | h <;> rw [h] <;>
      simp [run_request_send, List.indexOf_cons]
  · rw [hsplit]
    rcases run_request_grow_ops_cases p env i s with h | h <;> rw [h] <;>
      simp [run_request_send, List.indexOf_cons]
  · rw [hsplit]
    rcases run_request_grow_ops_cases p env i s with h | h <;> rw [h] <;>
      simp [run_request_send, List.indexOf_cons]
  · rw [hrun, pool_at_modifyAt _ _ _ l1 _ _ hl1]
    refine ⟨getElem?_modifyAt_self _ _ _ n1 hn1, rfl, ?_, rfl, rfl⟩
    intro h
    rw [u32_dec, if_neg h]
  · rw [hrun, hstart]
  · rw [hrun, hstop]
  · intro j hj
    rw [hrun]
    show (modifyAt _ _ _)[j]? = _
    rw [getElem?_modifyAt_ne _ _ _ _ hj]
    exact hothers j hj

/-- C13 at the dispatch of request `0` of `plan_one` on the idle node of
`sys_one`. -/
theorem C13_dispatch_step_witness :
    run_request_node plan_one (env_ok 1) 0 sys_one.st = some 0 ∧
    sys_one.st.connection_lists[rd plan_one.req_server_id 0]? =
      some { nodes := [conn_node_new], len := 1, available_len := 1, flow_finished := 0 } ∧
    (run_request plan_one (env_ok 1) 0 sys_one.st).req_start_time =
      sys_one.st.req_start_time.set 0 (env_ok 1).now ∧
    (run_request plan_one (env_ok 1) 0 sys_one.st).req_stop_time =
      sys_one.st.req_stop_time :=
  ⟨by decide, rfl,
    (C13_dispatch_step plan_one (env_ok 1) 0 sys_one.st 0 _ (by decide) rfl).2.2.2.2.2.1,
    (C13_dispatch_step plan_one (env_ok 1) 0 sys_one.st 0 _ (by decide) rfl).2.2.2.2.2.2.1⟩

theorem rd_time_set_ne (arr : List timeval) (k j : Nat) (v : timeval) (h : k ≠ j) :
    rd_time (arr.set k v) j = rd_time arr j := by
  unfold rd_time
  rw [List.getD_eq_getElem?_getD, List.getD_eq_getElem?_getD, List.getElem?_set_ne h]

theorem pool_no_header_modify (l l1 : conn_list) (f : conn_node → conn_node) (k id : Nat)
    (hnodes : l1.nodes = modifyAt f k l.nodes)
    (hf : ∀ n : conn_node, (∀ h ∈ n.sockfd, h.id ≠ id) → ∀ h ∈ (f n).sockfd, h.id ≠ id)
    (hl : pool_no_header l id) : pool_no_header l1 id := by
  intro n hn
  rw [hnodes] at hn
  rcases mem_modifyAt f k l.nodes n hn with h | ⟨a, ha, hna⟩
  · exact hl n h
  · subst hna
    exact hf a (hl a (List.getElem?_mem ha))

theorem pool_no_header_insert (l : conn_list) (id : Nat) (hl : pool_no_header l id) :
    pool_no_header (PoolOp.apply .insert_conn l) id := by
  intro n hn
  have hn2 : n ∈ l.nodes ++ [conn_node_new] := hn
  rw [List.mem_append] at hn2
  rcases hn2 with h | h
  · exact hl n h
  · simp only [List.mem_singleton] at h
    subst h
    intro x hx
    cases hx

theorem pools_no_header_modifyAt (F : conn_list → conn_list) (server id : Nat)
    (lists : List conn_list) (h : ∀ l ∈ lists, pool_no_header l id)
    (hF : ∀ l, lists[server]? = some l → pool_no_header l id → pool_no_header (F l) id) :
    ∀ l ∈ modifyAt F server lists, pool_no_header l id := by
  intro l hl
  rcases mem_modifyAt F server lists l hl with h1 | ⟨a, ha, hla⟩
  · exact h l h1
  · subst hla
    exact hF a ha (h a (List.getElem?_mem ha))

theorem node_send_no_header (flow : flow_metadata) (ok : Bool) (id : Nat) (hid : flow.id ≠ id)
    (n : conn_node) (hn : ∀ h ∈ n.sockfd, h.id ≠ id) :
    ∀ h ∈ (node_send flow ok n).sockfd, h.id ≠ id := by
  intro h hh
  cases ok with
  | false => exact hn h hh
  | true =>
    have hh2 : h ∈ n.sockfd ++ [flow] := hh
    rw [List.mem_append] at hh2
    rcases hh2 with h1 | h1
    · exact hn h h1
    · simp only [List.mem_singleton] at h1
      subst h1
      exact hid

theorem node_exit_no_header (ok : Bool) (id : Nat) (hid : id ≠ 0)
    (n : conn_node) (hn : ∀ h ∈ n.sockfd, h.id ≠ id) :
    ∀ h ∈ (node_exit ok n).sockfd, h.id ≠ id := by
  intro h hh
  cases ok with
  | false => exact hn h hh
  | true =>
    have hh2 : h ∈ n.sockfd ++ [exit_connection_flow] := hh
    rw [List.mem_append] at hh2
    rcases hh2 with h1 | h1
    · exact hn h h1
    · simp only [List.mem_singleton] at h1
      subst h1
      exact fun hz => hid hz.symm

theorem run_request_unsent (p : Plan) (env : DispatchEnv) (i j : Nat) (s : State)
    (hp : p.req_total_num < 2 ^ 32) (hi : i < p.req_total_num) (hij : i ≠ j)
    (h : unsent s j) : unsent (run_request p env i s) j := by
  have hid : (run_request_flow p i).id ≠ j + 1 := by
    have h1 : (i + 1) % 2 ^ 32 = i + 1 := Nat.mod_eq_of_lt (by omega)
    show (i + 1) % 2 ^ 32 ≠ j + 1
    rw [h1]
    omega
  obtain ⟨hstop, hpools⟩ := h
  cases hsearch : search_conn_list (pool_at s (rd p.req_server_id i)) with
  | none =>
    cases hc : env.connect_ok with
    | false =>
      rw [run_request_dropped p env i s hsearch hc]
      exact ⟨hstop, hpools⟩
    | true =>
      rw [run_request_grown p env i s hsearch hc]
      refine ⟨hstop, pools_no_header_modifyAt _ _ _ _ hpools ?_⟩
      intro l _ hl
      exact pool_no_header_modify (PoolOp.apply .insert_conn l) _ _ _ _ rfl
        (node_send_no_header _ _ _ hid) (pool_no_header_insert l _ hl)
  | some k =>
    rw [run_request_found p env i s k hsearch]
    refine ⟨hstop, pools_no_header_modifyAt _ _ _ _ hpools ?_⟩
    intro l _ hl
    exact pool_no_header_modify l _ _ _ _ rfl (node_send_no_header _ _ _ hid) hl

theorem exit_connection_unsent (server node j : Nat) (env : DispatchEnv) (s : State)
    (h : unsent s j) : unsent (exit_connection server node env s) j := by
  obtain ⟨hstop, hpools⟩ := h
  rw [exec_exit_connection]
  refine ⟨hstop, pools_no_header_modifyAt _ _ _ _ hpools ?_⟩
  intro l _ hl
  exact pool_no_header_modify l _ _ _ _ rfl (node_exit_no_header _ _ (by omega)) hl

theorem listen_connection_unsent (server node j : Nat) (r : ReadResult) (now : timeval)
    (s : State) (n : conn_node) (hn : (pool_at s server).nodes[node]? = some n)
    (hposs : read_possible n.sockfd r = true) (h : unsent s j) :
    unsent (listen_connection server node r now s) j := by
  obtain ⟨hstop, hpools⟩ := h
  have hclose : unsent
      { connection_lists := modifyAt (pool_close node) server s.connection_lists
        req_start_time := s.req_start_time
        req_stop_time := s.req_stop_time } j := by
    refine ⟨hstop, pools_no_header_modifyAt _ _ _ _ hpools ?_⟩
    intro l _ hl
    refine pool_no_header_modify l _ (fun _ => node_closed) node _ rfl ?_ hl
    intro _ _ x hx
    cases hx
  cases r with
  | header_failed =>
    rw [listen_connection_failed server node _ now s (by intro f hf; cases hf)]
    exact hclose
  | short_payload flow =>
    rw [listen_connection_failed server node _ now s (by intro f hf; cases hf)]
    exact hclose
  | complete flow =>
    by_cases h0 : flow.id = 0
    · rw [listen_connection_sentinel server node flow now s h0]
      exact hclose
    · rw [listen_connection_response server node flow now s h0]
      have hh : n.sockfd.head? = some flow := by
        simpa [read_possible] using hposs
      have hflow : flow ∈ n.sockfd := List.mem_of_mem_head? hh
      have hid : flow.id ≠ j + 1 := by
        cases hget : s.connection_lists[server]? with
        | none =>
          have : pool_at s server = conn_list_zero := by
            unfold pool_at
            rw [List.getD_eq_getElem?_getD, hget]
            rfl
          rw [this] at hn
          cases hn
        | some l =>
          rw [pool_at_of_getElem? s _ l hget] at hn
          exact hpools l (List.getElem?_mem hget) n (List.getElem?_mem hn) flow hflow
      refine ⟨?_, pools_no_header_modifyAt _ _ _ _ hpools ?_⟩
      · show rd_time (s.req_stop_time.set (u32_dec flow.id) now) j = timeval_zero
        rw [rd_time_set_ne _ _ _ _ (by rw [u32_dec, if_neg h0]; omega)]
        exact hstop
      · intro l _ hl
        refine pool_no_header_modify l _ node_response node _ rfl ?_ hl
        intro x hx y hy
        exact hx y (List.mem_of_mem_tail hy)

theorem step_unsent (p : Plan) (a : Action) (sys sys1 : System) (j : Nat)
    (hp : p.req_total_num < 2 ^ 32) (hstep : step p a sys = some sys1)
    (hne : ∀ env, a = .main env → sys.pc ≠ .run_requests j)
    (h : unsent sys.st j) : unsent sys1.st j := by
  obtain ⟨pc, st⟩ := sys
  cases a with
  | main env =>
    have hpc := hne env rfl
    cases pc with
    | run_requests i =>
      have hij : i ≠ j := fun hh => hpc (by rw [hh])
      simp only [step, main_step] at hstep
      split at hstep
      · rename_i hi
        injection hstep with hstep
        subst hstep
        exact run_request_unsent p env i j st hp hi hij h
      · injection hstep with hstep
        subst hstep
        exact h
    | exit_connections i ptr =>
      simp only [step, main_step] at hstep
      split at hstep
      · split at hstep
        · injection hstep with hstep
          subst hstep
          exact h
        · split at hstep
          · injection hstep with hstep
            subst hstep
            exact exit_connection_unsent i ptr j env st h
          · injection hstep with hstep
            subst hstep
            exact h
      · injection hstep with hstep
        subst hstep
        exact h
    | wait_conn_list i =>
      simp only [step, main_step] at hstep
      split at hstep
      · injection hstep with hstep
        subst hstep
        exact h
      · cases hstep
    | finished =>
      simp only [step, main_step] at hstep
      cases hstep
  | recv server node r now =>
    simp only [step, recv_step] at hstep
    cases hn : (pool_at st server).nodes[node]? with
    | none => rw [hn] at hstep; cases hstep
    | some n =>
      rw [hn] at hstep
      simp only at hstep
      split at hstep
      · rename_i hcond
        injection hstep with hstep
        subst hstep
        simp only [Bool.and_eq_true, Bool.not_eq_true'] at hcond
        exact listen_connection_unsent server node j r now st n hn hcond.2 h
      · cases hstep

theorem main_step_pc (p : Plan) (env : DispatchEnv) (sys sys1 : System)
    (hstep : main_step p env sys = some sys1) :
    (∃ i, sys.pc = .run_requests i ∧ i < p.req_total_num ∧ sys1.pc = .run_requests (i + 1)) ∨
    (∀ k, sys1.pc ≠ .run_requests k) := by
  obtain ⟨pc, st⟩ := sys
  cases pc with
  | run_requests i =>
    simp only [main_step] at hstep
    split at hstep
    · rename_i hi
      injection hstep with hstep
      subst hstep
      exact Or.inl ⟨i, rfl, hi, rfl⟩
    · injection hstep with hstep
      subst hstep
      exact Or.inr (fun k hk => by cases hk)
  | exit_connections i ptr =>
    simp only [main_step] at hstep
    right
    split at hstep
    · split at hstep
      · injection hstep with hstep
        subst hstep
        exact fun k hk => by cases hk
      · split at hstep
        · injection hstep with hstep
          subst hstep
          exact fun k hk => by cases hk
        · injection hstep with hstep
          subst hstep
          exact fun k hk => by cases hk
    · injection hstep with hstep
      subst hstep
      exact fun k hk => by cases hk
  | wait_conn_list i =>
    simp only [main_step] at hstep
    right
    split at hstep
    · injection hstep with hstep
      subst hstep
      exact fun k hk => by cases hk
    · cases hstep
  | finished =>
    simp only [main_step] at hstep
    cases hstep

theorem recv_step_pc (server node : Nat) (r : ReadResult) (now : timeval) (sys sys1 : System)
    (hstep : recv_step server node r now sys = some sys1) : sys1.pc = sys.pc := by
  simp only [recv_step] at hstep
  split at hstep
  · cases hstep
  · split at hstep
    · injection hstep with hstep
      subst hstep
      rfl
    · cases hstep

theorem step_unsent_ahead (p : Plan) (a : Action) (sys sys1 : System)
    (hp : p.req_total_num < 2 ^ 32) (hstep : step p a sys = some sys1)
    (h : ∀ k, sys.pc = .run_requests k → ∀ j, k ≤ j → unsent sys.st j) :
    ∀ k, sys1.pc = .run_requests k → ∀ j, k ≤ j → unsent sys1.st j := by
  intro k hk j hkj
  cases a with
  | main env =>
    rcases main_step_pc p env sys sys1 hstep with ⟨i, hi, _, hi1⟩ | hnot
    · rw [hi1] at hk
      injection hk with hk
      subst hk
      refine step_unsent p _ sys sys1 j hp hstep ?_ (h i hi j (by omega))
      intro _ _ hpc
      rw [hi] at hpc
      injection hpc with hpc
      omega
    · exact absurd hk (hnot k)
  | recv server node r now =>
    have hpc := recv_step_pc server node r now sys sys1 hstep
    rw [hpc] at hk
    exact step_unsent p _ sys sys1 j hp hstep (fun _ hh => by cases hh) (h k hk j hkj)

theorem run_unsent_ahead (p : Plan) (actions : List Action) (sys sys1 : System)
    (hp : p.req_total_num < 2 ^ 32) (hrun : run p actions sys = some sys1)
    (h : ∀ k, sys.pc = .run_requests k → ∀ j, k ≤ j → unsent sys.st j) :
    ∀ k, sys1.pc = .run_requests k → ∀ j, k ≤ j → unsent sys1.st j := by
  induction actions generalizing sys with
  | nil =>
    simp only [run] at hrun
    injection hrun with hrun
    subst hrun
    exact h
  | cons a rest ih =>
    simp only [run] at hrun
    cases hstep : step p a sys with
    | none => rw [hstep] at hrun; cases hrun
    | some sys2 =>
      rw [hstep] at hrun
      exact ih sys2 hrun (step_unsent_ahead p a sys sys2 hp hstep h)

theorem past_request_of_not_run (pc : MainPc) (i : Nat) (h : ∀ k, pc ≠ .run_requests k) :
    past_request pc i := by
  cases pc with
  | run_requests k => exact absurd rfl (h k)
  | exit_connections j ptr => exact trivial
  | wait_conn_list j => exact trivial
  | finished => exact trivial

theorem step_unsent_past (p : Plan) (a : Action) (sys sys1 : System) (i : Nat)
    (hp : p.req_total_num < 2 ^ 32) (hstep : step p a sys = some sys1)
    (h : past_request sys.pc i ∧ unsent sys.st i) :
    past_request sys1.pc i ∧ unsent sys1.st i := by
  obtain ⟨hpast, hun⟩ := h
  have hne : ∀ env, a = .main env → sys.pc ≠ .run_requests i := by
    intro _ _ hpc
    rw [hpc] at hpast
    exact absurd hpast (Nat.lt_irrefl i)
  refine ⟨?_, step_unsent p a sys sys1 i hp hstep hne hun⟩
  cases a with
  | main env =>
    rcases main_step_pc p env sys sys1 hstep with ⟨k, hk, _, hk1⟩ | hnot
    · rw [hk] at hpast
      rw [hk1]
      have hlt : i < k := hpast
      show i < k + 1
      omega
    · exact past_request_of_not_run _ _ hnot
  | recv server node r now =>
    rw [recv_step_pc server node r now sys sys1 hstep]
    exact hpast

theorem run_unsent_past (p : Plan) (actions : List Action) (sys sys1 : System) (i : Nat)
    (hp : p.req_total_num < 2 ^ 32) (hrun : run p actions sys = some sys1)
    (h : past_request sys.pc i ∧ unsent sys.st i) :
    past_request sys1.pc i ∧ unsent sys1.st i := by
  induction actions generalizing sys with
  | nil =>
    simp only [run] at hrun
    injection hrun with hrun
    subst hrun
    exact h
  | cons a rest ih =>
    simp only [run] at hrun
    cases hstep : step p a sys with
    | none => rw [hstep] at hrun; cases hrun
    | some sys2 =>
      rw [hstep] at hrun
      exact ih sys2 hrun (step_unsent_past p a sys sys2 i hp hstep h)

theorem insert_conn_list_no_header (c : List Bool) (l : conn_list) (ident : Nat)
    (hl : pool_no_header l ident) : pool_no_header (insert_conn_list l c).1 ident := by
  unfold insert_conn_list
  simp only
  generalize c.filter id = succ
  induction succ generalizing l with
  | nil => exact hl
  | cons b rest ih =>
    rw [List.foldl_cons]
    exact ih _ (pool_no_header_insert l _ hl)

theorem main_init_unsent (connects : List (List Bool)) (n : Nat) (sys0 : System)
    (h0 : main_init connects n = some sys0) (j : Nat) : unsent sys0.st j := by
  unfold main_init at h0
  split at h0
  · injection h0 with h0
    subst h0
    constructor
    · show rd_time (List.replicate n timeval_zero) j = timeval_zero
      unfold rd_time
      rw [List.getD_eq_getElem?_getD]
      cases hget : (List.replicate n timeval_zero)[j]? with
      | none => rfl
      | some t =>
        have hmem : t ∈ List.replicate n timeval_zero := List.getElem?_mem hget
        rw [List.mem_replicate] at hmem
        simp [hmem.2]
    · intro l hl
      have hl2 : l ∈ connects.map (fun c => (insert_conn_list conn_list_zero c).1) := hl
      rw [List.mem_map] at hl2
      obtain ⟨c, _, hc⟩ := hl2
      subst hc
      refine insert_conn_list_no_header c conn_list_zero _ ?_
      intro x hx
      cases hx
  · cases h0

/-- C12. When `run_request(i)` finds no free node in the pool of its server
and the growth of that pool by one connection fails, it executes no statement
(no header written, no `available_len` decremented, no node set busy, no time
recorded) and returns the state unchanged. In a run in which this happens to
the plan entry `i`, `req_stop_time[i]` is still zero in every later state, so
`print_statistic` reports `i` on standard output as unfinished and writes the
FCT log from other entries only. -/
theorem C12_dropped_request (p : Plan) (connects : List (List Bool)) (pre post : List Action)
    (env : DispatchEnv) (sys0 sys1 sys : System) (i : Nat)
    (hp : p.req_total_num < 2 ^ 32)
    (h0 : main_init connects p.req_total_num = some sys0)
    (hpre : run p pre sys0 = some sys1) (hpc : sys1.pc = .run_requests i)
    (hi : i < p.req_total_num)
    (hsearch : search_conn_list (pool_at sys1.st (rd p.req_server_id i)) = none)
    (hconn : env.connect_ok = false)
    (hpost : run p (.main env :: post) sys1 = some sys) :
    (∀ (s : State) (e : DispatchEnv),
      search_conn_list (pool_at s (rd p.req_server_id i)) = none → e.connect_ok = false →
      run_request_ops p e i s = [] ∧ run_request p e i s = s) ∧
    step p (.main env) sys1 = some { pc := .run_requests (i + 1), st := sys1.st } ∧
    rd_time sys.st.req_stop_time i = timeval_zero ∧
    i ∈ (print_statistic p sys.st.req_start_time sys.st.req_stop_time).stdout ∧
    (print_statistic p sys.st.req_start_time sys.st.req_stop_time).fd =
      ((List.range p.req_total_num).filter
        (fun j => !stop_is_zero (rd_time sys.st.req_stop_time j))).map
        (fct_line p sys.st.req_start_time sys.st.req_stop_time) ∧
    i ∉ (List.range p.req_total_num).filter
      (fun j => !stop_is_zero (rd_time sys.st.req_stop_time j)) := by
  have hframe : ∀ (s : State) (e : DispatchEnv),
      search_conn_list (pool_at s (rd p.req_server_id i)) = none → e.connect_ok = false →
      run_request_ops p e i s = [] ∧ run_request p e i s = s := by
    intro s e hs hc
    refine ⟨?_, run_request_dropped p e i s hs hc⟩
    simp only [run_request_ops, hs, hc]
    rfl
  have hstep : step p (.main env) sys1 = some { pc := .run_requests (i + 1), st := sys1.st } := by
    obtain ⟨pc1, st1⟩ := sys1
    simp only at hpc
    subst hpc
    simp only [step, main_step, if_pos hi]
    rw [(hframe st1 env hsearch hconn).2]
  have hbefore : unsent sys1.st i :=
    run_unsent_ahead p pre sys0 sys1 hp hpre
      (fun _ _ j _ => main_init_unsent connects _ sys0 h0 j) i hpc i (Nat.le_refl i)
  have hafter : unsent sys.st i := by
    simp only [run] at hpost
    rw [hstep] at hpost
    exact (run_unsent_past p post _ sys i hp hpost ⟨Nat.lt_succ_self i, hbefore⟩).2
  have hzero : stop_is_zero (rd_time sys.st.req_stop_time i) = true := by
    rw [hafter.1]
    rfl
  obtain ⟨hfd, hout⟩ := print_statistic_foldl p sys.st.req_start_time sys.st.req_stop_time
    (List.range p.req_total_num) { req_size_total := 0, fd := [], stdout := [] }
  refine ⟨hframe, hstep, hafter.1, ?_, ?_, ?_⟩
  · rw [print_statistic, hout]
    simp only [List.nil_append, List.mem_filter, List.mem_range]
    exact ⟨hi, hzero⟩
  · rw [print_statistic, hfd]
    rfl
  · simp only [List.mem_filter, List.mem_range, hzero, Bool.not_true, Bool.false_eq_true,
      and_false, not_false_eq_true]

/-- C12 on the run of `plan_two` in which request `0` keeps the only node
busy and the connect for request `1` fails. -/
theorem C12_dropped_request_witness :
    main_init [[true]] plan_two.req_total_num = some sys_two ∧
    run plan_two [.main (env_ok 1)] sys_two = some sys_two_busy ∧
    search_conn_list (pool_at sys_two_busy.st (rd plan_two.req_server_id 1)) = none ∧
    run plan_two (.main (env_no_connect 2) :: actions_after_drop) sys_two_busy =
      some sys_two_dropped ∧
    rd_time sys_two_dropped.st.req_stop_time 1 = timeval_zero ∧
    1 ∈ (print_statistic plan_two sys_two_dropped.st.req_start_time
      sys_two_dropped.st.req_stop_time).stdout :=
  ⟨by decide, by decide, by decide, by decide,
    (C12_dropped_request plan_two [[true]] [.main (env_ok 1)] actions_after_drop
      (env_no_connect 2) sys_two sys_two_busy sys_two_dropped 1 (by decide) (by decide)
      (by decide) rfl (by decide) (by decide) rfl (by decide)).2.2.1,
    (C12_dropped_request plan_two [[true]] [.main (env_ok 1)] actions_after_drop
      (env_no_connect 2) sys_two sys_two_busy sys_two_dropped 1 (by decide) (by decide)
      (by decide) rfl (by decide) (by decide) rfl (by decide)).2.2.2.1⟩

/-- The accumulator of `run_requests` wraps around when a carried value and a
gap reach `2 ^ 32`: with overhead `100` the gaps `100` and `2 ^ 32 - 50` leave
`50` in the accumulator and no `usleep` call is made. -/
theorem run_requests_wraps :
    run_requests plan_huge_gap 100 =
      { sleep_us := 50, calls := [ .run_request 0, .run_request 1 ] } := by
  decide

theorem recv_pending_cons (e : (Nat × Nat) × List Op) (rest : List ((Nat × Nat) × List Op))
    (j k : Nat) :
    recv_pending (e :: rest) j k =
      if e.1.1 = j ∧ e.1.2 = k then e.2 else recv_pending rest j k := rfl

theorem recv_pending_filter (recv : List ((Nat × Nat) × List Op)) (a b j k : Nat) :
    recv_pending (recv.filter (fun e => !(decide (e.1.1 = a ∧ e.1.2 = b)))) j k =
      if j = a ∧ k = b then [] else recv_pending recv j k := by
  induction recv with
  | nil => simp [recv_pending]
  | cons e rest ih =>
    by_cases he : e.1.1 = a ∧ e.1.2 = b
    · rw [List.filter_cons_of_neg (by simp [he]), ih, recv_pending_cons]
      by_cases hjk : j = a ∧ k = b
      · rw [if_pos hjk, if_pos hjk]
      · rw [if_neg hjk, if_neg hjk, if_neg]
        rintro ⟨h1, h2⟩
        exact hjk ⟨by omega, by omega⟩
    · rw [List.filter_cons_of_pos (by simp [he]), recv_pending_cons, recv_pending_cons, ih]
      by_cases hjk : j = a ∧ k = b
      · have hne : ¬ (e.1.1 = j ∧ e.1.2 = k) := by
          rintro ⟨h1, h2⟩
          exact he ⟨by omega, by omega⟩
        rw [if_pos hjk, if_neg hne, if_pos hjk]
      · rw [if_neg hjk, if_neg hjk]

theorem recv_pending_set (recv : List ((Nat × Nat) × List Op)) (a b : Nat) (q : List Op)
    (j k : Nat) :
    recv_pending (set_pending recv a b q) j k =
      if j = a ∧ k = b then q else recv_pending recv j k := by
  cases q with
  | nil => exact recv_pending_filter recv a b j k
  | cons o rest =>
    unfold set_pending
    rw [recv_pending_cons, recv_pending_filter]
    by_cases hjk : j = a ∧ k = b
    · obtain ⟨h1, h2⟩ := hjk
      subst h1 h2
      simp
    · have hne : ¬ (a = j ∧ b = k) := by
        rintro ⟨h1, h2⟩
        exact hjk ⟨h1.symm, h2.symm⟩
      simp only [if_neg hjk, if_neg hne]

theorem countP_range_update (f g : Nat → Bool) (n b : Nat) (hb : b < n)
    (h : ∀ k, k ≠ b → g k = f k) :
    (List.range n).countP g + (if f b then 1 else 0) =
      (List.range n).countP f + (if g b then 1 else 0) := by
  induction n with
  | zero => omega
  | succ n ih =>
    rw [List.range_succ, List.countP_append, List.countP_append]
    simp only [List.countP_cons, List.countP_nil, Nat.zero_add]
    by_cases hbn : b = n
    · subst hbn
      have hc : (List.range b).countP g = (List.range b).countP f := by
        apply List.countP_congr
        intro k hk
        rw [h k (by have := List.mem_range.mp hk; omega)]
      rw [hc]
      omega
    · have := ih (by omega)
      rw [h n (fun hh => hbn hh.symm)]
      omega

theorem countP_range_congr (f g : Nat → Bool) (n : Nat) (h : ∀ k, k < n → g k = f k) :
    (List.range n).countP g = (List.range n).countP f := by
  apply List.countP_congr
  intro k hk
  rw [h k (List.mem_range.mp hk)]

theorem length_modifyAt {α : Type} (f : α → α) (k : Nat) (l : List α) :
    (modifyAt f k l).length = l.length := by
  induction l generalizing k with
  | nil => cases k <;> rfl
  | cons a l ih =>
    cases k with
    | zero => rfl
    | succ k => simp [modifyAt, ih]

theorem modifyAt_none {α : Type} (f : α → α) (k : Nat) (l : List α) (h : l[k]? = none) :
    modifyAt f k l = l := by
  induction l generalizing k with
  | nil => cases k <;> rfl
  | cons a l ih =>
    cases k with
    | zero => simp at h
    | succ k =>
      simp only [modifyAt]
      rw [ih k (by simpa using h)]

theorem receivers_in_flight_update (recv recv1 : List ((Nat × Nat) × List Op)) (a b len : Nat)
    (q1 : List Op) (hb : b < len)
    (hrecv : ∀ k, recv_pending recv1 a k = if k = b then q1 else recv_pending recv a k) :
    receivers_in_flight recv1 a len + (if inc_in_flight (recv_pending recv a b) then 1 else 0) =
      receivers_in_flight recv a len + (if inc_in_flight q1 then 1 else 0) := by
  unfold receivers_in_flight
  have h := countP_range_update (fun k => inc_in_flight (recv_pending recv a k))
    (fun k => inc_in_flight (recv_pending recv1 a k)) len b hb
    (fun k hk => by simp only [hrecv k, if_neg hk])
  simp only [hrecv b, if_true] at h
  exact h

theorem receivers_in_flight_same (recv recv1 : List ((Nat × Nat) × List Op)) (j len : Nat)
    (hrecv : ∀ k, recv_pending recv1 j k = recv_pending recv j k) :
    receivers_in_flight recv1 j len = receivers_in_flight recv j len := by
  unfold receivers_in_flight
  exact countP_range_congr _ _ _ (fun k _ => by simp only [hrecv k])

theorem pool_inv_same (recv recv1 : List ((Nat × Nat) × List Op)) (J K c J1 K1 c1 j : Nat)
    (l : conn_list) (hl : pool_inv recv J K c j l)
    (hrecv : ∀ k, recv_pending recv1 j k = recv_pending recv j k)
    (hclaim : ∀ k, claim_of J1 K1 c1 j k = claim_of J K c j k)
    (hdec : dec_at J1 c1 j = dec_at J c j) : pool_inv recv1 J1 K1 c1 j l := by
  obtain ⟨h1, h2, h3, h4⟩ := hl
  refine ⟨h1, ?_, ?_, ?_⟩
  · rw [receivers_in_flight_same recv recv1 j _ hrecv, hdec]
    exact h2
  · intro k hk
    rw [hrecv]
    exact h3 k hk
  · intro k n hn
    rw [hrecv, hclaim]
    exact h4 k n hn

theorem pool_inv_update (recv recv1 : List ((Nat × Nat) × List Op)) (J K c c1 a b : Nat)
    (l l1 : conn_list) (n : conn_node) (f : conn_node → conn_node) (q1 : List Op)
    (hl : pool_inv recv J K c a l) (hn : l.nodes[b]? = some n)
    (hnodes : l1.nodes = modifyAt f b l.nodes)
    (hlt : l1.available_len < 2 ^ 32)
    (hrecv : ∀ k, recv_pending recv1 a k = if k = b then q1 else recv_pending recv a k)
    (hclaim : ∀ k, k ≠ b → claim_of J K c1 a k = claim_of J K c a k)
    (hnode : recv_inv a b (f n) q1 (claim_of J K c1 a b))
    (hbal : (l1.available_len + (if inc_in_flight q1 then 1 else 0) +
          (if (n.connected && !n.busy) then 1 else 0) + dec_at J c a) % 2 ^ 32 =
        (l.available_len + (if inc_in_flight (recv_pending recv a b) then 1 else 0) +
          (if ((f n).connected && !(f n).busy) then 1 else 0) + dec_at J c1 a) % 2 ^ 32) :
    pool_inv recv1 J K c1 a l1 := by
  obtain ⟨h1, h2, h3, h4⟩ := hl
  have hb : b < l.nodes.length := by
    by_contra hcon
    rw [List.getElem?_eq_none (by omega)] at hn
    cases hn
  have hlen : l1.nodes.length = l.nodes.length := by rw [hnodes, length_modifyAt]
  refine ⟨hlt, ?_, ?_, ?_⟩
  · have hr := receivers_in_flight_update recv recv1 a b l.nodes.length q1 hb hrecv
    have hf := countP_modifyAt (fun n => n.connected && !n.busy) f b l.nodes n hn
    unfold free_count at h2 ⊢
    rw [hlen, hnodes]
    generalize receivers_in_flight recv1 a l.nodes.length = r1 at hr ⊢
    generalize receivers_in_flight recv a l.nodes.length = r at hr h2
    generalize (modifyAt f b l.nodes).countP (fun n => n.connected && !n.busy) = fc1 at hf ⊢
    generalize l.nodes.countP (fun n => n.connected && !n.busy) = fc at hf h2
    generalize (if inc_in_flight q1 then 1 else 0) = i1 at hr hbal
    generalize (if inc_in_flight (recv_pending recv a b) then 1 else 0) = i0 at hr hbal
    generalize (if (n.connected && !n.busy) = true then 1 else 0) = f0 at hf hbal
    generalize (if ((f n).connected && !(f n).busy) = true then 1 else 0) = f1 at hf hbal
    omega
  · intro k hk
    rw [hrecv, if_neg (by omega)]
    exact h3 k (by omega)
  · intro k n1 hn1
    rw [hnodes] at hn1
    rcases getElem?_modifyAt_cases f b k l.nodes n1 hn1 with ⟨hk, a1, ha1, hx⟩ | ⟨hk, hold⟩
    · subst hk
      rw [hn] at ha1
      injection ha1 with ha1
      subst ha1
      rw [hx, hrecv, if_pos rfl]
      exact hnode
    · rw [hrecv, if_neg hk, hclaim k hk]
      exact h4 k n1 hold

theorem pools_update (lists lists1 : List conn_list) (recv recv1 : List ((Nat × Nat) × List Op))
    (J K c c1 a b : Nat) (F : conn_list → conn_list) (f : conn_node → conn_node)
    (q1 : List Op) (l : conn_list) (n : conn_node)
    (hinv : ∀ j l, lists[j]? = some l → pool_inv recv J K c j l)
    (hlists : ∀ j, lists1[j]? = if j = a then (lists[j]?).map F else lists[j]?)
    (hl : lists[a]? = some l) (hn : l.nodes[b]? = some n)
    (hF : (F l).nodes = modifyAt f b l.nodes)
    (hlt : (F l).available_len < 2 ^ 32)
    (hrecv : ∀ j k, recv_pending recv1 j k =
      if j = a ∧ k = b then q1 else recv_pending recv j k)
    (hclaim : ∀ j k, ¬ (j = a ∧ k = b) → claim_of J K c1 j k = claim_of J K c j k)
    (hdec : ∀ j, j ≠ a → dec_at J c1 j = dec_at J c j)
    (hnode : recv_inv a b (f n) q1 (claim_of J K c1 a b))
    (hbal : ((F l).available_len + (if inc_in_flight q1 then 1 else 0) +
          (if (n.connected && !n.busy) then 1 else 0) + dec_at J c a) % 2 ^ 32 =
        (l.available_len + (if inc_in_flight (recv_pending recv a b) then 1 else 0) +
          (if ((f n).connected && !(f n).busy) then 1 else 0) + dec_at J c1 a) % 2 ^ 32) :
    ∀ j l1, lists1[j]? = some l1 → pool_inv recv1 J K c1 j l1 := by
  intro j l1 hl1
  rw [hlists] at hl1
  by_cases hj : j = a
  · subst hj
    rw [if_pos rfl, hl] at hl1
    simp only [Option.map_some'] at hl1
    injection hl1 with hl1
    subst hl1
    refine pool_inv_update recv recv1 J K c c1 j b l (F l) n f q1 (hinv j l hl) hn hF hlt ?_ ?_
      hnode hbal
    · intro k
      rw [hrecv]
      by_cases hk : k = b
      · rw [if_pos ⟨rfl, hk⟩, if_pos hk]
      · rw [if_neg (fun h => hk h.2), if_neg hk]
    · intro k hk
      exact hclaim j k (fun h => hk h.2)
  · rw [if_neg hj] at hl1
    refine pool_inv_same recv recv1 J K c J K c1 j l1 (hinv j l1 hl1) ?_ ?_ (hdec j hj)
    · intro k
      rw [hrecv, if_neg (fun h => hj h.1)]
    · intro k
      exact hclaim j k (fun h => hj h.1)

theorem lists_update_length (lists lists1 : List conn_list) (a : Nat) (F : conn_list → conn_list)
    (hlists : ∀ j, lists1[j]? = if j = a then (lists[j]?).map F else lists[j]?)
    (hF : ∀ l, lists[a]? = some l → (F l).nodes.length = l.nodes.length)
    (j : Nat) (l1 : conn_list) (hl1 : lists1[j]? = some l1) :
    ∃ l, lists[j]? = some l ∧ l1.nodes.length = l.nodes.length := by
  rw [hlists] at hl1
  by_cases hj : j = a
  · subst hj
    rw [if_pos rfl] at hl1
    cases hget : lists[j]? with
    | none => rw [hget] at hl1; cases hl1
    | some l =>
      rw [hget] at hl1
      simp only [Option.map_some'] at hl1
      injection hl1 with hl1
      subst hl1
      exact ⟨l, rfl, hF l hget⟩
  · rw [if_neg hj] at hl1
    exact ⟨l1, hl1, rfl⟩

theorem threads_update_inv (t t1 : Threads) (J K req : Nat) (flow : flow_metadata)
    (env : DispatchEnv) (c c1 a b : Nat) (F : conn_list → conn_list)
    (f : conn_node → conn_node) (q1 : List Op) (l : conn_list) (n : conn_node)
    (hc1 : c1 ≤ 8) (hid : flow.id ≠ 0)
    (hm1 : t1.main = (dispatch_ops J K req flow env).drop c1)
    (hex : ∀ l, t.st.connection_lists[J]? = some l →
      (c1 = 0 → l.nodes.length = K) ∧ (1 ≤ c1 → c1 ≤ 7 → K < l.nodes.length))
    (hnone : ∀ j, t.st.connection_lists[j]? = none → ∀ k, recv_pending t.recv j k = [])
    (hinv : ∀ j l, t.st.connection_lists[j]? = some l → pool_inv t.recv J K c j l)
    (hlists : ∀ j, t1.st.connection_lists[j]? =
      if j = a then (t.st.connection_lists[j]?).map F else t.st.connection_lists[j]?)
    (hrecv : ∀ j k, recv_pending t1.recv j k =
      if j = a ∧ k = b then q1 else recv_pending t.recv j k)
    (hl : t.st.connection_lists[a]? = some l) (hn : l.nodes[b]? = some n)
    (hF : (F l).nodes = modifyAt f b l.nodes)
    (hlt : (F l).available_len < 2 ^ 32)
    (hclaim : ∀ j k, ¬ (j = a ∧ k = b) → claim_of J K c1 j k = claim_of J K c j k)
    (hdec : ∀ j, j ≠ a → dec_at J c1 j = dec_at J c j)
    (hnode : recv_inv a b (f n) q1 (claim_of J K c1 a b))
    (hbal : ((F l).available_len + (if inc_in_flight q1 then 1 else 0) +
          (if (n.connected && !n.busy) then 1 else 0) + dec_at J c a) % 2 ^ 32 =
        (l.available_len + (if inc_in_flight (recv_pending t.recv a b) then 1 else 0) +
          (if ((f n).connected && !(f n).busy) then 1 else 0) + dec_at J c1 a) % 2 ^ 32) :
    threads_inv t1 := by
  refine ⟨J, K, req, flow, env, c1, hc1, hid, hm1, ?_, ?_, ?_⟩
  · intro l1 hl1
    obtain ⟨l0, hl0, hlen⟩ := lists_update_length _ _ a F hlists
      (fun l2 hl2 => by
        rw [hl] at hl2
        injection hl2 with hl2
        subst hl2
        rw [hF, length_modifyAt]) J l1 hl1
    rw [hlen]
    exact hex l0 hl0
  · intro j hj k
    rw [hlists] at hj
    have hj0 : t.st.connection_lists[j]? = none := by
      by_cases hja : j = a
      · rw [if_pos hja] at hj
        cases hget : t.st.connection_lists[j]? with
        | none => rfl
        | some l0 => rw [hget] at hj; cases hj
      · rw [if_neg hja] at hj
        exact hj
    have hja : j ≠ a := by
      intro hh
      rw [hh, hl] at hj0
      cases hj0
    rw [hrecv, if_neg (fun hh => hja hh.1)]
    exact hnone j hj0 k
  · exact pools_update _ _ _ _ J K c c1 a b F f q1 l n hinv hlists hl hn hF hlt hrecv hclaim hdec
      hnode hbal

theorem threads_ghost_inv (t t1 : Threads) (J K c J1 K1 req1 : Nat) (flow1 : flow_metadata)
    (env1 : DispatchEnv) (c1 : Nat)
    (hc1 : c1 ≤ 8) (hid1 : flow1.id ≠ 0)
    (hm1 : t1.main = (dispatch_ops J1 K1 req1 flow1 env1).drop c1)
    (hlists : ∀ j : Nat, t1.st.connection_lists[j]? = t.st.connection_lists[j]?)
    (hrecv : t1.recv = t.recv)
    (hex : ∀ l, t.st.connection_lists[J1]? = some l →
      (c1 = 0 → l.nodes.length = K1) ∧ (1 ≤ c1 → c1 ≤ 7 → K1 < l.nodes.length))
    (hnone : ∀ j, t.st.connection_lists[j]? = none → ∀ k, recv_pending t.recv j k = [])
    (hinv : ∀ j l, t.st.connection_lists[j]? = some l → pool_inv t.recv J K c j l)
    (hsame : ∀ j l, t.st.connection_lists[j]? = some l →
      (∀ k, claim_of J1 K1 c1 j k = claim_of J K c j k) ∧ dec_at J1 c1 j = dec_at J c j) :
    threads_inv t1 := by
  refine ⟨J1, K1, req1, flow1, env1, c1, hc1, hid1, hm1, ?_, ?_, ?_⟩
  · intro l hl
    rw [hlists] at hl
    exact hex l hl
  · intro j hj k
    rw [hlists] at hj
    rw [hrecv]
    exact hnone j hj k
  · intro j l hl
    rw [hlists] at hl
    rw [hrecv]
    exact pool_inv_same _ _ J K c J1 K1 c1 j l (hinv j l hl) (fun _ => rfl)
      (hsame j l hl).1 (hsame j l hl).2

theorem pending_node (t : Threads) (J K c a b : Nat) (o : Op) (rest : List Op)
    (hnone : ∀ j, t.st.connection_lists[j]? = none → ∀ k, recv_pending t.recv j k = [])
    (hinv : ∀ j l, t.st.connection_lists[j]? = some l → pool_inv t.recv J K c j l)
    (hq : recv_pending t.recv a b = o :: rest) :
    ∃ l n, t.st.connection_lists[a]? = some l ∧ l.nodes[b]? = some n := by
  cases hl : t.st.connection_lists[a]? with
  | none =>
    rw [hnone a hl b] at hq
    cases hq
  | some l =>
    cases hn : l.nodes[b]? with
    | none =>
      have hlen : l.nodes.length ≤ b := by
        by_contra hcon
        rw [List.getElem?_eq_getElem (by omega)] at hn
        cases hn
      rw [(hinv a l hl).2.2.1 b hlen] at hq
      cases hq
    | some n => exact ⟨l, n, rfl, hn⟩

theorem recv_inv_open (j k : Nat) (n : conn_node) (q : List Op) (c : Claim)
    (flow : flow_metadata) (now : timeval) (d : Nat) (hid : flow.id ≠ 0) (hd : 2 ≤ d)
    (hd7 : d ≤ 7) (hq : q = (response_ops j k flow now).drop d) (hex : n.exited = false)
    (hconn : n.connected = true) (hopen : open_ok n c) : recv_inv j k n q c :=
  Or.inr (Or.inl ⟨flow, now, d, hid, hd7, hq, hex, hconn, fun h => by omega, fun h => by omega,
    fun _ => hopen⟩)

theorem recv_update_inv (t t1 : Threads) (J K req : Nat) (flow : flow_metadata)
    (env : DispatchEnv) (c a b : Nat) (F : conn_list → conn_list)
    (f : conn_node → conn_node) (q1 : List Op) (l : conn_list) (n : conn_node)
    (hc : c ≤ 8) (hid : flow.id ≠ 0)
    (hm : t.main = (dispatch_ops J K req flow env).drop c)
    (hex : ∀ l, t.st.connection_lists[J]? = some l →
      (c = 0 → l.nodes.length = K) ∧ (1 ≤ c → c ≤ 7 → K < l.nodes.length))
    (hnone : ∀ j, t.st.connection_lists[j]? = none → ∀ k, recv_pending t.recv j k = [])
    (hinv : ∀ j l, t.st.connection_lists[j]? = some l → pool_inv t.recv J K c j l)
    (hmain : t1.main = t.main)
    (hlists : ∀ j, t1.st.connection_lists[j]? =
      if j = a then (t.st.connection_lists[j]?).map F else t.st.connection_lists[j]?)
    (hrecv : t1.recv = set_pending t.recv a b q1)
    (hl : t.st.connection_lists[a]? = some l) (hn : l.nodes[b]? = some n)
    (hF : (F l).nodes = modifyAt f b l.nodes)
    (hlt : (F l).available_len < 2 ^ 32)
    (hnode : recv_inv a b (f n) q1 (claim_of J K c a b))
    (hbal : ((F l).available_len + (if inc_in_flight q1 then 1 else 0) +
          (if (n.connected && !n.busy) then 1 else 0)) % 2 ^ 32 =
        (l.available_len + (if inc_in_flight (recv_pending t.recv a b) then 1 else 0) +
          (if ((f n).connected && !(f n).busy) then 1 else 0)) % 2 ^ 32) :
    threads_inv t1 := by
  refine threads_update_inv t t1 J K req flow env c c a b F f q1 l n hc hid (hmain.trans hm) hex
    hnone hinv hlists ?_ hl hn hF hlt (fun _ _ _ => rfl) (fun _ _ => rfl) hnode ?_
  · intro j k
    rw [hrecv, recv_pending_set]
  · generalize dec_at J c a = D
    omega

theorem lists_same (lists : List conn_list) (a : Nat) (j : Nat) :
    lists[j]? = if j = a then (lists[j]?).map (fun l => l) else lists[j]? := by
  split
  · cases lists[j]? <;> rfl
  · rfl

theorem recv_stmt_inv (p : Plan) (t t1 : Threads) (a b : Nat)
    (hstep : thread_step p (.recv_stmt a b) t = some t1) (h : threads_inv t) :
    threads_inv t1 := by
  obtain ⟨J, K, req, flow0, env, c, hc, hid0, hm, hex, hnone, hinv⟩ := h
  cases hq : recv_pending t.recv a b with
  | nil =>
    simp only [thread_step, hq] at hstep
    cases hstep
  | cons o rest =>
    obtain ⟨l, n, hl, hn⟩ := pending_node t J K c a b o rest hnone hinv hq
    have hpool := hinv a l hl
    have hav := hpool.1
    have hid_nodes : l.nodes = modifyAt (fun n => n) b l.nodes :=
      (modifyAt_same _ (fun _ => rfl) _ _).symm
    rcases hpool.2.2.2 b n hn with ⟨hq0, _⟩ |
      ⟨flow, now, d, hid, hd7, hqd, hexit, hconn, h0, h1, h2⟩ |
      ⟨d, hd3, hqd, hexit, hcl, h01, h23⟩
    · rw [hq0] at hq
      cases hq
    · interval_cases d
      · -- `read_response`
        obtain ⟨hbusy, hsock, hfree⟩ := h0 rfl
        have hq2 : recv_pending t.recv a b =
            Op.pool a (.read_response b) :: (response_ops a b flow now).drop 1 := hqd
        simp only [thread_step, hq2] at hstep
        injection hstep with hstep
        subst hstep
        refine recv_update_inv t _ J K req flow0 env c a b (PoolOp.apply (.read_response b))
          (fun n => { n with sockfd := n.sockfd.tail }) ((response_ops a b flow now).drop 1)
          l n hc hid0 hm hex hnone hinv rfl (fun j => getElem?_modifyAt _ _ _ _) rfl hl hn rfl
          hav ?_ ?_
        · rw [hfree]
          exact Or.inr (Or.inl ⟨flow, now, 1, hid, by omega, rfl, hexit, hconn,
            fun hh => by omega, fun _ => ⟨hbusy, by simp [hsock], rfl⟩, fun hh => by omega⟩)
        · rw [hq2]
          simp [inc_in_flight, response_ops, hbusy, PoolOp.apply]
      · -- `node->busy = false`
        obtain ⟨hbusy, hsock, hfree⟩ := h1 rfl
        have hq2 : recv_pending t.recv a b =
            Op.pool a (.set_busy b false) :: (response_ops a b flow now).drop 2 := hqd
        simp only [thread_step, hq2] at hstep
        injection hstep with hstep
        subst hstep
        refine recv_update_inv t _ J K req flow0 env c a b (PoolOp.apply (.set_busy b false))
          (fun n => { n with busy := false }) ((response_ops a b flow now).drop 2)
          l n hc hid0 hm hex hnone hinv rfl (fun j => getElem?_modifyAt _ _ _ _) rfl hl hn rfl
          hav ?_ ?_
        · rw [hfree]
          exact recv_inv_open a b _ _ _ flow now 2 hid (by omega) (by omega) rfl hexit hconn
            (Or.inl hsock)
        · rw [hq2]
          simp [inc_in_flight, response_ops, hbusy, hconn, PoolOp.apply]
      · -- `lock`
        have hopen := h2 (by omega)
        have hq2 : recv_pending t.recv a b =
            Op.pool a .lock :: (response_ops a b flow now).drop 3 := hqd
        simp only [thread_step, hq2] at hstep
        injection hstep with hstep
        subst hstep
        refine recv_update_inv t _ J K req flow0 env c a b (PoolOp.apply .lock)
          (fun n => n) ((response_ops a b flow now).drop 3)
          l n hc hid0 hm hex hnone hinv rfl (fun j => getElem?_modifyAt _ _ _ _) rfl hl hn
          hid_nodes hav ?_ ?_
        · exact recv_inv_open a b _ _ _ flow now 3 hid (by omega) (by omega) rfl hexit hconn
            hopen
        · rw [hq2]
          simp [inc_in_flight, response_ops, PoolOp.apply]
      · -- `flow_finished++`
        have hopen := h2 (by omega)
        have hq2 : recv_pending t.recv a b =
            Op.pool a .flow_finished_inc :: (response_ops a b flow now).drop 4 := hqd
        simp only [thread_step, hq2] at hstep
        injection hstep with hstep
        subst hstep
        refine recv_update_inv t _ J K req flow0 env c a b (PoolOp.apply .flow_finished_inc)
          (fun n => n) ((response_ops a b flow now).drop 4)
          l n hc hid0 hm hex hnone hinv rfl (fun j => getElem?_modifyAt _ _ _ _) rfl hl hn
          hid_nodes hav ?_ ?_
        · exact recv_inv_open a b _ _ _ flow now 4 hid (by omega) (by omega) rfl hexit hconn
            hopen
        · rw [hq2]
          simp [inc_in_flight, response_ops, PoolOp.apply]
      · -- `available_len++`
        have hopen := h2 (by omega)
        have hq2 : recv_pending t.recv a b =
            Op.pool a .available_len_inc :: (response_ops a b flow now).drop 5 := hqd
        simp only [thread_step, hq2] at hstep
        injection hstep with hstep
        subst hstep
        refine recv_update_inv t _ J K req flow0 env c a b (PoolOp.apply .available_len_inc)
          (fun n => n) ((response_ops a b flow now).drop 5)
          l n hc hid0 hm hex hnone hinv rfl (fun j => getElem?_modifyAt _ _ _ _) rfl hl hn
          hid_nodes (u32_inc_lt _ hav) ?_ ?_
        · exact recv_inv_open a b _ _ _ flow now 5 hid (by omega) (by omega) rfl hexit hconn
            hopen
        · rw [hq2]
          have hinc := u32_inc_eq_mod l.available_len hav
          simp only [inc_in_flight, response_ops, PoolOp.apply, List.drop_succ_cons,
            List.drop_zero, List.any_cons, List.any_nil, Bool.or_false, Bool.or_true,
            Bool.true_or, Bool.false_or, Bool.not_true, Bool.not_false, Bool.and_true,
            Bool.and_false, Bool.true_and, Bool.false_and, if_true, if_false,
            Bool.false_eq_true]
          rw [hinc]
          generalize (if (n.connected && !n.busy) = true then 1 else 0) = fn
          omega
      · -- `unlock`
        have hopen := h2 (by omega)
        have hq2 : recv_pending t.recv a b =
            Op.pool a .unlock :: (response_ops a b flow now).drop 6 := hqd
        simp only [thread_step, hq2] at hstep
        injection hstep with hstep
        subst hstep
        refine recv_update_inv t _ J K req flow0 env c a b (PoolOp.apply .unlock)
          (fun n => n) ((response_ops a b flow now).drop 6)
          l n hc hid0 hm hex hnone hinv rfl (fun j => getElem?_modifyAt _ _ _ _) rfl hl hn
          hid_nodes hav ?_ ?_
        · exact recv_inv_open a b _ _ _ flow now 6 hid (by omega) (by omega) rfl hexit hconn
            hopen
        · rw [hq2]
          simp [inc_in_flight, response_ops, PoolOp.apply]
      · -- `gettimeofday(&req_stop_time[flow.id - 1])`
        have hopen := h2 (by omega)
        have hq2 : recv_pending t.recv a b =
            Op.gettimeofday_stop (u32_dec flow.id) now :: (response_ops a b flow now).drop 7 :=
          hqd
        simp only [thread_step, hq2] at hstep
        injection hstep with hstep
        subst hstep
        refine recv_update_inv t _ J K req flow0 env c a b (fun l => l)
          (fun n => n) ((response_ops a b flow now).drop 7)
          l n hc hid0 hm hex hnone hinv rfl (fun j => lists_same _ a j) rfl hl hn
          hid_nodes hav ?_ ?_
        · exact recv_inv_open a b _ _ _ flow now 7 hid (by omega) (by omega) rfl hexit hconn
            hopen
        · rw [hq2]
          simp [inc_in_flight, response_ops]
      · rw [hq] at hqd
        simp [response_ops] at hqd
    · interval_cases d
      · -- `close`
        obtain ⟨hconn, hbusy⟩ := h01 (by omega)
        have hq2 : recv_pending t.recv a b =
            Op.pool a (.close b) :: (listen_connection_exit a b).drop 1 := hqd
        simp only [thread_step, hq2] at hstep
        injection hstep with hstep
        subst hstep
        refine recv_update_inv t _ J K req flow0 env c a b (PoolOp.apply (.close b))
          (fun n => { n with sockfd := [] }) ((listen_connection_exit a b).drop 1)
          l n hc hid0 hm hex hnone hinv rfl (fun j => getElem?_modifyAt _ _ _ _) rfl hl hn rfl
          hav ?_ ?_
        · exact Or.inr (Or.inr ⟨1, by omega, rfl, hexit, hcl, fun _ => ⟨hconn, hbusy⟩,
            fun hh => by omega⟩)
        · rw [hq2]
          simp [inc_in_flight, listen_connection_exit, hbusy, PoolOp.apply]
      · -- `node->connected = false`
        obtain ⟨hconn, hbusy⟩ := h01 (by omega)
        have hq2 : recv_pending t.recv a b =
            Op.pool a (.set_connected b false) :: (listen_connection_exit a b).drop 2 := hqd
        simp only [thread_step, hq2] at hstep
        injection hstep with hstep
        subst hstep
        refine recv_update_inv t _ J K req flow0 env c a b
          (PoolOp.apply (.set_connected b false))
          (fun n => { n with connected := false }) ((listen_connection_exit a b).drop 2)
          l n hc hid0 hm hex hnone hinv rfl (fun j => getElem?_modifyAt _ _ _ _) rfl hl hn rfl
          hav ?_ ?_
        · exact Or.inr (Or.inr ⟨2, by omega, rfl, hexit, hcl, fun hh => by omega,
            fun _ => rfl⟩)
        · rw [hq2]
          simp [inc_in_flight, listen_connection_exit, hbusy, PoolOp.apply]
      · -- `node->busy = false`
        have hconn := h23 (by omega)
        have hq2 : recv_pending t.recv a b =
            Op.pool a (.set_busy b false) :: (listen_connection_exit a b).drop 3 := hqd
        simp only [thread_step, hq2] at hstep
        injection hstep with hstep
        subst hstep
        refine recv_update_inv t _ J K req flow0 env c a b (PoolOp.apply (.set_busy b false))
          (fun n => { n with busy := false }) ((listen_connection_exit a b).drop 3)
          l n hc hid0 hm hex hnone hinv rfl (fun j => getElem?_modifyAt _ _ _ _) rfl hl hn rfl
          hav ?_ ?_
        · exact Or.inr (Or.inr ⟨3, by omega, rfl, hexit, hcl, fun hh => by omega,
            fun _ => hconn⟩)
        · rw [hq2]
          simp [inc_in_flight, listen_connection_exit, hconn, PoolOp.apply]
      · -- the receiver returns
        have hconn := h23 (by omega)
        have hq2 : recv_pending t.recv a b =
            Op.pool a (.thread_return b) :: (listen_connection_exit a b).drop 4 := hqd
        simp only [thread_step, hq2] at hstep
        injection hstep with hstep
        subst hstep
        refine recv_update_inv t _ J K req flow0 env c a b (PoolOp.apply (.thread_return b))
          (fun n => { n with exited := true }) ((listen_connection_exit a b).drop 4)
          l n hc hid0 hm hex hnone hinv rfl (fun j => getElem?_modifyAt _ _ _ _) rfl hl hn rfl
          hav ?_ ?_
        · exact Or.inl ⟨rfl, rfl, hconn, hcl⟩
        · rw [hq2]
          simp [inc_in_flight, listen_connection_exit, hconn, PoolOp.apply]

theorem recv_inv_pick (j k : Nat) (n : conn_node) (q : List Op) (h : recv_inv j k n q .free)
    (hc : n.connected = true) (hb : n.busy = false) : recv_inv j k n q .picked := by
  rcases h with ⟨_, _, hconn, _⟩ | ⟨flow, now, d, hid, hd7, hqd, hexit, hconn, h0, h1, h2⟩ |
    ⟨d, hd3, hqd, hexit, hcl, h01, h23⟩
  · rw [hc] at hconn
    cases hconn
  · by_cases hd : 2 ≤ d
    · rcases h2 hd with hs | ⟨x, _, _, hbusy⟩
      · exact recv_inv_open j k n q _ flow now d hid hd hd7 hqd hexit hconn ⟨hb, hs⟩
      · rw [hb] at hbusy
        cases hbusy
    · have hd01 : d = 0 ∨ d = 1 := by omega
      rcases hd01 with hd0 | hd1
      · have := (h0 hd0).1
        rw [hb] at this
        cases this
      · have := (h1 hd1).1
        rw [hb] at this
        cases this
  · by_cases hd : 2 ≤ d
    · have := h23 hd
      rw [hc] at this
      cases this
    · have := (h01 (by omega)).2
      rw [hb] at this
      cases this

theorem recv_inv_set_busy (j k : Nat) (n : conn_node) (q : List Op)
    (h : recv_inv j k n q .picked) :
    recv_inv j k { n with busy := true } q .writing ∧ n.connected = true ∧ n.busy = false := by
  rcases h with ⟨_, _, _, hcl⟩ | ⟨flow, now, d, hid, hd7, hqd, hexit, hconn, h0, h1, h2⟩ |
    ⟨d, hd3, hqd, hexit, hcl, h01, h23⟩
  · exact absurd rfl hcl
  · by_cases hd : 2 ≤ d
    · obtain ⟨hb, hs⟩ := h2 hd
      exact ⟨recv_inv_open j k _ q _ flow now d hid hd hd7 hqd hexit hconn ⟨rfl, hs⟩, hconn, hb⟩
    · have hd01 : d = 0 ∨ d = 1 := by omega
      rcases hd01 with hd0 | hd1
      · have := (h0 hd0).2.2
        cases this
      · have := (h1 hd1).2.2
        cases this
  · exact absurd rfl hcl

theorem recv_inv_write (j k : Nat) (n : conn_node) (q : List Op) (flow : flow_metadata)
    (h : recv_inv j k n q .writing) (hid : flow.id ≠ 0) :
    recv_inv j k { n with sockfd := n.sockfd ++ [flow] } q .free ∧ recv_inv j k n q .free ∧
      (n.connected && !n.busy) = false := by
  rcases h with ⟨hq, hexit, hconn, hcl⟩ |
    ⟨flow1, now, d, hid1, hd7, hqd, hexit, hconn, h0, h1, h2⟩ |
    ⟨d, hd3, hqd, hexit, hcl, h01, h23⟩
  · refine ⟨Or.inl ⟨hq, hexit, hconn, by decide⟩, Or.inl ⟨hq, hexit, hconn, by decide⟩, ?_⟩
    simp [hconn]
  · by_cases hd : 2 ≤ d
    · obtain ⟨hb, hs⟩ := h2 hd
      refine ⟨recv_inv_open j k _ q _ flow1 now d hid1 hd hd7 hqd hexit hconn
          (Or.inr ⟨flow, by simp [hs], hid, hb⟩),
        recv_inv_open j k _ q _ flow1 now d hid1 hd hd7 hqd hexit hconn (Or.inl hs), ?_⟩
      simp [hb]
    · have hd01 : d = 0 ∨ d = 1 := by omega
      rcases hd01 with hd0 | hd1
      · have := (h0 hd0).2.2
        cases this
      · have := (h1 hd1).2.2
        cases this
  · refine ⟨Or.inr (Or.inr ⟨d, hd3, hqd, hexit, by decide, h01, h23⟩),
      Or.inr (Or.inr ⟨d, hd3, hqd, hexit, by decide, h01, h23⟩), ?_⟩
    by_cases hd : 2 ≤ d
    · simp [h23 hd]
    · simp [(h01 (by omega)).2]

theorem listen_connection_ops_response (a b : Nat) (flow : flow_metadata) (now : timeval)
    (hid : flow.id ≠ 0) :
    listen_connection_ops a b (.complete flow) now = response_ops a b flow now := by
  simp [listen_connection_ops, response_ops, hid]

theorem pool_of_node (s : State) (a b : Nat) (n : conn_node)
    (h : (pool_at s a).nodes[b]? = some n) :
    ∃ l, s.connection_lists[a]? = some l ∧ l.nodes[b]? = some n := by
  cases hl : s.connection_lists[a]? with
  | none =>
    have hz : pool_at s a = conn_list_zero := by
      unfold pool_at
      rw [List.getD_eq_getElem?_getD, hl]
      rfl
    rw [hz] at h
    simp [conn_list_zero] at h
  | some l =>
    rw [pool_at_of_getElem? s a l hl] at h
    exact ⟨l, rfl, h⟩

theorem recv_read_inv (p : Plan) (t t1 : Threads) (a b : Nat) (r : ReadResult) (now : timeval)
    (hreg : (Move.recv_read a b r now).regular t = true)
    (hstep : thread_step p (.recv_read a b r now) t = some t1) (h : threads_inv t) :
    threads_inv t1 := by
  obtain ⟨J, K, req, flow0, env, c, hc, hid0, hm, hex, hnone, hinv⟩ := h
  cases hnode0 : (pool_at t.st a).nodes[b]? with
  | none =>
    simp only [thread_step, hnode0] at hstep
    cases hstep
  | some n =>
    cases hq : recv_pending t.recv a b with
    | cons o rest =>
      simp only [thread_step, hnode0, hq] at hstep
      cases hstep
    | nil =>
      simp only [thread_step, hnode0, hq] at hstep
      by_cases hcond : (!n.exited && read_possible n.sockfd r) = true
      · rw [if_pos hcond] at hstep
        injection hstep with hstep
        subst hstep
        obtain ⟨l, hl, hn⟩ := pool_of_node t.st a b n hnode0
        have hpool := hinv a l hl
        have hav := hpool.1
        have hid_nodes : l.nodes = modifyAt (fun n => n) b l.nodes :=
          (modifyAt_same _ (fun _ => rfl) _ _).symm
        have hexited : n.exited = false := by
          cases hx : n.exited with
          | false => rfl
          | true => rw [hx] at hcond; simp at hcond
        have hread : read_possible n.sockfd r = true := by
          cases hx : read_possible n.sockfd r with
          | true => rfl
          | false => rw [hx] at hcond; simp at hcond
        have hinvn := hpool.2.2.2 b n hn
        rw [hq] at hinvn
        have hopen : n.connected = true ∧ open_ok n (claim_of J K c a b) := by
          rcases hinvn with ⟨_, hx, _, _⟩ |
            ⟨flow, now1, d, hid, hd7, hqd, _, hconn, h0, h1, h2⟩ |
            ⟨d, hd3, hqd, _, _, _, _⟩
          · rw [hexited] at hx
            cases hx
          · have hd : d = 7 := by
              by_contra hne
              have hlen := congrArg List.length hqd
              simp [response_ops] at hlen
              omega
            exact ⟨hconn, h2 (by omega)⟩
          · have hlen := congrArg List.length hqd
            simp [listen_connection_exit] at hlen
            omega
        obtain ⟨hconn, hopen⟩ := hopen
        refine recv_update_inv t _ J K req flow0 env c a b (fun l => l) (fun n => n)
          (listen_connection_ops a b r now) l n hc hid0 hm hex hnone hinv rfl
          (fun j => lists_same _ a j) rfl hl hn hid_nodes hav ?_ ?_
        · cases r with
          | header_failed =>
            have hbusy : n.busy = true := by
              simpa [Move.regular, hnode0] using hreg
            refine Or.inr (Or.inr ⟨0, by omega, rfl, hexited, ?_, fun _ => ⟨hconn, hbusy⟩,
              fun hh => by omega⟩)
            intro hcl
            rw [hcl] at hopen
            rw [hopen.1] at hbusy
            cases hbusy
          | short_payload flow =>
            have hbusy : n.busy = true := by
              simpa [Move.regular, hnode0] using hreg
            refine Or.inr (Or.inr ⟨0, by omega, rfl, hexited, ?_, fun _ => ⟨hconn, hbusy⟩,
              fun hh => by omega⟩)
            intro hcl
            rw [hcl] at hopen
            rw [hopen.1] at hbusy
            cases hbusy
          | complete flow =>
            have hhead : n.sockfd.head? = some flow := by
              simpa [read_possible] using hread
            generalize claim_of J K c a b = cl at hopen ⊢
            cases cl with
            | free =>
              rcases hopen with hs | ⟨x, hs, hx, hbusy⟩
              · rw [hs] at hhead
                cases hhead
              · rw [hs] at hhead
                simp only [List.head?_cons] at hhead
                injection hhead with hhead
                subst hhead
                exact Or.inr (Or.inl ⟨x, now, 0, hx, by omega,
                  listen_connection_ops_response a b x now hx, hexited, hconn,
                  fun _ => ⟨hbusy, hs, rfl⟩, fun hh => by omega, fun hh => by omega⟩)
            | picked =>
              rw [hopen.2] at hhead
              cases hhead
            | writing =>
              rw [hopen.2] at hhead
              cases hhead
        · rw [hq]
          have hnot : inc_in_flight (listen_connection_ops a b r now) = false := by
            cases r with
            | header_failed => rfl
            | short_payload flow => rfl
            | complete flow =>
              by_cases hid : flow.id = 0
              · simp [inc_in_flight, listen_connection_ops, listen_connection_exit, hid]
              · simp [inc_in_flight, listen_connection_ops, hid]
          rw [hnot]
          rfl
      · rw [if_neg hcond] at hstep
        cases hstep

theorem ghost_other (J K c J1 K1 c1 j k : Nat) (hj : j ≠ J) (hj1 : j ≠ J1) :
    claim_of J1 K1 c1 j k = claim_of J K c j k ∧ dec_at J1 c1 j = dec_at J c j := by
  simp [claim_of, dec_at, hj, hj1]

theorem ghost_idle (J K J1 K1 c1 j k : Nat) (hc1 : c1 = 0 ∨ c1 = 8) :
    claim_of J1 K1 c1 j k = claim_of J K 8 j k ∧ dec_at J1 c1 j = dec_at J 8 j := by
  rcases hc1 with h | h <;> subst h <;> simp [claim_of, claim_at, dec_at]

theorem ghost_missing_inv (t t1 : Threads) (J K req : Nat) (flow : flow_metadata)
    (env : DispatchEnv) (c c1 : Nat) (hc1 : c1 ≤ 8) (hid : flow.id ≠ 0)
    (hm1 : t1.main = (dispatch_ops J K req flow env).drop c1)
    (hlists : ∀ j : Nat, t1.st.connection_lists[j]? = t.st.connection_lists[j]?)
    (hrecv : t1.recv = t.recv)
    (hJ : t.st.connection_lists[J]? = none)
    (hnone : ∀ j, t.st.connection_lists[j]? = none → ∀ k, recv_pending t.recv j k = [])
    (hinv : ∀ j l, t.st.connection_lists[j]? = some l → pool_inv t.recv J K c j l) :
    threads_inv t1 := by
  refine threads_ghost_inv t t1 J K c J K req flow env c1 hc1 hid hm1 hlists hrecv ?_ hnone hinv ?_
  · intro l hl
    rw [hJ] at hl
    cases hl
  · intro j l hl
    have hj : j ≠ J := by
      intro hh
      rw [hh, hJ] at hl
      cases hl
    exact ⟨fun k => (ghost_other J K c J K c1 j k hj hj).1, (ghost_other J K c J K c1 j 0 hj hj).2⟩

theorem pool_inv_insert (recv : List ((Nat × Nat) × List Op)) (J K : Nat) (l : conn_list)
    (hl : pool_inv recv J K 0 J l) (hK : l.nodes.length = K) :
    pool_inv recv J K 1 J (PoolOp.apply .insert_conn l) := by
  obtain ⟨h1, h2, h3, h4⟩ := hl
  have hnodes : (PoolOp.apply .insert_conn l).nodes = l.nodes ++ [conn_node_new] := rfl
  have hp : recv_pending recv J l.nodes.length = [] := h3 _ (Nat.le_refl _)
  refine ⟨u32_inc_lt _ h1, ?_, ?_, ?_⟩
  · have hr : receivers_in_flight recv J (PoolOp.apply .insert_conn l).nodes.length =
        receivers_in_flight recv J l.nodes.length := by
      rw [hnodes, List.length_append]
      unfold receivers_in_flight
      simp only [List.length_cons, List.length_nil, Nat.zero_add]
      rw [List.range_succ, List.countP_append]
      simp [hp, inc_in_flight]
    have hf : free_count (PoolOp.apply .insert_conn l) = free_count l + 1 := by
      unfold free_count
      rw [hnodes, List.countP_append]
      simp [conn_node_new]
    have hav : (PoolOp.apply .insert_conn l).available_len = u32_inc l.available_len := rfl
    have hd0 : dec_at J 0 J = 0 := by simp [dec_at]
    have hd1 : dec_at J 1 J = 0 := by simp [dec_at]
    rw [hr, hf, hav, hd1, u32_inc_eq_mod _ h1]
    rw [hd0] at h2
    omega
  · intro k hk
    rw [hnodes, List.length_append] at hk
    exact h3 k (by omega)
  · intro k n hn
    rw [hnodes] at hn
    by_cases hk : k < l.nodes.length
    · rw [List.getElem?_append_left hk] at hn
      have hcl : claim_of J K 1 J k = claim_of J K 0 J k := by
        have hkK : k ≠ K := by omega
        simp [claim_of, claim_at, hkK]
      rw [hcl]
      exact h4 k n hn
    · rw [List.getElem?_append_right (by omega)] at hn
      have hk0 : k = l.nodes.length := by
        by_contra hne
        have hpos : k - l.nodes.length = (k - l.nodes.length - 1) + 1 := by omega
        rw [hpos] at hn
        simp at hn
      subst hk0
      simp only [Nat.sub_self, List.getElem?_cons_zero] at hn
      injection hn with hn
      subst hn
      rw [hp]
      have hcl : claim_of J K 1 J l.nodes.length = .picked := by
        simp [claim_of, claim_at, hK]
      rw [hcl]
      exact recv_inv_open J l.nodes.length conn_node_new [] .picked
        { id := 1, size := 0, tos := 0, rate := 0 } timeval_zero 7 (by decide) (by omega)
        (by omega) rfl rfl rfl ⟨rfl, rfl⟩

theorem main_stmt_inv (p : Plan) (t t1 : Threads)
    (hstep : thread_step p .main_stmt t = some t1) (h : threads_inv t) : threads_inv t1 := by
  obtain ⟨J, K, req, flow, env, c, hc, hid, hm, hex, hnone, hinv⟩ := h
  have hsamerecv : ∀ j k, recv_pending t.recv j k =
      if j = J ∧ k = K then recv_pending t.recv J K else recv_pending t.recv j k := by
    intro j k
    by_cases hjk : j = J ∧ k = K
    · rw [if_pos hjk, hjk.1, hjk.2]
    · rw [if_neg hjk]
  have hclaim : ∀ c1 j k, ¬ (j = J ∧ k = K) → claim_of J K c1 j k = claim_of J K c j k := by
    intro c1 j k hjk
    simp [claim_of, hjk]
  have hdec : ∀ c1 j, j ≠ J → dec_at J c1 j = dec_at J c j := by
    intro c1 j hj
    simp [dec_at, hj]
  interval_cases c
  · -- `insert_conn_list(&connection_lists[server_id], 1)`
    have hm2 : t.main = Op.pool J .insert_conn :: (dispatch_ops J K req flow env).drop 1 := hm
    simp only [thread_step, hm2] at hstep
    injection hstep with hstep
    subst hstep
    cases hl : t.st.connection_lists[J]? with
    | none =>
      exact ghost_missing_inv t _ J K req flow env 0 1 (by omega) hid rfl
        (fun j => by
          show (modifyAt (PoolOp.apply .insert_conn) J t.st.connection_lists)[j]? = _
          rw [modifyAt_none _ _ _ hl]) rfl hl hnone hinv
    | some l =>
      have hK := (hex l hl).1 rfl
      have hget : ∀ j : Nat,
          (modifyAt (PoolOp.apply .insert_conn) J t.st.connection_lists)[j]? =
            if j = J then (t.st.connection_lists[j]?).map (PoolOp.apply .insert_conn)
            else t.st.connection_lists[j]? := fun j => getElem?_modifyAt _ _ _ _
      refine ⟨J, K, req, flow, env, 1, by omega, hid, rfl, ?_, ?_, ?_⟩
      · intro l1 hl1
        have hl1b : (modifyAt (PoolOp.apply .insert_conn) J t.st.connection_lists)[J]? =
            some l1 := hl1
        rw [hget, if_pos rfl, hl] at hl1b
        simp only [Option.map_some'] at hl1b
        injection hl1b with hl1b
        subst hl1b
        refine ⟨fun hh => by omega, fun _ _ => ?_⟩
        show K < (l.nodes ++ [conn_node_new]).length
        rw [List.length_append]
        simp
        omega
      · intro j hj k
        have hjb : (modifyAt (PoolOp.apply .insert_conn) J t.st.connection_lists)[j]? = none :=
          hj
        rw [hget] at hjb
        by_cases hjJ : j = J
        · rw [if_pos hjJ, hjJ, hl] at hjb
          cases hjb
        · rw [if_neg hjJ] at hjb
          exact hnone j hjb k
      · intro j l1 hl1
        have hl1b : (modifyAt (PoolOp.apply .insert_conn) J t.st.connection_lists)[j]? =
            some l1 := hl1
        rw [hget] at hl1b
        by_cases hjJ : j = J
        · subst hjJ
          rw [if_pos rfl, hl] at hl1b
          simp only [Option.map_some'] at hl1b
          injection hl1b with hl1b
          subst hl1b
          exact pool_inv_insert t.recv j K l (hinv j l hl) hK
        · rw [if_neg hjJ] at hl1b
          exact pool_inv_same _ _ J K 0 J K 1 j l1 (hinv j l1 hl1b) (fun _ => rfl)
            (fun k => (ghost_other J K 0 J K 1 j k hjJ hjJ).1)
            (ghost_other J K 0 J K 1 j 0 hjJ hjJ).2
  · -- `pthread_create`
    have hm2 : t.main =
        Op.pool J (.pthread_create K) :: (dispatch_ops J K req flow env).drop 2 := hm
    simp only [thread_step, hm2] at hstep
    injection hstep with hstep
    subst hstep
    refine threads_ghost_inv t _ J K 1 J K req flow env 2 (by omega) hid rfl
      (fun j => by
        show (modifyAt (PoolOp.apply (.pthread_create K)) J t.st.connection_lists)[j]? = _
        rw [modifyAt_same (PoolOp.apply (.pthread_create K)) (fun _ => rfl)]) rfl
      (fun l hl => ⟨fun hh => by omega, fun _ _ => (hex l hl).2 (by omega) (by omega)⟩)
      hnone hinv (fun j l _ => ⟨fun k => by simp [claim_of, claim_at], by simp [dec_at]⟩)
  · -- `gettimeofday(&req_start_time[req_id])`
    have hm2 : t.main =
        Op.gettimeofday_start req env.now :: (dispatch_ops J K req flow env).drop 3 := hm
    simp only [thread_step, hm2] at hstep
    injection hstep with hstep
    subst hstep
    refine threads_ghost_inv t _ J K 2 J K req flow env 3 (by omega) hid rfl
      (fun j => rfl) rfl
      (fun l hl => ⟨fun hh => by omega, fun _ _ => (hex l hl).2 (by omega) (by omega)⟩)
      hnone hinv (fun j l _ => ⟨fun k => by simp [claim_of, claim_at], by simp [dec_at]⟩)
  · -- `node->busy = true`
    have hm2 : t.main =
        Op.pool J (.set_busy K true) :: (dispatch_ops J K req flow env).drop 4 := hm
    simp only [thread_step, hm2] at hstep
    injection hstep with hstep
    subst hstep
    cases hl : t.st.connection_lists[J]? with
    | none =>
      exact ghost_missing_inv t _ J K req flow env 3 4 (by omega) hid rfl
        (fun j => by
          show (modifyAt (PoolOp.apply (.set_busy K true)) J t.st.connection_lists)[j]? = _
          rw [modifyAt_none _ _ _ hl]) rfl hl hnone hinv
    | some l =>
      have hK := (hex l hl).2 (by omega) (by omega)
      have hn : l.nodes[K]? = some l.nodes[K] := List.getElem?_eq_getElem hK
      have hpool := hinv J l hl
      have hinvn := hpool.2.2.2 K _ hn
      have hcl : claim_of J K 3 J K = .picked := by simp [claim_of, claim_at]
      have hcl1 : claim_of J K 4 J K = .writing := by simp [claim_of, claim_at]
      rw [hcl] at hinvn
      obtain ⟨hnew, hconn, hbusy⟩ := recv_inv_set_busy J K _ _ hinvn
      refine threads_update_inv t _ J K req flow env 3 4 J K (PoolOp.apply (.set_busy K true))
        (fun n => { n with busy := true }) (recv_pending t.recv J K) l _ (by omega) hid rfl
        (fun l hl => ⟨fun hh => by omega, fun _ _ => (hex l hl).2 (by omega) (by omega)⟩)
        hnone hinv (fun j => getElem?_modifyAt _ _ _ _) hsamerecv hl hn rfl hpool.1
        (hclaim 4) (hdec 4) ?_ ?_
      · rw [hcl1]
        exact hnew
      · simp [hconn, hbusy, dec_at, PoolOp.apply]
  · -- `pthread_mutex_lock`
    have hm2 : t.main = Op.pool J .lock :: (dispatch_ops J K req flow env).drop 5 := hm
    simp only [thread_step, hm2] at hstep
    injection hstep with hstep
    subst hstep
    refine threads_ghost_inv t _ J K 4 J K req flow env 5 (by omega) hid rfl
      (fun j => by
        show (modifyAt (PoolOp.apply .lock) J t.st.connection_lists)[j]? = _
        rw [modifyAt_same (PoolOp.apply .lock) (fun _ => rfl)]) rfl
      (fun l hl => ⟨fun hh => by omega, fun _ _ => (hex l hl).2 (by omega) (by omega)⟩)
      hnone hinv (fun j l _ => ⟨fun k => by simp [claim_of, claim_at], by simp [dec_at]⟩)
  · -- `available_len--`
    have hm2 : t.main =
        Op.pool J .available_len_dec :: (dispatch_ops J K req flow env).drop 6 := hm
    simp only [thread_step, hm2] at hstep
    injection hstep with hstep
    subst hstep
    cases hl : t.st.connection_lists[J]? with
    | none =>
      exact ghost_missing_inv t _ J K req flow env 5 6 (by omega) hid rfl
        (fun j => by
          show (modifyAt (PoolOp.apply .available_len_dec) J t.st.connection_lists)[j]? = _
          rw [modifyAt_none _ _ _ hl]) rfl hl hnone hinv
    | some l =>
      have hK := (hex l hl).2 (by omega) (by omega)
      have hn : l.nodes[K]? = some l.nodes[K] := List.getElem?_eq_getElem hK
      have hpool := hinv J l hl
      have hinvn := hpool.2.2.2 K _ hn
      have hcl : claim_of J K 6 J K = claim_of J K 5 J K := by simp [claim_of, claim_at]
      refine threads_update_inv t _ J K req flow env 5 6 J K (PoolOp.apply .available_len_dec)
        (fun n => n) (recv_pending t.recv J K) l _ (by omega) hid rfl
        (fun l hl => ⟨fun hh => by omega, fun _ _ => (hex l hl).2 (by omega) (by omega)⟩)
        hnone hinv (fun j => getElem?_modifyAt _ _ _ _) hsamerecv hl hn
        (modifyAt_same _ (fun _ => rfl) _ _).symm (u32_dec_lt _ hpool.1)
        (hclaim 6) (hdec 6) ?_ ?_
      · rw [hcl]
        exact hinvn
      · have hdecv := u32_dec_eq_mod l.available_len hpool.1
        have hd5 : dec_at J 5 J = 1 := by simp [dec_at]
        have hd6 : dec_at J 6 J = 0 := by simp [dec_at]
        rw [hd5, hd6]
        show (u32_dec l.available_len + _ + _ + 1) % 2 ^ 32 = _
        rw [hdecv]
        generalize (if inc_in_flight (recv_pending t.recv J K) = true then 1 else 0) = iq
        generalize (if (l.nodes[K].connected && !l.nodes[K].busy) = true then 1 else 0) = fn
        have hav := hpool.1
        omega
  · -- `pthread_mutex_unlock`
    have hm2 : t.main = Op.pool J .unlock :: (dispatch_ops J K req flow env).drop 7 := hm
    simp only [thread_step, hm2] at hstep
    injection hstep with hstep
    subst hstep
    refine threads_ghost_inv t _ J K 6 J K req flow env 7 (by omega) hid rfl
      (fun j => by
        show (modifyAt (PoolOp.apply .unlock) J t.st.connection_lists)[j]? = _
        rw [modifyAt_same (PoolOp.apply .unlock) (fun _ => rfl)]) rfl
      (fun l hl => ⟨fun hh => by omega, fun _ _ => (hex l hl).2 (by omega) (by omega)⟩)
      hnone hinv (fun j l _ => ⟨fun k => by simp [claim_of, claim_at], by simp [dec_at]⟩)
  · -- `write_flow_req`
    have hm2 : t.main = Op.pool J (.write_flow_req K flow env.write_ok) ::
        (dispatch_ops J K req flow env).drop 8 := hm
    simp only [thread_step, hm2] at hstep
    injection hstep with hstep
    subst hstep
    cases hl : t.st.connection_lists[J]? with
    | none =>
      exact ghost_missing_inv t _ J K req flow env 7 8 (by omega) hid rfl
        (fun j => by
          show (modifyAt (PoolOp.apply (.write_flow_req K flow env.write_ok)) J
            t.st.connection_lists)[j]? = _
          rw [modifyAt_none _ _ _ hl]) rfl hl hnone hinv
    | some l =>
      have hK := (hex l hl).2 (by omega) (by omega)
      have hn : l.nodes[K]? = some l.nodes[K] := List.getElem?_eq_getElem hK
      have hpool := hinv J l hl
      have hinvn := hpool.2.2.2 K _ hn
      have hcl : claim_of J K 7 J K = .writing := by simp [claim_of, claim_at]
      have hcl1 : claim_of J K 8 J K = .free := by simp [claim_of, claim_at]
      rw [hcl] at hinvn
      obtain ⟨hsent, hkept, hnotfree⟩ := recv_inv_write J K _ _ flow hinvn hid
      have hd7 : dec_at J 7 J = 0 := by simp [dec_at]
      have hd8 : dec_at J 8 J = 0 := by simp [dec_at]
      cases hok : env.write_ok with
      | true =>
        refine threads_update_inv t _ J K req flow env 7 8 J K
          (PoolOp.apply (.write_flow_req K flow true))
          (fun n => { n with sockfd := n.sockfd ++ [flow] }) (recv_pending t.recv J K) l _
          (by omega) hid rfl
          (fun l hl => ⟨fun hh => by omega, fun _ hh => by omega⟩)
          hnone hinv (fun j => getElem?_modifyAt _ _ _ _) hsamerecv hl hn rfl hpool.1
          (hclaim 8) (hdec 8) ?_ ?_
        · rw [hcl1]
          exact hsent
        · rw [hd7, hd8]
          rfl
      | false =>
        refine threads_update_inv t _ J K req flow env 7 8 J K
          (PoolOp.apply (.write_flow_req K flow false))
          (fun n => n) (recv_pending t.recv J K) l _
          (by omega) hid rfl
          (fun l hl => ⟨fun hh => by omega, fun _ hh => by omega⟩)
          hnone hinv (fun j => getElem?_modifyAt _ _ _ _) hsamerecv hl hn
          (modifyAt_same _ (fun _ => rfl) _ _).symm hpool.1
          (hclaim 8) (hdec 8) ?_ ?_
        · rw [hcl1]
          exact hkept
        · rw [hd7, hd8]
          rfl
  · -- no statement is left
    have hm2 : t.main = [] := hm
    simp only [thread_step, hm2] at hstep
    cases hstep

theorem main_call_inv (p : Plan) (hp : p.req_total_num < 2 ^ 32) (t t1 : Threads)
    (env : DispatchEnv) (found : Option Nat) (hreg : (Move.main_call env found).regular t = true)
    (hstep : thread_step p (.main_call env found) t = some t1) (h : threads_inv t) :
    threads_inv t1 := by
  obtain ⟨J, K, req, flow, env0, c, hc, hid, hm, hex, hnone, hinv⟩ := h
  cases hmain : t.main with
  | cons o rest =>
    simp only [thread_step, main_call, hmain] at hstep
    cases hstep
  | nil =>
    have hc8 : c = 8 := by
      have hlen := congrArg List.length (hm.symm.trans hmain)
      simp [dispatch_ops, run_request_send] at hlen
      omega
    subst hc8
    cases hpc : t.pc with
    | exit_connections i ptr => simp [Move.regular, hpc] at hreg
    | wait_conn_list i => simp [Move.regular, hpc] at hreg
    | finished => simp [Move.regular, hpc] at hreg
    | run_requests i =>
      simp only [thread_step, main_call, hmain, hpc] at hstep
      by_cases hi : i < p.req_total_num
      · rw [if_pos hi] at hstep
        by_cases hok : search_result_ok t.st (rd p.req_server_id i) found = true
        · rw [if_pos hok] at hstep
          injection hstep with hstep
          subst hstep
          have hflow := run_request_flow_id p i hi hp
          cases found with
          | none =>
            by_cases hco : env.connect_ok = true
            · have hops : run_request_ops_found p env i none
                  (pool_at t.st (rd p.req_server_id i)).nodes.length =
                  (dispatch_ops (rd p.req_server_id i)
                    (pool_at t.st (rd p.req_server_id i)).nodes.length i (run_request_flow p i)
                    env).drop 0 := by
                simp only [run_request_ops_found, hco, if_true]
                rfl
              refine threads_ghost_inv t _ J K 8 (rd p.req_server_id i)
                (pool_at t.st (rd p.req_server_id i)).nodes.length i (run_request_flow p i) env 0
                (by omega) hflow hops (fun j => rfl) rfl ?_ hnone hinv
                (fun j l _ => ⟨fun k => (ghost_idle J K _ _ 0 j k (Or.inl rfl)).1,
                  (ghost_idle J K (rd p.req_server_id i) 0 0 j 0 (Or.inl rfl)).2⟩)
              intro l hl
              refine ⟨fun _ => ?_, fun hh => by omega⟩
              rw [pool_at_of_getElem? t.st _ l hl]
            · have hops : run_request_ops_found p env i none
                  (pool_at t.st (rd p.req_server_id i)).nodes.length =
                  (dispatch_ops J K req flow env0).drop 8 := by
                simp only [run_request_ops_found, hco]
                rfl
              exact threads_ghost_inv t _ J K 8 J K req flow env0 8 (by omega) hid hops
                (fun j => rfl) rfl (fun l hl => ⟨fun hh => by omega, fun _ hh => by omega⟩)
                hnone hinv (fun j l _ => ⟨fun k => rfl, rfl⟩)
          | some k =>
            have hfree : ∃ n, (pool_at t.st (rd p.req_server_id i)).nodes[k]? = some n ∧
                n.connected = true ∧ n.busy = false := by
              simp only [search_result_ok] at hok
              cases hn0 : (pool_at t.st (rd p.req_server_id i)).nodes[k]? with
              | none => rw [hn0] at hok; cases hok
              | some n =>
                rw [hn0] at hok
                refine ⟨n, rfl, ?_⟩
                simpa using hok
            obtain ⟨n, hn0, hconn, hbusy⟩ := hfree
            obtain ⟨l, hl, hn⟩ := pool_of_node t.st _ k n hn0
            have hops : run_request_ops_found p env i (some k)
                (pool_at t.st (rd p.req_server_id i)).nodes.length =
                (dispatch_ops (rd p.req_server_id i) k i (run_request_flow p i) env).drop 2 :=
              rfl
            have hinv1 : ∀ j l, t.st.connection_lists[j]? = some l →
                pool_inv t.recv (rd p.req_server_id i) k 8 j l := by
              intro j l hl
              exact pool_inv_same _ _ J K 8 _ _ 8 j l (hinv j l hl) (fun _ => rfl)
                (fun k1 => (ghost_idle J K _ _ 8 j k1 (Or.inr rfl)).1)
                (ghost_idle J K (rd p.req_server_id i) 0 8 j 0 (Or.inr rfl)).2
            have hpool := hinv1 _ l hl
            have hinvn := hpool.2.2.2 k n hn
            have hcl : claim_of (rd p.req_server_id i) k 8 (rd p.req_server_id i) k =
                .free := by
              simp [claim_of, claim_at]
            have hcl1 : claim_of (rd p.req_server_id i) k 2 (rd p.req_server_id i) k =
                .picked := by
              simp [claim_of, claim_at]
            rw [hcl] at hinvn
            have hb : k < l.nodes.length := by
              by_contra hcon
              rw [List.getElem?_eq_none (by omega)] at hn
              cases hn
            refine threads_update_inv t _ (rd p.req_server_id i) k i (run_request_flow p i) env
              8 2 (rd p.req_server_id i) k (fun l => l) (fun n => n)
              (recv_pending t.recv (rd p.req_server_id i) k) l n (by omega) hflow hops ?_ hnone
              hinv1 (fun j => lists_same _ _ j) ?_ hl hn
              (modifyAt_same _ (fun _ => rfl) _ _).symm hpool.1 ?_ ?_ ?_ ?_
            · intro l1 hl1
              rw [hl] at hl1
              injection hl1 with hl1
              subst hl1
              exact ⟨fun hh => by omega, fun _ _ => hb⟩
            · intro j k1
              by_cases hjk : j = rd p.req_server_id i ∧ k1 = k
              · rw [if_pos hjk, hjk.1, hjk.2]
              · rw [if_neg hjk]
            · intro j k1 hjk
              simp [claim_of, hjk]
            · intro j hj
              simp [dec_at, hj]
            · rw [hcl1]
              exact recv_inv_pick _ _ n _ hinvn hconn hbusy
            · simp [dec_at]
        · rw [if_neg hok] at hstep
          cases hstep
      · rw [if_neg hi] at hstep
        injection hstep with hstep
        subst hstep
        exact threads_ghost_inv t _ J K 8 J K req flow env0 8 (by omega) hid rfl
          (fun j => rfl) rfl hex hnone hinv (fun j l _ => ⟨fun k => rfl, rfl⟩)

theorem thread_step_inv (p : Plan) (hp : p.req_total_num < 2 ^ 32) (mv : Move) (t t1 : Threads)
    (hreg : mv.regular t = true) (hstep : thread_step p mv t = some t1) (h : threads_inv t) :
    threads_inv t1 := by
  cases mv with
  | main_call env found => exact main_call_inv p hp t t1 env found hreg hstep h
  | main_stmt => exact main_stmt_inv p t t1 hstep h
  | recv_read a b r now => exact recv_read_inv p t t1 a b r now hreg hstep h
  | recv_stmt a b => exact recv_stmt_inv p t t1 a b hstep h

theorem run_regular_inv (p : Plan) (hp : p.req_total_num < 2 ^ 32) (moves : List Move)
    (t t1 : Threads) (hrun : run_regular p moves t = some t1) (h : threads_inv t) :
    threads_inv t1 := by
  induction moves generalizing t with
  | nil =>
    simp only [run_regular] at hrun
    injection hrun with hrun
    rw [← hrun]
    exact h
  | cons mv rest ih =>
    simp only [run_regular] at hrun
    by_cases hreg : mv.regular t = true
    · rw [if_pos hreg] at hrun
      cases hstep : thread_step p mv t with
      | none => rw [hstep] at hrun; cases hrun
      | some t2 =>
        rw [hstep] at hrun
        exact ih t2 hrun (thread_step_inv p hp mv t t2 hreg hstep h)
    · rw [if_neg hreg] at hrun
      cases hrun

theorem insert_conn_list_new (c : List Bool) (l : conn_list)
    (hl : l.available_len < 2 ^ 32 ∧ l.available_len = free_count l % 2 ^ 32 ∧
      ∀ n ∈ l.nodes, n = conn_node_new) :
    (insert_conn_list l c).1.available_len < 2 ^ 32 ∧
    (insert_conn_list l c).1.available_len = free_count (insert_conn_list l c).1 % 2 ^ 32 ∧
    ∀ n ∈ (insert_conn_list l c).1.nodes, n = conn_node_new := by
  unfold insert_conn_list
  simp only
  generalize c.filter id = succ
  induction succ generalizing l with
  | nil => exact hl
  | cons b rest ih =>
    rw [List.foldl_cons]
    apply ih
    obtain ⟨h1, h2, h3⟩ := hl
    refine ⟨u32_inc_lt _ h1, ?_, ?_⟩
    · have hf : free_count (PoolOp.apply .insert_conn l) = free_count l + 1 := by
        unfold free_count
        show (l.nodes ++ [conn_node_new]).countP _ = _
        rw [List.countP_append]
        simp [conn_node_new]
      rw [hf]
      show u32_inc l.available_len = _
      rw [u32_inc_eq_mod _ h1]
      omega
    · intro n hn
      have hn2 : n ∈ l.nodes ++ [conn_node_new] := hn
      rw [List.mem_append] at hn2
      rcases hn2 with hn2 | hn2
      · exact h3 n hn2
      · simpa using hn2

theorem threads_init_inv (connects : List (List Bool)) (n : Nat) (sys0 : System)
    (h0 : main_init connects n = some sys0) : threads_inv (threads_init sys0) := by
  unfold main_init at h0
  split at h0
  · injection h0 with h0
    subst h0
    refine ⟨0, 0, 0, { id := 1, size := 0, tos := 0, rate := 0 },
      { connect_ok := false, write_ok := false, now := timeval_zero }, 8, by omega, by decide,
      rfl, fun l _ => ⟨fun hh => by omega, fun _ hh => by omega⟩, fun _ _ _ => rfl, ?_⟩
    intro j l hl
    have hl2 : (connects.map (fun c => (insert_conn_list conn_list_zero c).1))[j]? = some l := hl
    simp only [List.getElem?_map] at hl2
    cases hc : connects[j]? with
    | none => rw [hc] at hl2; cases hl2
    | some c =>
      rw [hc] at hl2
      simp only [Option.map_some'] at hl2
      injection hl2 with hl2
      subst hl2
      obtain ⟨h1, h2, h3⟩ := insert_conn_list_new c conn_list_zero
        ⟨by decide, by decide, fun n hn => by cases hn⟩
      refine ⟨h1, ?_, fun _ _ => rfl, ?_⟩
      · have hr : receivers_in_flight [] j
            (insert_conn_list conn_list_zero c).1.nodes.length = 0 := by
          unfold receivers_in_flight
          rw [List.countP_eq_zero]
          intro k _
          simp [recv_pending, inc_in_flight]
        have hd : dec_at 0 8 j = 0 := by simp [dec_at]
        show ((insert_conn_list conn_list_zero c).1.available_len +
          receivers_in_flight [] j (insert_conn_list conn_list_zero c).1.nodes.length) % 2 ^ 32 = _
        rw [hr, hd]
        omega
      · intro k n hn
        have hnew := h3 n (List.getElem?_mem hn)
        subst hnew
        have hcl : claim_of 0 0 8 j k = .free := by simp [claim_of, claim_at]
        rw [hcl]
        exact recv_inv_open j k conn_node_new [] .free
          { id := 1, size := 0, tos := 0, rate := 0 } timeval_zero 7 (by decide) (by omega)
          (by omega) rfl rfl rfl (Or.inl rfl)
  · cases h0

theorem dispatcher_in_flight_at (J K req : Nat) (flow : flow_metadata) (env : DispatchEnv)
    (c j : Nat) (hc : c ≤ 8) :
    dispatcher_in_flight ((dispatch_ops J K req flow env).drop c) j = dec_at J c j := by
  interval_cases c <;>
    simp [dispatcher_in_flight, dec_in_flight, dispatch_ops, run_request_send, dec_at, eq_comm]

theorem search_result_ok_search (s : State) (server : Nat) :
    search_result_ok s server (search_conn_list (pool_at s server)) = true := by
  cases hs : search_conn_list (pool_at s server) with
  | none => rfl
  | some k =>
    obtain ⟨n, hn, hc, hb⟩ := search_conn_list_some _ k hs
    simp [search_result_ok, hn, hc, hb]

theorem run_request_ops_found_search (p : Plan) (env : DispatchEnv) (i : Nat) (s : State) :
    run_request_ops_found p env i (search_conn_list (pool_at s (rd p.req_server_id i)))
      (pool_at s (rd p.req_server_id i)).nodes.length = run_request_ops p env i s := by
  cases hs : search_conn_list (pool_at s (rd p.req_server_id i)) with
  | none => simp only [run_request_ops_found, run_request_ops, hs]
  | some k => simp only [run_request_ops_found, run_request_ops, hs]

/-- C7 on three runs. On one request and one connection: after
`exit_connection` has sent the sentinel, `available_len` is `0` while the node
is still connected and not busy (count `1`); after a failed read on the idle
connection, `available_len` is `1` while no node is connected (count `0`). On
two requests and one connection, statement by statement: the receiver of the
response to request `0` clears `busy` and is overtaken by the whole call
`run_request(1)`; when that call has returned, `available_len` is
`2 ^ 32 - 1` while no node is connected and not busy (count `0`). -/
theorem C7_conservation_broken :
    conservation_view ((main_init [[true]] 1).bind (run plan_one
      [ .main (env_ok 1),
        .recv 0 0 (.complete (run_request_flow plan_one 0)) { tv_sec := 2, tv_usec := 0 },
        .main (env_ok 3),
        .main (env_ok 4) ])) = some [(0, 1)] ∧
    conservation_view ((main_init [[true]] 1).bind (run plan_one
      [ .recv 0 0 .header_failed { tv_sec := 1, tv_usec := 0 } ])) = some [(1, 0)] ∧
    ((main_init [[true]] 2).bind (fun sys0 =>
      run_threads plan_two moves_overtaken (threads_init sys0))).map
        (fun t => (t.main, t.st.connection_lists.map (fun l => (l.available_len, free_count l)))) =
      some ([], [(4294967295, 0)]) := by
  decide

/-- C7, amended. In every state the threads reach, statement by statement,
from the initial grow while the main thread is in `run_requests` (calls of
`run_request` with any result of `search_conn_list` that is a free node or
none, receiver iterations that read a complete response, receiver iterations
whose read fails while the node is busy), for a plan of fewer than `2 ^ 32`
requests and for every pool: `available_len`, an `unsigned int`, plus the
number of receivers that have cleared `busy` (line 631) and not yet incremented
`available_len` (line 637) equals, modulo `2 ^ 32`, the number of nodes with
`connected = true` and `busy = false` plus `1` when the dispatcher has set
`busy` (line 728) and not yet decremented `available_len` (line 730) on that
pool. When no such update is in flight on the pool, `available_len` equals the
number of its nodes with `connected = true` and `busy = false` modulo
`2 ^ 32`, hence exactly for a pool of fewer than `2 ^ 32` nodes. -/
theorem C7_pool_conservation (p : Plan) (connects : List (List Bool)) (moves : List Move)
    (sys0 : System) (t : Threads) (hp : p.req_total_num < 2 ^ 32)
    (h0 : main_init connects p.req_total_num = some sys0)
    (hrun : run_regular p moves (threads_init sys0) = some t) :
    ∀ j l, t.st.connection_lists[j]? = some l →
      l.available_len < 2 ^ 32 ∧
      (l.available_len + receivers_in_flight t.recv j l.nodes.length) % 2 ^ 32 =
        (free_count l + dispatcher_in_flight t.main j) % 2 ^ 32 ∧
      (receivers_in_flight t.recv j l.nodes.length = 0 → dispatcher_in_flight t.main j = 0 →
        l.available_len = free_count l % 2 ^ 32 ∧
        (l.nodes.length < 2 ^ 32 → l.available_len = free_count l)) := by
  obtain ⟨J, K, req, flow, env, c, hc, hid, hm, hex, hnone, hinv⟩ :=
    run_regular_inv p hp moves _ t hrun (threads_init_inv connects _ sys0 h0)
  intro j l hl
  obtain ⟨hlt, heq, _, _⟩ := hinv j l hl
  have hd : dispatcher_in_flight t.main j = dec_at J c j := by
    rw [hm]
    exact dispatcher_in_flight_at J K req flow env c j hc
  rw [← hd] at heq
  refine ⟨hlt, heq, ?_⟩
  intro hr hdz
  rw [hr, hdz] at heq
  have hle : free_count l ≤ l.nodes.length := List.countP_le_length _
  have hmod : l.available_len = free_count l % 2 ^ 32 := by omega
  refine ⟨hmod, ?_⟩
  intro hlen
  omega

/-- C7 (amended) at the run `moves_overtaken` of `plan_two`: one receiver is
in flight, `available_len` is `2 ^ 32 - 1` and no node is connected and not
busy, and `2 ^ 32 - 1 + 1` is `0` modulo `2 ^ 32`. -/
theorem C7_pool_conservation_witness :
    plan_two.req_total_num < 2 ^ 32 ∧
    main_init [[true]] plan_two.req_total_num = some sys_two ∧
    run_regular plan_two moves_overtaken (threads_init sys_two) = some threads_overtaken ∧
    receivers_in_flight threads_overtaken.recv 0 1 = 1 ∧
    dispatcher_in_flight threads_overtaken.main 0 = 0 ∧
    ∀ j l, threads_overtaken.st.connection_lists[j]? = some l →
      l.available_len < 2 ^ 32 ∧
      (l.available_len + receivers_in_flight threads_overtaken.recv j l.nodes.length) % 2 ^ 32 =
        (free_count l + dispatcher_in_flight threads_overtaken.main j) % 2 ^ 32 ∧
      (receivers_in_flight threads_overtaken.recv j l.nodes.length = 0 →
        dispatcher_in_flight threads_overtaken.main j = 0 →
        l.available_len = free_count l % 2 ^ 32 ∧
        (l.nodes.length < 2 ^ 32 → l.available_len = free_count l)) :=
  ⟨by decide, by decide, by decide, by decide, by decide,
    C7_pool_conservation plan_two [[true]] moves_overtaken sys_two threads_overtaken
      (by decide) (by decide) (by decide)⟩

/-- Statement by statement, the run `actions_two` ends in the same state as
call by call. -/
theorem run_threads_two :
    run plan_two actions_two sys_two = some sys_two_finished ∧
    run_threads plan_two moves_two (threads_init sys_two) =
      some { pc := sys_two_finished.pc, st := sys_two_finished.st, main := [], recv := [] } := by
  decide

end TrafficGenerator
